import Mathlib

/-!
# ketrace: a verification development for `trace_t`

Shallow embedding of `src/src/trace.cpp` and `src/inc/trace.h`.

Modelling conventions.

* `std::string` is `String`; a `char` is a `Char`.
* `std::unordered_map<K, V>` is an association list with pairwise distinct keys, listed in
  iteration order; `std::unordered_set<std::string>` is a duplicate-free list, listed in
  iteration order; a new element is put at the end.
* `std::queue<std::string>` is a list whose head is the front; `std::stack<std::string>` is a
  list whose head is the top.
* A pointer into a registry map (`local_callflow`, `local_trace_fifo`) is `Option String`:
  `none` is `nullptr`, `some k` designates the entry stored under key `k` (references to the
  elements of an unordered map stay valid when other elements are inserted).
* Code that can leave the normal control flow returns an `Outcome`: a normal return, a call of
  `std::exit`, a thrown exception, or undefined behaviour.
* `std::cout`, `std::cerr` and the two file streams of `flush` accept everything written.
* A callback `std::function<error_handler_result_t()>` is its answer in `trace_t`; where the
  moment at which the callback runs matters, `stateful.trace_t` holds it as code that acts on
  the state, and `stateful.trace` embeds the same lines of `trace_t::trace` for it.
* Threads take turns call by call: a step of a `Process` is one call of one thread.
-/

namespace ketrace

/-! ## Types of `trace.h` -/

/-- The `enum class trace_level`. -/
inductive trace_level where
  | info
  | warn
  | error
  deriving DecidableEq, Repr

/-- The `enum class error_handler_result_t`. -/
inductive error_handler_result_t where
  | result_continue
  | result_terminate
  | result_terminate_on_next_trace
  deriving DecidableEq, Repr

/-- The callback type `std::function<error_handler_result_t()>`. -/
abbrev error_handler_t := Unit → error_handler_result_t

/-- The data members of a `trace_t` object: `where` (named `where_`, the word is reserved)
and `error_handler`, where `none` is the empty `std::function`. -/
structure trace_t where
  where_ : String
  error_handler : Option error_handler_t

/-- The member `str_info`. -/
def str_info : String := "info:  "

/-- The member `str_warn`. -/
def str_warn : String := "warn:  "

/-- The member `str_error`. -/
def str_error : String := "error: "

/-- The member `str_space`. -/
def str_space : String := "       "

/-! ## Containers -/

/-- The call `m.contains(k)` of an unordered map. -/
def map_contains {V : Type} (m : List (String × V)) (k : String) : Bool :=
  m.any (fun p => p.1 == k)

/-- The lookup behind `m.at(k)`: `none` when the key is absent. -/
def map_find {V : Type} : List (String × V) → String → Option V
  | [], _ => none
  | (k', v) :: rest, k => if k' = k then some v else map_find rest k

/-- The call `m.emplace(k, v)`: nothing changes when the key is present. -/
def map_emplace {V : Type} (m : List (String × V)) (k : String) (v : V) : List (String × V) :=
  if map_contains m k then m else m ++ [(k, v)]

/-- The assignment `m[k] = v`. -/
def map_assign {V : Type} : List (String × V) → String → V → List (String × V)
  | [], k, v => [(k, v)]
  | (k', v') :: rest, k, v =>
    if k' = k then (k', v) :: rest else (k', v') :: map_assign rest k v

/-- A write through a pointer to the entry stored under `k`: the value there becomes `f` of it. -/
def map_update {V : Type} : List (String × V) → String → (V → V) → List (String × V)
  | [], _, _ => []
  | (k', v) :: rest, k, f =>
    if k' = k then (k', f v) :: rest else (k', v) :: map_update rest k f

/-- The call `s.insert(x)` of an unordered set. -/
def set_insert (s : List String) (x : String) : List String :=
  if x ∈ s then s else s ++ [x]

/-! ## Program state -/

/-- The `thread_local` variables of `trace.cpp`, with the function-local `format_cache` of
`format_function_name`. -/
structure ThreadLocal where
  code_coverage_stack : List String
  thread_context_id : String
  local_callflow : Option String
  local_trace_fifo : Option String
  error_handler_result : error_handler_result_t
  format_cache : List (String × String)
  deriving DecidableEq, Repr

/-- The state seen by the code running on one thread: the two static registries, the thread's
own variables, and what has been written to `std::cout` and `std::cerr`. -/
structure World where
  thread_callflow : List (String × List String)
  thread_trace_fifo : List (String × List String)
  tl : ThreadLocal
  cout : List String
  cerr : List String
  deriving DecidableEq, Repr

/-- The thread-local variables as their initialisers leave them. -/
def ThreadLocal.fresh : ThreadLocal :=
  { code_coverage_stack := []
    thread_context_id := ""
    local_callflow := none
    local_trace_fifo := none
    error_handler_result := error_handler_result_t.result_continue
    format_cache := [] }

/-- The state at program start. -/
def World.initial : World :=
  { thread_callflow := []
    thread_trace_fifo := []
    tl := ThreadLocal.fresh
    cout := []
    cerr := [] }

/-- How a call ends. -/
inductive Outcome (α : Type) where
  | returned (value : α) (w : World)
  | exited (status : Nat) (w : World)
  | threw (what : String) (w : World)
  | undefined
  deriving Inhabited

/-- Sequencing: the rest runs only after a normal return. -/
def Outcome.bind {α β : Type} (o : Outcome α) (f : α → World → Outcome β) : Outcome β :=
  match o with
  | Outcome.returned a w => f a w
  | Outcome.exited n w => Outcome.exited n w
  | Outcome.threw e w => Outcome.threw e w
  | Outcome.undefined => Outcome.undefined

/-! ## The regular expression of `format_function_name` -/

/-- The class `[^\(\[]`. -/
def notDelim (c : Char) : Bool := c != '(' && c != '['

/-- The atom `.` of the ECMAScript grammar: every character but a line terminator. -/
def dotChar (c : Char) : Bool := c != '\n' && c != '\r'

/-- A greedy repetition `p*` followed by the rest of the pattern `k`, with backtracking:
the longest run is tried first, and one character is given back at a time while `k` fails.
`taken` is what the enclosing group has consumed so far. -/
def greedyStar {β : Type} (p : Char → Bool) (k : List Char → List Char → Option β) :
    List Char → List Char → Option β
  | taken, [] => k taken []
  | taken, c :: cs =>
    if p c then
      match greedyStar p k (taken ++ [c]) cs with
      | some r => some r
      | none => k taken (c :: cs)
    else k taken (c :: cs)

/-- The assertion `$` without the `multiline` option: only the end of the input. -/
def atEnd (rest : List Char) : Bool := rest.isEmpty

/-- One attempt of `^([^\(\[]+).*$` at a start position; `atBegin` says whether this position
is the beginning of the input, the only place where `^` holds without the `multiline` option.
The result is sub-match 1. -/
def matchHere (atBegin : Bool) (input : List Char) : Option (List Char) :=
  if !atBegin then none else
  match input with
  | [] => none
  | c :: cs =>
    if notDelim c then
      greedyStar notDelim
        (fun group1 rest =>
          greedyStar dotChar (fun _ rest2 => if atEnd rest2 then some group1 else none) [] rest)
        [c] cs
    else none

/-- The start positions after the first that `std::regex_search` goes on to try. -/
def searchLater : List Char → Option (List Char)
  | [] => none
  | _ :: cs =>
    match matchHere false cs with
    | some r => some r
    | none => searchLater cs

/-- The call `std::regex_search(pretty_function_name, match, regex_function_name)`:
`some m1` when it succeeds with `match[1] = m1`. -/
def regex_search (pretty_function_name : String) : Option String :=
  match matchHere true pretty_function_name.data with
  | some r => some (String.mk r)
  | none => (searchLater pretty_function_name.data).map String.mk

/-! ## The member functions of `trace_t` -/

/-- The call `s.empty()` of a string. -/
def empty (s : String) : Bool := s.data.isEmpty

/-- The function `trace_t::init`. Its parameter is not used: both registries are keyed by
`thread_context_id`. -/
def init (_context_id : String) (w : World) : World :=
  { w with
    thread_trace_fifo := map_emplace w.thread_trace_fifo w.tl.thread_context_id []
    thread_callflow := map_emplace w.thread_callflow w.tl.thread_context_id []
    tl := { w.tl with
      local_trace_fifo := some w.tl.thread_context_id
      local_callflow := some w.tl.thread_context_id } }

/-- The tag that `trace` writes for a level. -/
def level_tag : trace_level → String
  | trace_level.info => str_info
  | trace_level.warn => str_warn
  | trace_level.error => str_error

/-- The text that `trace` builds in `msg` before it looks at `local_trace_fifo`. -/
def format_entry (thread_context_id where_ message : String) (level : trace_level) : String :=
  "[" ++ thread_context_id ++ "]" ++ level_tag level ++ where_ ++ ":\n"
    ++ str_space ++ message ++ "\n\n"

/-- The function `trace_t::trace`. -/
def trace (self : trace_t) (message : String) (level : trace_level) (w : World) : Outcome Unit :=
  let msg := format_entry w.tl.thread_context_id self.where_ message level
  let w1 := if w.tl.local_trace_fifo = none then init "Main - Uninitialized" w else w
  let w2 : World :=
    match w1.tl.local_trace_fifo with
    | none => { w1 with cerr := w1.cerr ++ [msg ++ "local_trace_fifo cannot be nullptr"] }
    | some k =>
      { w1 with
        thread_trace_fifo := map_update w1.thread_trace_fifo k (fun q => q ++ [msg])
        cout := w1.cout ++ [msg] }
  if level = trace_level.error then
    let r : error_handler_result_t :=
      match self.error_handler with
      | some f => f ()
      | none => error_handler_result_t.result_terminate
    let w3 : World := { w2 with tl := { w2.tl with error_handler_result := r } }
    if r = error_handler_result_t.result_terminate then Outcome.exited 1 w3
    else Outcome.returned () w3
  else Outcome.returned () w2

/-- The function `trace_t::info`. -/
def info (self : trace_t) (message : String) (w : World) : Outcome Unit :=
  trace self message trace_level.info w

/-- The function `trace_t::warn`. -/
def warn (self : trace_t) (message : String) (w : World) : Outcome Unit :=
  trace self message trace_level.warn w

/-- The function `trace_t::error`. -/
def error (self : trace_t) (message : String) (w : World) : Outcome Unit :=
  trace self message trace_level.error w

/-- The function `trace_t::app_assert`. -/
def app_assert (self : trace_t) (location : String) (condition : Bool) (message : String)
    (w : World) : Outcome Unit :=
  if !condition then
    error self ("Assert at " ++ location ++ "\n" ++ str_space ++ message) w
  else Outcome.returned () w

/-- The function `trace_t::format_function_name`. The closing `format_cache.at` throws
`std::out_of_range` when the key is absent. -/
def format_function_name (self : trace_t) (pretty_function_name : String) (w : World) :
    Outcome String :=
  (if !map_contains w.tl.format_cache pretty_function_name then
    match regex_search pretty_function_name with
    | some match1 =>
      Outcome.returned ()
        { w with tl := { w.tl with
            format_cache := map_assign w.tl.format_cache pretty_function_name match1 } }
    | none => error self ("Unable to handle " ++ pretty_function_name) w
  else Outcome.returned () w).bind fun _ w1 =>
  match map_find w1.tl.format_cache pretty_function_name with
  | some name => Outcome.returned name w1
  | none => Outcome.threw "std::out_of_range" w1

/-- The text of the first assertion of the constructor. -/
def context_id_message (context_id thread_context_id : String) : String :=
  "context_id and thread_context_id cannot both have values or be empty:"
    ++ " context_id=\x27" ++ context_id ++ "\x27 thread_context_id=\x27" ++ thread_context_id
    ++ "\x27"

/-- The rendering `"(" << prev_function_name << ")->(" << current_function_name << ")"`. -/
def render_edge (prev_function_name current_function_name : String) : String :=
  "(" ++ prev_function_name ++ ")->(" ++ current_function_name ++ ")"

/-- The expression `code_coverage_stack.empty() ? "?" : code_coverage_stack.top()`. -/
def prev_frame : List String → String
  | [] => "?"
  | top :: _ => top

/-- The constructor `trace_t::trace_t(function_name, context_id)`. The object under
construction has an empty `error_handler`: `set_error_handler` can only be called on a
constructed object. On a normal return the value is the constructed object. -/
def construct (function_name : String) (context_id : String) (w : World) : Outcome trace_t :=
  if w.tl.error_handler_result = error_handler_result_t.result_terminate_on_next_trace then
    Outcome.exited 1 w
  else
    let self : trace_t := { where_ := function_name, error_handler := none }
    (app_assert self function_name
      ((empty context_id && !empty w.tl.thread_context_id)
        || (!empty context_id && empty w.tl.thread_context_id))
      (context_id_message context_id w.tl.thread_context_id) w).bind fun _ w1 =>
    (if empty w1.tl.thread_context_id then
      let w2 : World := { w1 with tl := { w1.tl with thread_context_id := context_id } }
      (app_assert self function_name (!empty w2.tl.thread_context_id)
        "thread name should not be empty" w2).bind fun _ w3 =>
      Outcome.returned () (init w3.tl.thread_context_id w3)
    else Outcome.returned () w1).bind fun _ w4 =>
    (format_function_name self function_name w4).bind fun current_function_name w5 =>
    let prev_function_name := prev_frame w5.tl.code_coverage_stack
    let w6 : World :=
      { w5 with tl := { w5.tl with
          code_coverage_stack := current_function_name :: w5.tl.code_coverage_stack } }
    (app_assert self function_name (w6.tl.local_callflow != none)
      "local_callflow cannot be nullptr" w6).bind fun _ w7 =>
    match w7.tl.local_callflow with
    | some k =>
      Outcome.returned self
        { w7 with
          thread_callflow :=
            map_update w7.thread_callflow k
              (fun s => set_insert s (render_edge prev_function_name current_function_name)) }
    | none => Outcome.undefined

/-- The destructor `trace_t::~trace_t`: `pop` on an empty stack is undefined behaviour. -/
def destruct (_self : trace_t) (w : World) : Outcome Unit :=
  match w.tl.code_coverage_stack with
  | [] => Outcome.undefined
  | _ :: rest => Outcome.returned () { w with tl := { w.tl with code_coverage_stack := rest } }

/-- The function `trace_t::set_error_handler`, on the object. -/
def set_error_handler (self : trace_t) (error_function : Option error_handler_t) : trace_t :=
  { self with error_handler := error_function }

/-- The function `trace_t::get_error_handler_result`. -/
def get_error_handler_result (w : World) : error_handler_result_t :=
  w.tl.error_handler_result

/-- The function `trace_t::set_error_handler_result`. -/
def set_error_handler_result (error_result : error_handler_result_t) (w : World) : World :=
  { w with tl := { w.tl with error_handler_result := error_result } }

/-! ## `flush` -/

/-- The three header lines that `flush` writes first. -/
def yuml_header : String :=
  "// \x7btype:activity\x7d\n// \x7bdirection:leftToRight\x7d\n// \x7bgenerate:true\x7d\n"

/-- The body of the inner loop of the call-flow part, for one `call_str`; the state is the
text written so far and `unique_calls`. -/
def flush_call (acc : String × List String) (call_str : String) : String × List String :=
  if !acc.2.contains call_str then (acc.1 ++ call_str ++ "\n", set_insert acc.2 call_str)
  else acc

/-- The two nested loops of the call-flow part, started from the header. -/
def flush_callflow (thread_callflow : List (String × List String)) : String × List String :=
  thread_callflow.foldl
    (fun acc per_thread_callflow => per_thread_callflow.2.foldl flush_call acc)
    (yuml_header, [])

/-- The lambda `flush_traces`: the queue is drained from the front, one entry and a newline
at a time. Writing to an `ofstream` whose exception mask was never set does not throw, so the
`catch` branch is never entered. The result is the text written and the queue left. -/
def flush_traces : String → List String → String × List String
  | ofs, [] => (ofs, [])
  | ofs, front :: rest => flush_traces (ofs ++ front ++ "\n") rest

/-- The loop over `thread_trace_fifo`: the text written and the registry left. -/
def flush_all_traces :
    String → List (String × List String) → String × List (String × List String)
  | ofs, [] => (ofs, [])
  | ofs, thread_trace :: rest =>
    let r := flush_traces ofs thread_trace.2
    let r2 := flush_all_traces r.1 rest
    (r2.1, (thread_trace.1, r.2) :: r2.2)

/-- What one call of `flush` has written to its two streams. -/
structure FlushOutput where
  yuml : String
  trace : String
  deriving DecidableEq, Repr

/-- The function `trace_t::flush`. Each `open` truncates, so each output starts empty; the
value is the text written between each `open` and its `close`. -/
def flush (_yuml_filename _trace_filename : String) (w : World) : Outcome FlushOutput :=
  let callflow := flush_callflow w.thread_callflow
  let traces := flush_all_traces "" w.thread_trace_fifo
  Outcome.returned { yuml := callflow.1, trace := traces.1 }
    { w with thread_trace_fifo := traces.2 }

/-! ## Threads and reachable states -/

/-- A call that code running on a thread can make on this component. -/
inductive Call where
  | construct (function_name context_id : String)
  | destruct (self : trace_t)
  | trace (self : trace_t) (message : String) (level : trace_level)
  | app_assert (self : trace_t) (location : String) (condition : Bool) (message : String)
  | format_function_name (self : trace_t) (pretty_function_name : String)
  | flush (yuml_filename trace_filename : String)
  | set_error_handler_result (error_result : error_handler_result_t)

/-- Forgets the value of a call. -/
def Outcome.discard {α : Type} (o : Outcome α) : Outcome Unit :=
  o.bind fun _ w => Outcome.returned () w

/-- Runs a call on the state seen by the calling thread. -/
def Call.run : Call → World → Outcome Unit
  | Call.construct function_name context_id, w =>
    (ketrace.construct function_name context_id w).discard
  | Call.destruct self, w => ketrace.destruct self w
  | Call.trace self message level, w => ketrace.trace self message level w
  | Call.app_assert self location condition message, w =>
    ketrace.app_assert self location condition message w
  | Call.format_function_name self s, w => (ketrace.format_function_name self s w).discard
  | Call.flush yuml_filename trace_filename, w =>
    (ketrace.flush yuml_filename trace_filename w).discard
  | Call.set_error_handler_result r, w =>
    Outcome.returned () (ketrace.set_error_handler_result r w)

/-- The state in which the program goes on after a call: there is one after a normal return
and after an exception, none after `std::exit` and none after undefined behaviour. -/
def Outcome.goes_on {α : Type} : Outcome α → Option World
  | Outcome.returned _ w => some w
  | Outcome.threw _ w => some w
  | Outcome.exited _ _ => none
  | Outcome.undefined => none

/-- The whole process: the shared registries and streams, and the thread-local variables of
every thread, by thread number. -/
structure Process where
  thread_callflow : List (String × List String)
  thread_trace_fifo : List (String × List String)
  threads : Nat → ThreadLocal
  cout : List String
  cerr : List String

/-- The process at program start. -/
def Process.initial : Process :=
  { thread_callflow := []
    thread_trace_fifo := []
    threads := fun _ => ThreadLocal.fresh
    cout := []
    cerr := [] }

/-- The state that thread `i` sees. -/
def Process.view (p : Process) (i : Nat) : World :=
  { thread_callflow := p.thread_callflow
    thread_trace_fifo := p.thread_trace_fifo
    tl := p.threads i
    cout := p.cout
    cerr := p.cerr }

/-- The process after thread `i` has brought the state it sees to `w`. -/
def Process.put (p : Process) (i : Nat) (w : World) : Process :=
  { thread_callflow := w.thread_callflow
    thread_trace_fifo := w.thread_trace_fifo
    threads := fun j => if j = i then w.tl else p.threads j
    cout := w.cout
    cerr := w.cerr }

/-- One sequential step: thread `i` makes the call `c`, and the program goes on. -/
def Process.step (p : Process) (i : Nat) (c : Call) : Option Process :=
  ((c.run (p.view i)).goes_on).map (p.put i)

/-- The process `q` comes after `p`: sequential steps of any threads lead from `p` to `q`. -/
inductive Later : Process → Process → Prop where
  | refl (p : Process) : Later p p
  | step {p q r : Process} (i : Nat) (c : Call) :
      Later p q → q.step i c = some r → Later p r

/-- The processes that sequential steps of any threads can reach from program start. -/
def Reachable (p : Process) : Prop := Later Process.initial p

/-! ## Sequences of calls on one thread -/

/-- What code on one thread does with scopes: it opens one, it leaves the innermost one, or a
tracer logs an entry. -/
inductive ScopeEvent where
  | enter (function_name context_id : String)
  | leave
  | log (self : trace_t) (message : String) (level : trace_level)

/-- Runs a well-nested sequence of scope events on one thread, from a state and the list of
the live tracers, the most recent first. A `leave` destroys the most recent live tracer. The
value is `none` when a step does not return normally or a `leave` finds no live tracer. -/
def run_scopes : List ScopeEvent → World → List trace_t → Option (World × List trace_t)
  | [], w, live => some (w, live)
  | ScopeEvent.enter function_name context_id :: rest, w, live =>
    match construct function_name context_id w with
    | Outcome.returned t w2 => run_scopes rest w2 (t :: live)
    | _ => none
  | ScopeEvent.leave :: rest, w, live =>
    match live with
    | [] => none
    | t :: live2 =>
      match destruct t w with
      | Outcome.returned _ w2 => run_scopes rest w2 live2
      | _ => none
  | ScopeEvent.log self message level :: rest, w, live =>
    match trace self message level w with
    | Outcome.returned _ w2 => run_scopes rest w2 live
    | _ => none

/-! ## Invariants -/

/-- What holds of the state a thread sees in every reachable process: every cached name is
what the regular expression gives for its key, and a handle that is set designates the
registry entry stored under the thread's context id. -/
structure Inv (w : World) : Prop where
  cache_sound : ∀ k v, map_find w.tl.format_cache k = some v → regex_search k = some v
  callflow_handle : ∀ k, w.tl.local_callflow = some k →
    k = w.tl.thread_context_id ∧ map_contains w.thread_callflow k = true
  fifo_handle : ∀ k, w.tl.local_trace_fifo = some k →
    k = w.tl.thread_context_id ∧ map_contains w.thread_trace_fifo k = true

/-- The registries of `w2` have every key that the registries of `w` have. -/
def KeysGrow (w w2 : World) : Prop :=
  (∀ k, map_contains w.thread_callflow k = true → map_contains w2.thread_callflow k = true)
  ∧ (∀ k, map_contains w.thread_trace_fifo k = true → map_contains w2.thread_trace_fifo k = true)

/-- How a call may change the state a thread sees: the invariant is kept, no registry key is
lost, and no cached name is lost or changed. -/
structure Frame (w w2 : World) : Prop where
  inv : Inv w → Inv w2
  keys : KeysGrow w w2
  cache : ∀ k v, map_find w.tl.format_cache k = some v →
    map_find w2.tl.format_cache k = some v

/-- The call stack `stack` consists of exactly the canonical names of the tracers `live`, in
the same order. -/
def StackOf (live : List trace_t) (stack : List String) : Prop :=
  live.map (fun t => regex_search t.where_) = stack.map some

/-! ## Intermediate states of the member functions -/

/-- The state policy that an error-level event adopts: the callback's answer, or `terminate`
when no callback is registered. -/
def adopted (self : trace_t) : error_handler_result_t :=
  match self.error_handler with
  | some f => f ()
  | none => error_handler_result_t.result_terminate

/-- The state after the first test of `local_trace_fifo` in `trace`. -/
def ensured (w : World) : World :=
  if w.tl.local_trace_fifo = none then init "Main - Uninitialized" w else w

/-- The state after `trace` has pushed and printed its entry. -/
def recorded (self : trace_t) (message : String) (level : trace_level) (w : World) : World :=
  { ensured w with
    thread_trace_fifo :=
      map_update (ensured w).thread_trace_fifo
        ((w.tl.local_trace_fifo).getD w.tl.thread_context_id)
        (fun q => q ++ [format_entry w.tl.thread_context_id self.where_ message level])
    cout := (ensured w).cout ++ [format_entry w.tl.thread_context_id self.where_ message level] }

/-- The state after a cache miss on a string that the regular expression matches. -/
def cached (pretty_function_name match1 : String) (w : World) : World :=
  { w with tl := { w.tl with
      format_cache := map_assign w.tl.format_cache pretty_function_name match1 } }

/-- The state after the constructor has bound the thread's context, when both of its first
two assertions hold. -/
def context_bound (context_id : String) (w : World) : World :=
  if empty w.tl.thread_context_id then
    init context_id { w with tl := { w.tl with thread_context_id := context_id } }
  else w

/-- The state after the constructor has pushed `name` and inserted its edge through the
handle `k`. -/
def entered (name k : String) (w : World) : World :=
  { w with
    tl := { w.tl with code_coverage_stack := name :: w.tl.code_coverage_stack }
    thread_callflow :=
      map_update w.thread_callflow k
        (fun s => set_insert s (render_edge (prev_frame w.tl.code_coverage_stack) name)) }

/-- The two ways the constructor can end, as a property of its outcome `o`: the process has
exited, or the new object is returned after a successful `format_function_name` and with the
edge inserted through a handle that is set. -/
def ConstructResult (function_name context_id : String) (w : World) (o : Outcome trace_t) :
    Prop :=
  (∃ n w2, o = Outcome.exited n w2)
  ∨ (∃ name k w5,
      w.tl.error_handler_result ≠ error_handler_result_t.result_terminate_on_next_trace
      ∧ ((empty context_id && !empty w.tl.thread_context_id)
          || (!empty context_id && empty w.tl.thread_context_id)) = true
      ∧ format_function_name { where_ := function_name, error_handler := none } function_name
          (context_bound context_id w) = Outcome.returned name w5
      ∧ w5.tl.local_callflow = some k
      ∧ o = Outcome.returned { where_ := function_name, error_handler := none }
              (entered name k w5))

/-! ## Texts and registries, for the statements about `flush` -/

/-- The text made of the given lines, each followed by a newline. -/
def lines_text : List String → String
  | [] => ""
  | l :: rest => l ++ "\n" ++ lines_text rest

/-- All the queued entries of a registry, context after context. -/
def all_entries (reg : List (String × List String)) : List String :=
  reg.flatMap (fun thread_trace => thread_trace.2)

/-- What the loops of the call-flow part keep: the text is the header followed by the lines of
`unique_calls` in the order of their insertion, and no string was inserted twice. -/
def CallflowSoFar (acc : String × List String) : Prop :=
  acc.1 = yuml_header ++ lines_text acc.2 ∧ acc.2.Nodup

/-- The registry `reg` holds the queue `q` under the key `c`, in its first entry of that key. -/
def QueueAt (reg : List (String × List String)) (c : String) (q : List String) : Prop :=
  ∃ before after, reg = before ++ (c, q) :: after ∧ map_contains before c = false

/-! ## Further invariants of the threads -/

/-- A thread whose context id is set holds both handles, and both designate the entries
stored under that context id. -/
def Bound (w : World) : Prop :=
  w.tl.thread_context_id ≠ "" →
    w.tl.local_callflow = some w.tl.thread_context_id
    ∧ w.tl.local_trace_fifo = some w.tl.thread_context_id

/-- How a call other than a binding construction may change the context id and the handles
of its thread: the context id stays, and the handles stay or are both set to it. -/
def HandlesStep (w w2 : World) : Prop :=
  w2.tl.thread_context_id = w.tl.thread_context_id
  ∧ ((w2.tl.local_callflow = w.tl.local_callflow
      ∧ w2.tl.local_trace_fifo = w.tl.local_trace_fifo)
    ∨ (w2.tl.local_callflow = some w.tl.thread_context_id
      ∧ w2.tl.local_trace_fifo = some w.tl.thread_context_id))

/-! ## The outcome of the constructor and its events -/

/-- The state in which a call has ended, whether it returned, ended the process or threw. -/
def Outcome.last_state {α : Type} : Outcome α → Option World
  | Outcome.returned _ w => some w
  | Outcome.exited _ w => some w
  | Outcome.threw _ w => some w
  | Outcome.undefined => none

/-- The state after the constructor has pushed `name`, before its last assertion. -/
def pushed (name : String) (w : World) : World :=
  { w with tl := { w.tl with code_coverage_stack := name :: w.tl.code_coverage_stack } }

/-- The constructor from `format_function_name` on, in the state `w4` that binding the context
has left: its outcome, by the outcome of `format_function_name` and by the handle that the
last assertion tests. -/
def construct_from_bound (function_name : String) (w4 : World) : Outcome trace_t :=
  match format_function_name { where_ := function_name, error_handler := none }
      function_name w4 with
  | Outcome.returned name w5 =>
    match w5.tl.local_callflow with
    | some k =>
      Outcome.returned { where_ := function_name, error_handler := none } (entered name k w5)
    | none =>
      Outcome.exited 1 (set_error_handler_result error_handler_result_t.result_terminate
        (recorded { where_ := function_name, error_handler := none }
          ("Assert at " ++ function_name ++ "\n" ++ str_space
            ++ "local_callflow cannot be nullptr")
          trace_level.error (pushed name w5)))
  | Outcome.exited n w => Outcome.exited n w
  | Outcome.threw e w => Outcome.threw e w
  | Outcome.undefined => Outcome.undefined

/-- The entry of the context-id assertion of the constructor, as `trace` formats it in the
state `w`. -/
def context_id_entry (function_name context_id : String) (w : World) : String :=
  format_entry w.tl.thread_context_id function_name
    ("Assert at " ++ function_name ++ "\n" ++ str_space
      ++ context_id_message context_id w.tl.thread_context_id)
    trace_level.error

/-- The construction `trace_t(function_name, context_id)` in the state `w` raises the
context-id error-level event: among what it prints before it ends, there is the entry of the
context-id assertion. -/
def RaisesContextIdEvent (function_name context_id : String) (w : World) : Prop :=
  ∃ w2 printed, (construct function_name context_id w).last_state = some w2
    ∧ w2.cout = w.cout ++ printed
    ∧ context_id_entry function_name context_id w ∈ printed

/-! ## Sequences of log operations -/

/-- A log operation: `info`, `warn` or `error` as `trace` at its level, or `app_assert`. -/
inductive LogCall where
  | log (self : trace_t) (message : String) (level : trace_level)
  | check (self : trace_t) (location : String) (condition : Bool) (message : String)

/-- Runs a log operation. -/
def LogCall.run : LogCall → World → Outcome Unit
  | LogCall.log self message level, w => trace self message level w
  | LogCall.check self location condition message, w =>
    app_assert self location condition message w

/-- Runs log operations one after the other, while they return normally. -/
def run_log_calls : List LogCall → World → Outcome Unit
  | [], w => Outcome.returned () w
  | c :: rest, w => (c.run w).bind fun _ w1 => run_log_calls rest w1

/-- The policy state that a log operation adopts when it is an error-level event (an `error`
or an `app_assert` whose condition is false); `none` when it is no error-level event. -/
def LogCall.adopts : LogCall → Option error_handler_result_t
  | LogCall.log self _ level => if level = trace_level.error then some (adopted self) else none
  | LogCall.check self _ condition _ => if !condition then some (adopted self) else none

/-- The policy state after a sequence of log operations that started in the policy state `r`:
the state adopted by the last error-level event, or `r` when there was none. -/
def pending_after : List LogCall → error_handler_result_t → error_handler_result_t
  | [], r => r
  | c :: rest, r => pending_after rest ((c.adopts).getD r)

/-! ## Steps of several threads, one after the other -/

/-- Runs the steps of a schedule one after the other: each step names the thread that makes
the call. The value is `none` when the program does not go on after one of the calls. -/
def Process.run_steps : List (Nat × Call) → Process → Option Process
  | [], p => some p
  | (j, call) :: rest, p =>
    match p.step j call with
    | some p1 => Process.run_steps rest p1
    | none => none

/-- Whether a call is a `flush`. -/
def Call.is_flush : Call → Bool
  | Call.flush _ _ => true
  | _ => false

/-- The entries that a call after which the program goes on pushes into the trace queue of
its thread, on a thread whose context id is `c`: `trace` pushes the entry it formats,
`app_assert` the entry of its assertion when the condition is false, and
`format_function_name` the entry of its error event when the regular expression does not
match; a construction that returns, a destruction and `set_error_handler_result` push
nothing. -/
def Call.entries (c : String) : Call → List String
  | Call.construct _ _ => []
  | Call.destruct _ => []
  | Call.trace self message level => [format_entry c self.where_ message level]
  | Call.app_assert self location condition message =>
    if condition then []
    else [format_entry c self.where_ ("Assert at " ++ location ++ "\n" ++ str_space ++ message)
            trace_level.error]
  | Call.format_function_name self s =>
    match regex_search s with
    | some _ => []
    | none => [format_entry c self.where_ ("Unable to handle " ++ s) trace_level.error]
  | Call.flush _ _ => []
  | Call.set_error_handler_result _ => []

/-- The entries that thread `i`, whose context id is `c`, emits along a schedule, in the order
of its calls. -/
def thread_entries (i : Nat) (c : String) : List (Nat × Call) → List String
  | [] => []
  | (j, call) :: rest =>
    (if j = i then call.entries c else []) ++ thread_entries i c rest

/-! ## Callbacks that act on the state -/

namespace stateful

/-- The callback type `std::function<error_handler_result_t()>`, taken as the code it holds:
the call `error_handler()` runs in the state it finds, it may log, flush or set the policy
state before it answers, and it may end the process or throw instead of answering. -/
abbrev error_handler_t := World → Outcome error_handler_result_t

/-- The data members of a `trace_t` object whose callback acts on the state. -/
structure trace_t where
  where_ : String
  error_handler : Option error_handler_t

/-- The function `trace_t::trace`, for an object whose callback acts on the state: the call
`error_handler()` runs in the state that the push and the print have left, and
`error_handler_result` is assigned in the state that the callback leaves. -/
def trace (self : trace_t) (message : String) (level : trace_level) (w : World) : Outcome Unit :=
  let msg := format_entry w.tl.thread_context_id self.where_ message level
  let w1 := if w.tl.local_trace_fifo = none then init "Main - Uninitialized" w else w
  let w2 : World :=
    match w1.tl.local_trace_fifo with
    | none => { w1 with cerr := w1.cerr ++ [msg ++ "local_trace_fifo cannot be nullptr"] }
    | some k =>
      { w1 with
        thread_trace_fifo := map_update w1.thread_trace_fifo k (fun q => q ++ [msg])
        cout := w1.cout ++ [msg] }
  if level = trace_level.error then
    (match self.error_handler with
      | some f => f w2
      | none => Outcome.returned error_handler_result_t.result_terminate w2).bind fun r w3 =>
    let w4 : World := { w3 with tl := { w3.tl with error_handler_result := r } }
    if r = error_handler_result_t.result_terminate then Outcome.exited 1 w4
    else Outcome.returned () w4
  else Outcome.returned () w2

/-- The function `trace_t::error`, for an object whose callback acts on the state. -/
def error (self : trace_t) (message : String) (w : World) : Outcome Unit :=
  trace self message trace_level.error w

/-- The function `trace_t::app_assert`, for an object whose callback acts on the state. -/
def app_assert (self : trace_t) (location : String) (condition : Bool) (message : String)
    (w : World) : Outcome Unit :=
  if !condition then
    error self ("Assert at " ++ location ++ "\n" ++ str_space ++ message) w
  else Outcome.returned () w

/-- The object of the same `where` whose callback answers what the given callback answers and
leaves the state as it finds it. -/
def of_pure (self : ketrace.trace_t) : trace_t :=
  { where_ := self.where_
    error_handler := self.error_handler.map fun f w => Outcome.returned (f ()) w }

end stateful

/-! ## Concrete states -/

/-- The state of a thread `W1` that has opened the scope `void foo()` at program start. -/
def world_in_foo : World :=
  { thread_callflow := [("W1", ["(?)->(void foo)"])]
    thread_trace_fifo := [("W1", [])]
    tl :=
      { code_coverage_stack := ["void foo"]
        thread_context_id := "W1"
        local_callflow := some "W1"
        local_trace_fifo := some "W1"
        error_handler_result := error_handler_result_t.result_continue
        format_cache := [("void foo()", "void foo")] }
    cout := []
    cerr := [] }

/-- The process in which thread 0 is `W1` inside `void foo()`. -/
def process_in_foo : Process := Process.initial.put 0 world_in_foo

/-- The state of that thread after it has opened the nested scope `int bar(int)`. -/
def world_in_bar : World :=
  { thread_callflow := [("W1", ["(?)->(void foo)", "(void foo)->(int bar)"])]
    thread_trace_fifo := [("W1", [])]
    tl :=
      { code_coverage_stack := ["int bar", "void foo"]
        thread_context_id := "W1"
        local_callflow := some "W1"
        local_trace_fifo := some "W1"
        error_handler_result := error_handler_result_t.result_continue
        format_cache := [("void foo()", "void foo"), ("int bar(int)", "int bar")] }
    cout := []
    cerr := [] }

/-- The state of thread `W1` inside `void foo()` after an `error("boom")` whose callback has
answered `terminate-on-next-entry`. -/
def world_pending : World :=
  { world_in_foo with
    thread_trace_fifo := [("W1", ["[W1]error: void foo():\n       boom\n\n"])]
    tl := { world_in_foo.tl with
      error_handler_result := error_handler_result_t.result_terminate_on_next_trace }
    cout := ["[W1]error: void foo():\n       boom\n\n"] }

/-- The state in which the scenario of thread `W1` ends: `foo()` opened, `start` logged,
`bar()` opened, `slow` logged, `bar()` left, `boom` raised with no callback. -/
def scenario_end : World :=
  { thread_callflow := [("W1", ["(?)->(foo)", "(foo)->(bar)"])]
    thread_trace_fifo :=
      [("W1", ["[W1]info:  foo():\n       start\n\n", "[W1]warn:  bar():\n       slow\n\n",
               "[W1]error: foo():\n       boom\n\n"])]
    tl :=
      { code_coverage_stack := ["foo"]
        thread_context_id := "W1"
        local_callflow := some "W1"
        local_trace_fifo := some "W1"
        error_handler_result := error_handler_result_t.result_terminate
        format_cache := [("foo()", "foo"), ("bar()", "bar")] }
    cout := ["[W1]info:  foo():\n       start\n\n", "[W1]warn:  bar():\n       slow\n\n",
             "[W1]error: foo():\n       boom\n\n"]
    cerr := [] }

/-- The state that a second thread sees after it has opened `void bar()` with the context id
`W1`, in the process in which thread 0 is `W1` inside `void foo()`. -/
def world_second_w1 : World :=
  { thread_callflow := [("W1", ["(?)->(void foo)", "(?)->(void bar)"])]
    thread_trace_fifo := [("W1", [])]
    tl :=
      { code_coverage_stack := ["void bar"]
        thread_context_id := "W1"
        local_callflow := some "W1"
        local_trace_fifo := some "W1"
        error_handler_result := error_handler_result_t.result_continue
        format_cache := [("void bar()", "void bar")] }
    cout := []
    cerr := [] }

/-- The process in which thread 0 and thread 1 are both bound to `W1`. -/
def process_shared : Process := process_in_foo.put 1 world_second_w1

/-- Three log calls, of thread 0, of thread 1 and of thread 0 again. -/
def schedule_interleaved : List (Nat × Call) :=
  [(0, Call.trace { where_ := "void foo()", error_handler := none } "M1" trace_level.info),
   (1, Call.trace { where_ := "void bar()", error_handler := none } "X" trace_level.warn),
   (0, Call.trace { where_ := "void foo()", error_handler := none } "M2" trace_level.info)]

/-- What thread 0 sees after the first call of `schedule_interleaved`, started in
`process_shared`. -/
def world_interleaved_1 : World :=
  { world_in_foo with
    thread_callflow := world_second_w1.thread_callflow
    thread_trace_fifo := [("W1", ["[W1]info:  void foo():\n       M1\n\n"])]
    cout := ["[W1]info:  void foo():\n       M1\n\n"] }

/-- What thread 1 sees after the second call. -/
def world_interleaved_2 : World :=
  { world_second_w1 with
    thread_trace_fifo :=
      [("W1", ["[W1]info:  void foo():\n       M1\n\n", "[W1]warn:  void bar():\n       X\n\n"])]
    cout := ["[W1]info:  void foo():\n       M1\n\n", "[W1]warn:  void bar():\n       X\n\n"] }

/-- What thread 0 sees after the third call. -/
def world_interleaved_3 : World :=
  { world_interleaved_1 with
    thread_trace_fifo :=
      [("W1", ["[W1]info:  void foo():\n       M1\n\n", "[W1]warn:  void bar():\n       X\n\n",
               "[W1]info:  void foo():\n       M2\n\n"])]
    cout := ["[W1]info:  void foo():\n       M1\n\n", "[W1]warn:  void bar():\n       X\n\n",
             "[W1]info:  void foo():\n       M2\n\n"] }

/-- The process after `schedule_interleaved`, started in `process_shared`. -/
def process_interleaved : Process :=
  ((process_shared.put 0 world_interleaved_1).put 1 world_interleaved_2).put 0
    world_interleaved_3

/-- What thread 0 sees after the first call of `schedule_interleaved`, started in
`process_in_foo`, where thread 1 is not bound. -/
def world_apart_1 : World :=
  { world_in_foo with
    thread_trace_fifo := [("W1", ["[W1]info:  void foo():\n       M1\n\n"])]
    cout := ["[W1]info:  void foo():\n       M1\n\n"] }

/-- What thread 1 sees after the second call: its entry is in the queue of the empty context
id. -/
def world_apart_2 : World :=
  { thread_callflow := [("W1", ["(?)->(void foo)"]), ("", [])]
    thread_trace_fifo :=
      [("W1", ["[W1]info:  void foo():\n       M1\n\n"]),
       ("", ["[]warn:  void bar():\n       X\n\n"])]
    tl := { ThreadLocal.fresh with local_callflow := some "", local_trace_fifo := some "" }
    cout := ["[W1]info:  void foo():\n       M1\n\n", "[]warn:  void bar():\n       X\n\n"]
    cerr := [] }

/-- What thread 0 sees after the third call. -/
def world_apart_3 : World :=
  { world_in_foo with
    thread_callflow := [("W1", ["(?)->(void foo)"]), ("", [])]
    thread_trace_fifo :=
      [("W1", ["[W1]info:  void foo():\n       M1\n\n", "[W1]info:  void foo():\n       M2\n\n"]),
       ("", ["[]warn:  void bar():\n       X\n\n"])]
    cout := ["[W1]info:  void foo():\n       M1\n\n", "[]warn:  void bar():\n       X\n\n",
             "[W1]info:  void foo():\n       M2\n\n"] }

/-- The process after `schedule_interleaved`, started in `process_in_foo`. -/
def process_apart : Process :=
  ((process_in_foo.put 0 world_apart_1).put 1 world_apart_2).put 0 world_apart_3

/-- A callback that logs `bye` through a tracer of `void cleanup()` and then answers
`terminate`. -/
def callback_that_logs : stateful.error_handler_t := fun w =>
  (info { where_ := "void cleanup()", error_handler := none } "bye" w).bind fun _ w2 =>
    Outcome.returned error_handler_result_t.result_terminate w2

/-- A callback that flushes and then answers `terminate`. -/
def callback_that_flushes : stateful.error_handler_t := fun w =>
  (flush "callflow.yuml" "trace.txt" w).bind fun _ w2 =>
    Outcome.returned error_handler_result_t.result_terminate w2

/-- A callback that answers `terminate` and does nothing else. -/
def callback_that_answers : stateful.error_handler_t := fun w =>
  Outcome.returned error_handler_result_t.result_terminate w

/-- The state in which the process ends when thread `W1`, inside `void foo()`, raises
`error("boom")` on a tracer whose callback is `callback_that_logs`. -/
def world_callback_logged : World :=
  { world_in_foo with
    thread_trace_fifo :=
      [("W1", ["[W1]error: void foo():\n       boom\n\n",
               "[W1]info:  void cleanup():\n       bye\n\n"])]
    tl := { world_in_foo.tl with
      error_handler_result := error_handler_result_t.result_terminate }
    cout := ["[W1]error: void foo():\n       boom\n\n",
             "[W1]info:  void cleanup():\n       bye\n\n"] }

/-- The state in which the process ends when the callback is `callback_that_flushes`. -/
def world_callback_flushed : World :=
  { world_in_foo with
    thread_trace_fifo := [("W1", [])]
    tl := { world_in_foo.tl with
      error_handler_result := error_handler_result_t.result_terminate }
    cout := ["[W1]error: void foo():\n       boom\n\n"] }

/-! # Theorems -/

/-! ## The regular expression: what `regex_search` computes -/

theorem all_dropWhile (p q : Char → Bool) (l : List Char) (h : l.all p = true) :
    (l.dropWhile q).all p = true := by
  induction l with
  | nil => simp
  | cons c cs ih =>
    simp only [List.all_cons, Bool.and_eq_true] at h
    by_cases hq : q c = true
    · simpa [List.dropWhile_cons, hq] using ih h.2
    · simp [List.dropWhile_cons, hq, h.1, h.2]

theorem greedyStar_dot (g acc rest : List Char) :
    greedyStar dotChar (fun _ rest2 => if atEnd rest2 then some g else none) acc rest
      = if rest.all dotChar then some g else none := by
  induction rest generalizing acc with
  | nil => simp [greedyStar, atEnd]
  | cons c cs ih =>
    rw [greedyStar, ih]
    by_cases hc : dotChar c = true
    · by_cases hcs : cs.all dotChar = true
      · simp [hc, hcs]
      · simp [hc, hcs, atEnd]
    · simp [hc, atEnd]

theorem greedyStar_group (taken input : List Char) :
    greedyStar notDelim
        (fun group1 rest => if rest.all dotChar then some group1 else none) taken input
      = if (input.dropWhile notDelim).all dotChar then some (taken ++ input.takeWhile notDelim)
        else none := by
  induction input generalizing taken with
  | nil => simp [greedyStar]
  | cons c cs ih =>
    rw [greedyStar, ih]
    by_cases hc : notDelim c = true
    · by_cases hcs : (cs.dropWhile notDelim).all dotChar = true
      · simp [hc, hcs, List.takeWhile_cons, List.dropWhile_cons]
      · have hall : (c :: cs).all dotChar = false := by
          rw [Bool.eq_false_iff]
          intro hall
          simp only [List.all_cons, Bool.and_eq_true] at hall
          exact hcs (all_dropWhile _ _ _ hall.2)
        rw [if_pos hc, if_neg hcs, hall]
        simp [hc, hcs, List.dropWhile_cons]
    · simp [hc, List.takeWhile_cons, List.dropWhile_cons]

theorem searchLater_none (l : List Char) : searchLater l = none := by
  induction l with
  | nil => rfl
  | cons c cs ih => simp [searchLater, matchHere, ih]

/-- What the search computes: sub-match 1 is the longest run of characters other than `(` and
`[` at the start of the input, and the search succeeds when that run is not empty and no line
terminator follows it. -/
theorem regex_search_eq (s : String) :
    regex_search s =
      if s.data.takeWhile notDelim ≠ [] ∧ (s.data.dropWhile notDelim).all dotChar = true
      then some (String.mk (s.data.takeWhile notDelim)) else none := by
  unfold regex_search
  rw [searchLater_none]
  cases hs : s.data with
  | nil => simp [matchHere]
  | cons c cs =>
    by_cases hc : notDelim c = true
    · have h := greedyStar_group [c] cs
      simp only [matchHere, hc, greedyStar_dot] at h ⊢
      simp only [Bool.not_true, Bool.false_eq_true, if_false, if_true]
      rw [h]
      by_cases hcs : (cs.dropWhile notDelim).all dotChar = true
      · simp [hcs, List.takeWhile_cons, List.dropWhile_cons, hc]
      · simp [hcs, List.takeWhile_cons, List.dropWhile_cons, hc]
    · simp [matchHere, hc, List.takeWhile_cons]

/-! ## Container lemmas -/

theorem map_contains_append {V : Type} (m n : List (String × V)) (k : String) :
    map_contains (m ++ n) k = (map_contains m k || map_contains n k) := by
  simp [map_contains]

theorem map_contains_emplace_self {V : Type} (m : List (String × V)) (k : String) (v : V) :
    map_contains (map_emplace m k v) k = true := by
  unfold map_emplace
  by_cases h : map_contains m k = true
  · simp [h]
  · rw [if_neg h]
    simp [map_contains_append, map_contains]

theorem map_contains_emplace_mono {V : Type} (m : List (String × V)) (k k2 : String) (v : V)
    (h : map_contains m k2 = true) : map_contains (map_emplace m k v) k2 = true := by
  unfold map_emplace
  by_cases hk : map_contains m k = true
  · simpa [hk] using h
  · simp [hk, map_contains_append, h]

theorem map_contains_update {V : Type} (m : List (String × V)) (k k2 : String) (f : V → V) :
    map_contains (map_update m k f) k2 = map_contains m k2 := by
  induction m with
  | nil => rfl
  | cons p rest ih =>
    obtain ⟨k1, v1⟩ := p
    simp only [map_contains, List.any_cons] at ih
    by_cases hp : k1 = k
    · simp [map_update, map_contains, hp]
    · simp [map_update, map_contains, hp, ih]

theorem map_find_update {V : Type} (m : List (String × V)) (k : String) (f : V → V) :
    map_find (map_update m k f) k = (map_find m k).map f := by
  induction m with
  | nil => rfl
  | cons p rest ih =>
    obtain ⟨k1, v1⟩ := p
    by_cases hp : k1 = k
    · simp [map_update, map_find, hp]
    · simp [map_update, map_find, hp, ih]

theorem map_find_isSome {V : Type} (m : List (String × V)) (k : String) :
    (map_find m k).isSome = map_contains m k := by
  induction m with
  | nil => rfl
  | cons p rest ih =>
    obtain ⟨k1, v1⟩ := p
    by_cases hp : k1 = k
    · simp [map_find, map_contains, hp]
    · simp only [map_contains, List.any_cons] at ih ⊢
      simp [map_find, hp, ih]

theorem map_find_assign_self {V : Type} (m : List (String × V)) (k : String) (v : V) :
    map_find (map_assign m k v) k = some v := by
  induction m with
  | nil => simp [map_assign, map_find]
  | cons p rest ih =>
    obtain ⟨k1, v1⟩ := p
    by_cases hp : k1 = k
    · simp [map_assign, map_find, hp]
    · simp [map_assign, map_find, hp, ih]

theorem map_find_assign_other {V : Type} (m : List (String × V)) (k k2 : String) (v : V)
    (h : k2 ≠ k) : map_find (map_assign m k v) k2 = map_find m k2 := by
  induction m with
  | nil =>
    have h2 : ¬ k = k2 := fun e => h e.symm
    simp [map_assign, map_find, h2]
  | cons p rest ih =>
    obtain ⟨k1, v1⟩ := p
    by_cases hp : k1 = k
    · subst hp
      have h2 : ¬ k1 = k2 := fun e => h e.symm
      simp [map_assign, map_find, h2]
    · by_cases hq : k1 = k2
      · subst hq
        simp [map_assign, map_find, hp]
      · simp [map_assign, map_find, hp, hq, ih]

theorem mem_set_insert (s : List String) (x y : String) :
    y ∈ set_insert s x ↔ y ∈ s ∨ y = x := by
  unfold set_insert
  by_cases h : x ∈ s
  · simp only [h, if_true]
    constructor
    · exact Or.inl
    · rintro (h1 | h1)
      · exact h1
      · exact h1 ▸ h
  · simp [h]

theorem nodup_set_insert (s : List String) (x : String) (h : s.Nodup) :
    (set_insert s x).Nodup := by
  unfold set_insert
  by_cases hx : x ∈ s
  · simpa [hx] using h
  · simp only [hx, if_false]
    rw [List.nodup_append]
    refine ⟨h, List.nodup_singleton x, ?_⟩
    intro a ha hb
    simp only [List.mem_singleton] at hb
    exact hx (hb ▸ ha)

/-! ## The invariant and the growth of the registries -/

theorem keysGrow_refl (w : World) : KeysGrow w w := ⟨fun _ h => h, fun _ h => h⟩

theorem keysGrow_trans {a b c : World} (h1 : KeysGrow a b) (h2 : KeysGrow b c) : KeysGrow a c :=
  ⟨fun k h => h2.1 k (h1.1 k h), fun k h => h2.2 k (h1.2 k h)⟩

theorem inv_init (s : String) (w : World) (h : Inv w) : Inv (init s w) := by
  refine ⟨h.cache_sound, ?_, ?_⟩
  · intro k hk
    simp only [init, Option.some.injEq] at hk
    subst hk
    exact ⟨rfl, map_contains_emplace_self _ _ _⟩
  · intro k hk
    simp only [init, Option.some.injEq] at hk
    subst hk
    exact ⟨rfl, map_contains_emplace_self _ _ _⟩

theorem keys_init (s : String) (w : World) : KeysGrow w (init s w) :=
  ⟨fun _ h => map_contains_emplace_mono _ _ _ _ h, fun _ h => map_contains_emplace_mono _ _ _ _ h⟩

/-! ## What `trace` does to the state -/

theorem trace_eq (self : trace_t) (message : String) (level : trace_level) (w : World) :
    trace self message level w =
      if level = trace_level.error then
        if adopted self = error_handler_result_t.result_terminate then
          Outcome.exited 1 (set_error_handler_result (adopted self) (recorded self message level w))
        else
          Outcome.returned () (set_error_handler_result (adopted self)
            (recorded self message level w))
      else Outcome.returned () (recorded self message level w) := by
  cases hf : w.tl.local_trace_fifo with
  | none =>
    simp only [trace, recorded, ensured, hf, if_true, init, adopted, set_error_handler_result,
      Option.getD_none]
  | some k =>
    simp only [trace, recorded, ensured, hf, if_false, adopted, set_error_handler_result,
      Option.getD_some, reduceCtorEq]

theorem ensured_tl (w : World) :
    (ensured w).tl.code_coverage_stack = w.tl.code_coverage_stack
    ∧ (ensured w).tl.thread_context_id = w.tl.thread_context_id
    ∧ (ensured w).tl.error_handler_result = w.tl.error_handler_result
    ∧ (ensured w).tl.format_cache = w.tl.format_cache
    ∧ (ensured w).cout = w.cout ∧ (ensured w).cerr = w.cerr := by
  unfold ensured
  by_cases h : w.tl.local_trace_fifo = none
  · simp [h, init]
  · simp [h]

theorem ensured_fifo (w : World) :
    (ensured w).tl.local_trace_fifo
      = some ((w.tl.local_trace_fifo).getD w.tl.thread_context_id) := by
  unfold ensured
  cases h : w.tl.local_trace_fifo with
  | none => simp [init]
  | some k => simp [h]

theorem inv_ensured (w : World) (h : Inv w) : Inv (ensured w) := by
  unfold ensured
  by_cases hf : w.tl.local_trace_fifo = none
  · simpa [hf] using inv_init _ w h
  · simpa [hf] using h

theorem keys_ensured (w : World) : KeysGrow w (ensured w) := by
  unfold ensured
  by_cases hf : w.tl.local_trace_fifo = none
  · simpa [hf] using keys_init _ w
  · simpa [hf] using keysGrow_refl w

theorem recorded_tl (self : trace_t) (message : String) (level : trace_level) (w : World) :
    (recorded self message level w).tl = (ensured w).tl
    ∧ (recorded self message level w).thread_callflow = (ensured w).thread_callflow
    ∧ (recorded self message level w).cerr = w.cerr
    ∧ (recorded self message level w).cout
        = w.cout ++ [format_entry w.tl.thread_context_id self.where_ message level] := by
  simp [recorded, (ensured_tl w).2.2.2.2.1, (ensured_tl w).2.2.2.2.2]

theorem inv_recorded (self : trace_t) (message : String) (level : trace_level) (w : World)
    (h : Inv w) : Inv (recorded self message level w) := by
  have he := inv_ensured w h
  refine ⟨he.cache_sound, he.callflow_handle, ?_⟩
  intro k hk
  have := he.fifo_handle k hk
  refine ⟨this.1, ?_⟩
  simp only [recorded]
  rw [map_contains_update]
  exact this.2

theorem keys_recorded (self : trace_t) (message : String) (level : trace_level) (w : World) :
    KeysGrow w (recorded self message level w) := by
  refine keysGrow_trans (keys_ensured w) ⟨fun k hk => hk, fun k hk => ?_⟩
  simp only [recorded]
  rw [map_contains_update]
  exact hk

theorem inv_set_result (r : error_handler_result_t) (w : World) (h : Inv w) :
    Inv (set_error_handler_result r w) :=
  ⟨h.cache_sound, h.callflow_handle, h.fifo_handle⟩

theorem keys_set_result (r : error_handler_result_t) (w : World) :
    KeysGrow w (set_error_handler_result r w) := ⟨fun _ h => h, fun _ h => h⟩

/-- Whatever `trace` does, the state it leaves satisfies the invariant and has lost no key. -/
theorem trace_cases (self : trace_t) (message : String) (level : trace_level) (w : World) :
    (trace self message level w = Outcome.returned () (recorded self message level w)
      ∧ level ≠ trace_level.error)
    ∨ (trace self message level w
        = Outcome.returned () (set_error_handler_result (adopted self)
            (recorded self message level w))
      ∧ level = trace_level.error
      ∧ adopted self ≠ error_handler_result_t.result_terminate)
    ∨ (trace self message level w
        = Outcome.exited 1 (set_error_handler_result (adopted self)
            (recorded self message level w))
      ∧ level = trace_level.error
      ∧ adopted self = error_handler_result_t.result_terminate) := by
  rw [trace_eq]
  by_cases hl : level = trace_level.error
  · by_cases ha : adopted self = error_handler_result_t.result_terminate
    · exact Or.inr (Or.inr ⟨by simp [hl, ha], hl, ha⟩)
    · exact Or.inr (Or.inl ⟨by simp [hl, ha], hl, ha⟩)
  · exact Or.inl ⟨by simp [hl], hl⟩

/-! ## What `format_function_name` does -/

theorem map_find_none_of_not_contains {V : Type} (m : List (String × V)) (k : String)
    (h : map_contains m k = false) : map_find m k = none := by
  have := map_find_isSome m k
  rw [h] at this
  cases hf : map_find m k with
  | none => rfl
  | some v => simp [hf] at this

theorem map_find_some_of_contains {V : Type} (m : List (String × V)) (k : String)
    (h : map_contains m k = true) : ∃ v, map_find m k = some v := by
  have := map_find_isSome m k
  rw [h] at this
  cases hf : map_find m k with
  | none => simp [hf] at this
  | some v => exact ⟨v, rfl⟩

/-- The four ways `format_function_name` can go. -/
theorem format_cases (self : trace_t) (s : String) (w : World) :
    (∃ v, map_find w.tl.format_cache s = some v
      ∧ format_function_name self s w = Outcome.returned v w)
    ∨ (∃ m, map_find w.tl.format_cache s = none ∧ regex_search s = some m
      ∧ format_function_name self s w = Outcome.returned m (cached s m w))
    ∨ (map_find w.tl.format_cache s = none ∧ regex_search s = none
      ∧ adopted self = error_handler_result_t.result_terminate
      ∧ format_function_name self s w
        = Outcome.exited 1 (set_error_handler_result (adopted self)
            (recorded self ("Unable to handle " ++ s) trace_level.error w)))
    ∨ (map_find w.tl.format_cache s = none ∧ regex_search s = none
      ∧ adopted self ≠ error_handler_result_t.result_terminate
      ∧ format_function_name self s w
        = Outcome.threw "std::out_of_range" (set_error_handler_result (adopted self)
            (recorded self ("Unable to handle " ++ s) trace_level.error w))) := by
  by_cases hc : map_contains w.tl.format_cache s = true
  · obtain ⟨v, hv⟩ := map_find_some_of_contains _ _ hc
    refine Or.inl ⟨v, hv, ?_⟩
    simp [format_function_name, hc, Outcome.bind, hv]
  · have hc2 : map_contains w.tl.format_cache s = false := by simpa using hc
    have hn := map_find_none_of_not_contains _ _ hc2
    cases hr : regex_search s with
    | some m =>
      refine Or.inr (Or.inl ⟨m, hn, rfl, ?_⟩)
      simp [format_function_name, hc2, hr, Outcome.bind, map_find_assign_self, cached]
    | none =>
      by_cases ha : adopted self = error_handler_result_t.result_terminate
      · refine Or.inr (Or.inr (Or.inl ⟨hn, rfl, ha, ?_⟩))
        simp [format_function_name, hc2, hr, error, trace_eq, ha, Outcome.bind]
      · refine Or.inr (Or.inr (Or.inr ⟨hn, rfl, ha, ?_⟩))
        have hcache : (set_error_handler_result (adopted self)
            (recorded self ("Unable to handle " ++ s) trace_level.error w)).tl.format_cache
            = w.tl.format_cache := by
          simp [set_error_handler_result, (recorded_tl _ _ _ w).1, (ensured_tl w).2.2.2.1]
        simp [format_function_name, hc2, hr, error, trace_eq, ha, Outcome.bind, hcache, hn]

/-! ## What the constructor does -/

theorem app_assert_true (self : trace_t) (location message : String) (w : World) :
    app_assert self location true message w = Outcome.returned () w := by
  simp [app_assert]

theorem app_assert_false_default (self : trace_t) (location message : String) (w : World)
    (h : self.error_handler = none) :
    app_assert self location false message w
      = Outcome.exited 1 (set_error_handler_result error_handler_result_t.result_terminate
          (recorded self ("Assert at " ++ location ++ "\n" ++ str_space ++ message)
            trace_level.error w)) := by
  have ha : adopted self = error_handler_result_t.result_terminate := by simp [adopted, h]
  simp [app_assert, error, trace_eq, ha]

theorem returned_bind {α β : Type} (a : α) (w : World) (f : α → World → Outcome β) :
    (Outcome.returned a w).bind f = f a w := rfl

theorem exited_bind {α β : Type} (n : Nat) (w : World) (f : α → World → Outcome β) :
    (Outcome.exited n w : Outcome α).bind f = Outcome.exited n w := rfl

/-- The constructor from `format_function_name` on, in the state `w4` that binding the context
has left. -/
theorem construct_tail (function_name : String) (w4 : World) (o : Outcome trace_t)
    (ho : ((format_function_name { where_ := function_name, error_handler := none }
          function_name w4).bind fun current_function_name w5 =>
        (app_assert { where_ := function_name, error_handler := none } function_name
          (({ w5 with tl := { w5.tl with
              code_coverage_stack := current_function_name :: w5.tl.code_coverage_stack } }
            : World).tl.local_callflow != none)
          "local_callflow cannot be nullptr"
          { w5 with tl := { w5.tl with
              code_coverage_stack := current_function_name :: w5.tl.code_coverage_stack } }
          ).bind fun _ w7 =>
        match w7.tl.local_callflow with
        | some k =>
          Outcome.returned { where_ := function_name, error_handler := none }
            { w7 with
              thread_callflow :=
                map_update w7.thread_callflow k
                  (fun s => set_insert s
                    (render_edge (prev_frame w5.tl.code_coverage_stack)
                      current_function_name)) }
        | none => Outcome.undefined) = o) :
    (∃ n w2, o = Outcome.exited n w2)
    ∨ (∃ name k w5,
        format_function_name { where_ := function_name, error_handler := none } function_name
          w4 = Outcome.returned name w5
        ∧ w5.tl.local_callflow = some k
        ∧ o = Outcome.returned { where_ := function_name, error_handler := none }
                (entered name k w5)) := by
  have hadopt : adopted { where_ := function_name, error_handler := none }
      = error_handler_result_t.result_terminate := rfl
  have hfinish : ∀ (name : String) (w5 : World),
      format_function_name { where_ := function_name, error_handler := none } function_name
        w4 = Outcome.returned name w5 →
      ((∃ n w2, o = Outcome.exited n w2)
        ∨ (∃ name k w5,
          format_function_name { where_ := function_name, error_handler := none } function_name
            w4 = Outcome.returned name w5
          ∧ w5.tl.local_callflow = some k
          ∧ o = Outcome.returned { where_ := function_name, error_handler := none }
                  (entered name k w5))) := fun name w5 hf => by
    rw [hf, returned_bind] at ho
    cases hk : w5.tl.local_callflow with
    | none =>
      have e : (({ w5 with tl := { w5.tl with
              code_coverage_stack := name :: w5.tl.code_coverage_stack } }
            : World).tl.local_callflow != none) = false := by
        show (w5.tl.local_callflow != none) = false
        rw [hk]; rfl
      rw [e, app_assert_false_default _ _ _ _ rfl, exited_bind] at ho
      exact Or.inl ⟨_, _, ho.symm⟩
    | some k =>
      have e : (({ w5 with tl := { w5.tl with
              code_coverage_stack := name :: w5.tl.code_coverage_stack } }
            : World).tl.local_callflow != none) = true := by
        show (w5.tl.local_callflow != none) = true
        rw [hk]; rfl
      rw [e, app_assert_true, returned_bind] at ho
      refine Or.inr ⟨name, k, w5, hf, hk, ?_⟩
      rw [← ho]
      simp [entered, hk]
  rcases format_cases { where_ := function_name, error_handler := none } function_name
      w4 with ⟨v, _, hf⟩ | ⟨m, _, _, hf⟩ | ⟨_, _, _, hf⟩ | ⟨_, _, hne, _⟩
  · exact hfinish _ _ hf
  · exact hfinish _ _ hf
  · rw [hf, exited_bind] at ho
    exact Or.inl ⟨_, _, ho.symm⟩
  · exact absurd hadopt hne

/-- The constructor either ends the process or returns the new object, after a successful
`format_function_name` and with the edge inserted through a handle that is set. It never
throws and never dereferences a null handle. -/
theorem construct_cases (function_name context_id : String) (w : World) :
    ConstructResult function_name context_id w (construct function_name context_id w) := by
  by_cases hr : w.tl.error_handler_result
      = error_handler_result_t.result_terminate_on_next_trace
  · exact Or.inl ⟨1, w, by simp [construct, hr]⟩
  unfold ConstructResult
  generalize ho : construct function_name context_id w = o
  simp only [construct, if_neg hr] at ho
  by_cases hc : ((empty context_id && !empty w.tl.thread_context_id)
            || (!empty context_id && empty w.tl.thread_context_id)) = true
  swap
  · have hc2 : ((empty context_id && !empty w.tl.thread_context_id)
            || (!empty context_id && empty w.tl.thread_context_id)) = false := by
      simpa using hc
    rw [hc2, app_assert_false_default _ _ _ _ rfl, exited_bind] at ho
    exact Or.inl ⟨_, _, ho.symm⟩
  rw [hc, app_assert_true, returned_bind] at ho
  by_cases he : empty w.tl.thread_context_id = true
  · by_cases hci : empty context_id = true
    · rw [if_pos he, hci] at ho
      simp only [Bool.not_true] at ho
      rw [app_assert_false_default _ _ _ _ rfl, exited_bind, exited_bind] at ho
      exact Or.inl ⟨_, _, ho.symm⟩
    · have hci2 : empty context_id = false := by simpa using hci
      have hb : context_bound context_id w
          = init context_id { w with tl := { w.tl with thread_context_id := context_id } } := by
        simp [context_bound, he]
      rw [if_pos he, hci2] at ho
      simp only [Bool.not_false] at ho
      rw [app_assert_true, returned_bind, returned_bind] at ho
      rcases construct_tail function_name _ o ho with h | ⟨name, k, w5, hf, hk, hw⟩
      · exact Or.inl h
      · exact Or.inr ⟨name, k, w5, hr, hc, by rw [hb]; exact hf, hk, hw⟩
  · have hb : context_bound context_id w = w := by simp [context_bound, he]
    rw [if_neg he, returned_bind] at ho
    rcases construct_tail function_name _ o ho with h | ⟨name, k, w5, hf, hk, hw⟩
    · exact Or.inl h
    · exact Or.inr ⟨name, k, w5, hr, hc, by rw [hb]; exact hf, hk, hw⟩

/-! ## Every call keeps the invariant -/

theorem frame_refl (w : World) : Frame w w :=
  ⟨fun h => h, keysGrow_refl w, fun _ _ h => h⟩

theorem frame_trans {a b c : World} (h1 : Frame a b) (h2 : Frame b c) : Frame a c :=
  ⟨fun h => h2.inv (h1.inv h), keysGrow_trans h1.keys h2.keys,
    fun k v h => h2.cache k v (h1.cache k v h)⟩

theorem frame_recorded (self : trace_t) (message : String) (level : trace_level) (w : World) :
    Frame w (recorded self message level w) :=
  ⟨inv_recorded self message level w, keys_recorded self message level w, by
    intro k v h
    rw [(recorded_tl self message level w).1, (ensured_tl w).2.2.2.1]
    exact h⟩

theorem frame_set_result (r : error_handler_result_t) (w : World) :
    Frame w (set_error_handler_result r w) :=
  ⟨inv_set_result r w, keys_set_result r w, fun _ _ h => h⟩

theorem frame_trace (self : trace_t) (message : String) (level : trace_level) (w w2 : World)
    (h : (trace self message level w).goes_on = some w2) : Frame w w2 := by
  rcases trace_cases self message level w with ⟨e, _⟩ | ⟨e, _, _⟩ | ⟨e, _, _⟩
  · rw [e] at h
    simp only [Outcome.goes_on, Option.some.injEq] at h
    subst h
    exact frame_recorded self message level w
  · rw [e] at h
    simp only [Outcome.goes_on, Option.some.injEq] at h
    subst h
    exact frame_trans (frame_recorded self message level w) (frame_set_result _ _)
  · rw [e] at h
    simp [Outcome.goes_on] at h

theorem frame_app_assert (self : trace_t) (location : String) (condition : Bool)
    (message : String) (w w2 : World)
    (h : (app_assert self location condition message w).goes_on = some w2) : Frame w w2 := by
  cases condition with
  | true =>
    rw [app_assert_true] at h
    simp only [Outcome.goes_on, Option.some.injEq] at h
    subst h
    exact frame_refl w
  | false =>
    exact frame_trace self _ trace_level.error w w2 (by simpa [app_assert, error] using h)

theorem frame_cached (s m : String) (w : World) (hr : regex_search s = some m)
    (hn : map_find w.tl.format_cache s = none) : Frame w (cached s m w) := by
  refine ⟨fun h => ⟨?_, h.callflow_handle, h.fifo_handle⟩, ⟨fun _ h => h, fun _ h => h⟩, ?_⟩
  · intro k v hk
    by_cases e : k = s
    · subst e
      simp only [cached, map_find_assign_self, Option.some.injEq] at hk
      rw [← hk]; exact hr
    · simp only [cached] at hk
      rw [map_find_assign_other _ _ _ _ e] at hk
      exact h.cache_sound k v hk
  · intro k v hk
    by_cases e : k = s
    · subst e
      rw [hn] at hk
      exact absurd hk (by simp)
    · simp only [cached]
      rw [map_find_assign_other _ _ _ _ e]
      exact hk

theorem frame_format (self : trace_t) (s : String) (w w2 : World)
    (h : (format_function_name self s w).goes_on = some w2) : Frame w w2 := by
  rcases format_cases self s w with ⟨v, _, e⟩ | ⟨m, hn, hr, e⟩ | ⟨_, _, _, e⟩ | ⟨_, _, _, e⟩
  · rw [e] at h
    simp only [Outcome.goes_on, Option.some.injEq] at h
    subst h
    exact frame_refl w
  · rw [e] at h
    simp only [Outcome.goes_on, Option.some.injEq] at h
    subst h
    exact frame_cached s m w hr hn
  · rw [e] at h
    simp [Outcome.goes_on] at h
  · rw [e] at h
    simp only [Outcome.goes_on, Option.some.injEq] at h
    subst h
    exact frame_trans (frame_recorded self _ _ w) (frame_set_result _ _)

theorem frame_context_bound (context_id : String) (w : World) :
    Frame w (context_bound context_id w) := by
  unfold context_bound
  by_cases he : empty w.tl.thread_context_id = true
  · rw [if_pos he]
    refine ⟨fun h => ⟨h.cache_sound, ?_, ?_⟩, ?_, fun _ _ h => h⟩
    · intro k hk
      simp only [init, Option.some.injEq] at hk
      subst hk
      exact ⟨rfl, map_contains_emplace_self _ _ _⟩
    · intro k hk
      simp only [init, Option.some.injEq] at hk
      subst hk
      exact ⟨rfl, map_contains_emplace_self _ _ _⟩
    · exact ⟨fun _ h => map_contains_emplace_mono _ _ _ _ h,
        fun _ h => map_contains_emplace_mono _ _ _ _ h⟩
  · rw [if_neg he]
    exact frame_refl w

theorem frame_entered (name k : String) (w : World) : Frame w (entered name k w) := by
  refine ⟨fun h => ⟨h.cache_sound, ?_, h.fifo_handle⟩, ⟨?_, fun _ h => h⟩, fun _ _ h => h⟩
  · intro k2 hk2
    have := h.callflow_handle k2 hk2
    refine ⟨this.1, ?_⟩
    simp only [entered]
    rw [map_contains_update]
    exact this.2
  · intro k2 hk2
    simp only [entered]
    rw [map_contains_update]
    exact hk2

theorem frame_construct (function_name context_id : String) (w w2 : World)
    (h : (construct function_name context_id w).goes_on = some w2) : Frame w w2 := by
  rcases construct_cases function_name context_id w with ⟨n, w3, e⟩
    | ⟨name, k, w5, _, _, hf, _, e⟩
  · rw [e] at h
    simp [Outcome.goes_on] at h
  · rw [e] at h
    simp only [Outcome.goes_on, Option.some.injEq] at h
    subst h
    have h5 : Frame (context_bound context_id w) w5 :=
      frame_format _ _ _ _ (by rw [hf]; rfl)
    exact frame_trans (frame_trans (frame_context_bound context_id w) h5) (frame_entered name k w5)

theorem flush_all_traces_keys (ofs : String) (m : List (String × List String)) (k : String) :
    map_contains (flush_all_traces ofs m).2 k = map_contains m k := by
  induction m generalizing ofs with
  | nil => rfl
  | cons p rest ih =>
    simp only [flush_all_traces, map_contains, List.any_cons] at ih ⊢
    rw [ih]

theorem frame_flush (yuml_filename trace_filename : String) (w w2 : World)
    (h : (flush yuml_filename trace_filename w).goes_on = some w2) : Frame w w2 := by
  simp only [flush, Outcome.goes_on, Option.some.injEq] at h
  subst h
  refine ⟨fun h => ⟨h.cache_sound, h.callflow_handle, ?_⟩, ⟨fun _ h => h, ?_⟩, fun _ _ h => h⟩
  · intro k hk
    have := h.fifo_handle k hk
    exact ⟨this.1, by simp only [flush_all_traces_keys]; exact this.2⟩
  · intro k hk
    simp only [flush_all_traces_keys]
    exact hk

theorem frame_destruct (self : trace_t) (w w2 : World)
    (h : (destruct self w).goes_on = some w2) : Frame w w2 := by
  unfold destruct at h
  cases hs : w.tl.code_coverage_stack with
  | nil => simp [hs, Outcome.goes_on] at h
  | cons top rest =>
    simp only [hs, Outcome.goes_on, Option.some.injEq] at h
    subst h
    exact ⟨fun h => ⟨h.cache_sound, h.callflow_handle, h.fifo_handle⟩,
      ⟨fun _ h => h, fun _ h => h⟩, fun _ _ h => h⟩

theorem goes_on_discard {α : Type} (o : Outcome α) : o.discard.goes_on = o.goes_on := by
  cases o <;> rfl

/-- Every call frames the state of the thread that makes it. -/
theorem frame_run (c : Call) (w w2 : World) (h : (c.run w).goes_on = some w2) : Frame w w2 := by
  cases c with
  | construct function_name context_id =>
    exact frame_construct function_name context_id w w2 (by
      simpa [Call.run, goes_on_discard] using h)
  | destruct self => exact frame_destruct self w w2 h
  | trace self message level => exact frame_trace self message level w w2 h
  | app_assert self location condition message =>
    exact frame_app_assert self location condition message w w2 h
  | format_function_name self s =>
    exact frame_format self s w w2 (by simpa [Call.run, goes_on_discard] using h)
  | flush yuml_filename trace_filename =>
    exact frame_flush yuml_filename trace_filename w w2 (by
      simpa [Call.run, goes_on_discard] using h)
  | set_error_handler_result r =>
    simp only [Call.run, Outcome.goes_on, Option.some.injEq] at h
    subst h
    exact frame_set_result r w

/-! ## Reachable processes -/

theorem view_put_self (p : Process) (i : Nat) (w : World) : (p.put i w).view i = w := by
  simp [Process.put, Process.view]

theorem frame_other_thread (p : Process) (i j : Nat) (w2 : World) (hij : i ≠ j)
    (hf : Frame (p.view j) w2) : Frame (p.view i) ((p.put j w2).view i) := by
  have htl : ((p.put j w2).view i).tl = (p.view i).tl := by
    simp [Process.put, Process.view, hij]
  refine ⟨fun h => ⟨?_, ?_, ?_⟩, ⟨fun k hk => hf.keys.1 k hk, fun k hk => hf.keys.2 k hk⟩, ?_⟩
  · rw [htl]; exact h.cache_sound
  · intro k hk
    rw [htl] at hk ⊢
    exact ⟨(h.callflow_handle k hk).1, hf.keys.1 k (h.callflow_handle k hk).2⟩
  · intro k hk
    rw [htl] at hk ⊢
    exact ⟨(h.fifo_handle k hk).1, hf.keys.2 k (h.fifo_handle k hk).2⟩
  · intro k v hk
    rw [htl]; exact hk

theorem frame_step (p q : Process) (j : Nat) (c : Call) (h : p.step j c = some q) (i : Nat) :
    Frame (p.view i) (q.view i) := by
  unfold Process.step at h
  cases hg : (c.run (p.view j)).goes_on with
  | none => simp [hg] at h
  | some w2 =>
    simp only [hg, Option.map_some', Option.some.injEq] at h
    subst h
    have hf := frame_run c (p.view j) w2 hg
    by_cases hij : i = j
    · subst hij
      rw [view_put_self]
      exact hf
    · exact frame_other_thread p i j w2 hij hf

theorem frame_later {p q : Process} (h : Later p q) (i : Nat) : Frame (p.view i) (q.view i) := by
  induction h with
  | refl => exact frame_refl _
  | step j c _ hs ih => exact frame_trans ih (frame_step _ _ j c hs i)

theorem inv_initial (i : Nat) : Inv (Process.initial.view i) :=
  ⟨fun k v h => by simp [Process.initial, Process.view, ThreadLocal.fresh, map_find] at h,
    fun k h => by simp [Process.initial, Process.view, ThreadLocal.fresh] at h,
    fun k h => by simp [Process.initial, Process.view, ThreadLocal.fresh] at h⟩

/-- The invariant holds of what every thread sees in every reachable process. -/
theorem reachable_inv {p : Process} (h : Reachable p) (i : Nat) : Inv (p.view i) :=
  (frame_later h i).inv (inv_initial i)

theorem later_trans {p q r : Process} (h1 : Later p q) (h2 : Later q r) : Later p r := by
  induction h2 with
  | refl => exact h1
  | step j c _ hs ih => exact Later.step j c ih hs

/-! ## C1: the name before the first delimiter -/

theorem takeWhile_notDelim_append (pre post : List Char) (d : Char)
    (hd : d = '(' ∨ d = '[') (hpre : ∀ c ∈ pre, c ≠ '(' ∧ c ≠ '[') :
    (pre ++ d :: post).takeWhile notDelim = pre
    ∧ (pre ++ d :: post).dropWhile notDelim = d :: post := by
  induction pre with
  | nil =>
    have : notDelim d = false := by
      rcases hd with h | h <;> subst h <;> rfl
    simp [List.takeWhile_cons, List.dropWhile_cons, this]
  | cons c cs ih =>
    have hc : notDelim c = true := by
      have := hpre c (List.mem_cons_self c cs)
      simp [notDelim, this.1, this.2]
    have ih2 := ih (fun x hx => hpre x (List.mem_cons_of_mem c hx))
    simp [List.takeWhile_cons, List.dropWhile_cons, hc, ih2.1, ih2.2]

/-- On a string with a first delimiter at an index of at least one and without line
terminator, the search succeeds with the text before that delimiter. -/
theorem regex_search_delimited (s : String) (pre post : List Char) (d : Char)
    (hs : s.data = pre ++ d :: post) (hd : d = '(' ∨ d = '[')
    (hpre : ∀ c ∈ pre, c ≠ '(' ∧ c ≠ '[') (hidx : 1 ≤ pre.length)
    (hlt : ∀ c ∈ s.data, c ≠ '\n' ∧ c ≠ '\r') :
    regex_search s = some (String.mk pre) := by
  have ht := takeWhile_notDelim_append pre post d hd hpre
  rw [regex_search_eq, hs, ht.1, ht.2]
  have h1 : pre ≠ [] := by
    intro h; rw [h] at hidx; simp at hidx
  have h2 : (d :: post).all dotChar = true := by
    rw [List.all_eq_true]
    intro c hc
    have := hlt c (by rw [hs]; exact List.mem_append_right _ hc)
    simp [dotChar, this.1, this.2]
  simp [h1, h2]

/-- C1. In every reachable process and on every thread, for a raw signature `s` without line
terminator whose first `(` or `[` stands at an index of at least one (`s = pre ++ d :: post`
with `d` a delimiter, no delimiter in `pre`, `pre` not empty), `format_function_name` returns
exactly `pre`. No error-level event is raised: the registries, both streams and the policy
state are left as they were, and the cache holds `pre` for `s`. In every later state of the
process, a call with the same `s` on that thread returns `pre` again and changes nothing. -/
theorem format_function_name_before_delimiter
    (p : Process) (i : Nat) (self : trace_t) (s : String) (pre post : List Char) (d : Char)
    (hp : Reachable p)
    (hs : s.data = pre ++ d :: post) (hd : d = '(' ∨ d = '[')
    (hpre : ∀ c ∈ pre, c ≠ '(' ∧ c ≠ '[') (hidx : 1 ≤ pre.length)
    (hlt : ∀ c ∈ s.data, c ≠ '\n' ∧ c ≠ '\r') :
    ∃ w1, format_function_name self s (p.view i) = Outcome.returned (String.mk pre) w1
      ∧ w1.thread_callflow = (p.view i).thread_callflow
      ∧ w1.thread_trace_fifo = (p.view i).thread_trace_fifo
      ∧ w1.cout = (p.view i).cout ∧ w1.cerr = (p.view i).cerr
      ∧ w1.tl.error_handler_result = (p.view i).tl.error_handler_result
      ∧ map_find w1.tl.format_cache s = some (String.mk pre)
      ∧ ∀ (q : Process) (self2 : trace_t), Later (p.put i w1) q →
          format_function_name self2 s (q.view i)
            = Outcome.returned (String.mk pre) (q.view i) := by
  have hr := regex_search_delimited s pre post d hs hd hpre hidx hlt
  have hinv := reachable_inv hp i
  -- a cache hit returns the cached name and changes nothing
  have hit : ∀ (self2 : trace_t) (w : World),
      map_find w.tl.format_cache s = some (String.mk pre) →
      format_function_name self2 s w = Outcome.returned (String.mk pre) w := by
    intro self2 w hw
    rcases format_cases self2 s w with ⟨v, hv, e⟩ | ⟨_, hn, _, _⟩ | ⟨hn, _, _, _⟩
      | ⟨hn, _, _, _⟩
    · rw [hw] at hv
      simp only [Option.some.injEq] at hv
      rw [e, hv]
    · rw [hw] at hn; exact absurd hn (by simp)
    · rw [hw] at hn; exact absurd hn (by simp)
    · rw [hw] at hn; exact absurd hn (by simp)
  have later : ∀ (w1 : World), map_find w1.tl.format_cache s = some (String.mk pre) →
      ∀ (q : Process) (self2 : trace_t), Later (p.put i w1) q →
        format_function_name self2 s (q.view i)
          = Outcome.returned (String.mk pre) (q.view i) := by
    intro w1 hw1 q self2 hq
    have hc := (frame_later hq i).cache s (String.mk pre)
    rw [view_put_self] at hc
    exact hit self2 _ (hc hw1)
  rcases format_cases self s (p.view i) with ⟨v, hv, e⟩ | ⟨m, hn, hm, e⟩ | ⟨_, hn, _, _⟩
    | ⟨_, hn, _, _⟩
  · have hv2 := hinv.cache_sound s v hv
    rw [hr] at hv2
    simp only [Option.some.injEq] at hv2
    subst hv2
    exact ⟨p.view i, e, rfl, rfl, rfl, rfl, rfl, hv, later _ hv⟩
  · rw [hr] at hm
    simp only [Option.some.injEq] at hm
    subst hm
    have hc : map_find (cached s (String.mk pre) (p.view i)).tl.format_cache s
        = some (String.mk pre) := by
      simp [cached, map_find_assign_self]
    exact ⟨_, e, rfl, rfl, rfl, rfl, rfl, hc, later _ hc⟩
  · rw [hr] at hn; exact absurd hn (by simp)
  · rw [hr] at hn; exact absurd hn (by simp)

/-- C1 at a concrete input: at program start, `"int main(int)"` gives `"int main"`. -/
theorem format_function_name_before_delimiter_witness :
    ∃ w1, format_function_name { where_ := "int main(int)", error_handler := none }
        "int main(int)" (Process.initial.view 0) = Outcome.returned "int main" w1
      ∧ w1.thread_callflow = (Process.initial.view 0).thread_callflow
      ∧ w1.thread_trace_fifo = (Process.initial.view 0).thread_trace_fifo
      ∧ w1.cout = (Process.initial.view 0).cout ∧ w1.cerr = (Process.initial.view 0).cerr
      ∧ w1.tl.error_handler_result = (Process.initial.view 0).tl.error_handler_result
      ∧ map_find w1.tl.format_cache "int main(int)" = some "int main"
      ∧ ∀ (q : Process) (self2 : trace_t), Later (Process.initial.put 0 w1) q →
          format_function_name self2 "int main(int)" (q.view 0)
            = Outcome.returned "int main" (q.view 0) :=
  format_function_name_before_delimiter Process.initial 0
    { where_ := "int main(int)", error_handler := none } "int main(int)"
    "int main".data "int)".data '(' (Later.refl _) rfl (Or.inl rfl)
    (by decide) (by decide) (by decide)

/-! ## C2: when canonicalization fails -/

/-- C2, refuted as stated: `"main"` contains neither `(` nor `[`, yet at program start
`format_function_name` raises no error-level event for it (nothing is printed, nothing is
queued, the policy state stays `continue`): it caches the whole string as the name and
returns it. -/
theorem format_function_name_no_delimiter_counterexample :
    ('(' ∉ "main".data ∧ '[' ∉ "main".data)
    ∧ format_function_name { where_ := "main", error_handler := none } "main" World.initial
      = Outcome.returned "main"
          { thread_callflow := []
            thread_trace_fifo := []
            tl :=
              { code_coverage_stack := []
                thread_context_id := ""
                local_callflow := none
                local_trace_fifo := none
                error_handler_result := error_handler_result_t.result_continue
                format_cache := [("main", "main")] }
            cout := []
            cerr := [] } :=
  ⟨by decide, rfl⟩

theorem regex_search_no_name (s : String)
    (hs : s.data = [] ∨ ∃ d rest, s.data = d :: rest ∧ (d = '(' ∨ d = '[')) :
    regex_search s = none := by
  rw [regex_search_eq]
  have : s.data.takeWhile notDelim = [] := by
    rcases hs with h | ⟨d, rest, h, hd⟩
    · rw [h]; rfl
    · have hnd : notDelim d = false := by
        rcases hd with e | e <;> subst e <;> rfl
      rw [h]
      simp [List.takeWhile_cons, hnd]
  simp [this]

theorem takeWhile_dropWhile_all (l : List Char) (h : ∀ c ∈ l, notDelim c = true) :
    l.takeWhile notDelim = l ∧ l.dropWhile notDelim = [] := by
  induction l with
  | nil => exact ⟨rfl, rfl⟩
  | cons c cs ih =>
    have hc := h c (List.mem_cons_self c cs)
    have ih2 := ih (fun x hx => h x (List.mem_cons_of_mem c hx))
    simp [List.takeWhile_cons, List.dropWhile_cons, hc, ih2.1, ih2.2]

theorem regex_search_whole (s : String) (hne : s.data ≠ [])
    (hs : ∀ c ∈ s.data, c ≠ '(' ∧ c ≠ '[') : regex_search s = some s := by
  have h := takeWhile_dropWhile_all s.data (fun c hc => by
    have := hs c hc
    simp [notDelim, this.1, this.2])
  rw [regex_search_eq, h.1, h.2]
  simp [hne]

/-- C2, amended. In every reachable process and on every thread: canonicalization fails for a
raw string `s` that is empty or begins with `(` or `[`. Then `format_function_name` raises the
error-level event `error("Unable to handle " + s)`: its entry is printed, the policy state
becomes what the event adopts, and no name is cached for `s`; the call ends the process when
the adopted state is `terminate` and otherwise ends in the `std::out_of_range` of
`format_cache.at`. A non-empty string `s2` that contains neither `(` nor `[` is no failure: no
event is raised, and the whole of `s2` is cached and returned as its name. -/
theorem format_function_name_failure
    (p : Process) (i : Nat) (self : trace_t) (s s2 : String)
    (hp : Reachable p)
    (hs : s.data = [] ∨ ∃ d rest, s.data = d :: rest ∧ (d = '(' ∨ d = '['))
    (hne : s2.data ≠ []) (hs2 : ∀ c ∈ s2.data, c ≠ '(' ∧ c ≠ '[') :
    (∃ w1,
      (adopted self = error_handler_result_t.result_terminate →
        format_function_name self s (p.view i) = Outcome.exited 1 w1)
      ∧ (adopted self ≠ error_handler_result_t.result_terminate →
        format_function_name self s (p.view i) = Outcome.threw "std::out_of_range" w1)
      ∧ w1.cout = (p.view i).cout
          ++ [format_entry (p.view i).tl.thread_context_id self.where_
                ("Unable to handle " ++ s) trace_level.error]
      ∧ w1.tl.error_handler_result = adopted self
      ∧ w1.tl.format_cache = (p.view i).tl.format_cache
      ∧ map_find w1.tl.format_cache s = none)
    ∧ (∃ w2, format_function_name self s2 (p.view i) = Outcome.returned s2 w2
      ∧ w2.cout = (p.view i).cout
      ∧ w2.thread_trace_fifo = (p.view i).thread_trace_fifo
      ∧ w2.tl.error_handler_result = (p.view i).tl.error_handler_result
      ∧ map_find w2.tl.format_cache s2 = some s2) := by
  have hinv := reachable_inv hp i
  constructor
  · have hr := regex_search_no_name s hs
    have hcache : (set_error_handler_result (adopted self)
        (recorded self ("Unable to handle " ++ s) trace_level.error (p.view i))).tl.format_cache
        = (p.view i).tl.format_cache := by
      simp [set_error_handler_result, (recorded_tl _ _ _ (p.view i)).1,
        (ensured_tl (p.view i)).2.2.2.1]
    have hcout : (set_error_handler_result (adopted self)
        (recorded self ("Unable to handle " ++ s) trace_level.error (p.view i))).cout
        = (p.view i).cout ++ [format_entry (p.view i).tl.thread_context_id self.where_
                ("Unable to handle " ++ s) trace_level.error] := by
      simp [set_error_handler_result, (recorded_tl _ _ _ (p.view i)).2.2.2]
    rcases format_cases self s (p.view i) with ⟨v, hv, _⟩ | ⟨m, _, hm, _⟩ | ⟨hn, _, ha, e⟩
      | ⟨hn, _, ha, e⟩
    · have := hinv.cache_sound s v hv
      rw [hr] at this; exact absurd this (by simp)
    · rw [hr] at hm; exact absurd hm (by simp)
    · exact ⟨_, fun _ => e, fun h => absurd ha h, hcout, rfl, hcache, by rw [hcache]; exact hn⟩
    · exact ⟨_, fun h => absurd h ha, fun _ => e, hcout, rfl, hcache, by rw [hcache]; exact hn⟩
  · have hr := regex_search_whole s2 hne hs2
    rcases format_cases self s2 (p.view i) with ⟨v, hv, e⟩ | ⟨m, _, hm, e⟩ | ⟨_, hn, _, _⟩
      | ⟨_, hn, _, _⟩
    · have hv2 := hinv.cache_sound s2 v hv
      rw [hr] at hv2
      simp only [Option.some.injEq] at hv2
      subst hv2
      exact ⟨_, e, rfl, rfl, rfl, hv⟩
    · rw [hr] at hm
      simp only [Option.some.injEq] at hm
      subst hm
      exact ⟨_, e, rfl, rfl, rfl, by simp [cached, map_find_assign_self]⟩
    · rw [hr] at hn; exact absurd hn (by simp)
    · rw [hr] at hn; exact absurd hn (by simp)

/-- C2, amended, at a concrete input: at program start and with no callback, `"(x"` fails and
`"main"` is its own name. -/
theorem format_function_name_failure_witness :
    (∃ w1,
      (adopted { where_ := "f()", error_handler := none }
          = error_handler_result_t.result_terminate →
        format_function_name { where_ := "f()", error_handler := none } "(x"
          (Process.initial.view 0) = Outcome.exited 1 w1)
      ∧ (adopted { where_ := "f()", error_handler := none }
          ≠ error_handler_result_t.result_terminate →
        format_function_name { where_ := "f()", error_handler := none } "(x"
          (Process.initial.view 0) = Outcome.threw "std::out_of_range" w1)
      ∧ w1.cout = (Process.initial.view 0).cout
          ++ [format_entry (Process.initial.view 0).tl.thread_context_id "f()"
                ("Unable to handle " ++ "(x") trace_level.error]
      ∧ w1.tl.error_handler_result = adopted { where_ := "f()", error_handler := none }
      ∧ w1.tl.format_cache = (Process.initial.view 0).tl.format_cache
      ∧ map_find w1.tl.format_cache "(x" = none)
    ∧ (∃ w2, format_function_name { where_ := "f()", error_handler := none } "main"
          (Process.initial.view 0) = Outcome.returned "main" w2
      ∧ w2.cout = (Process.initial.view 0).cout
      ∧ w2.thread_trace_fifo = (Process.initial.view 0).thread_trace_fifo
      ∧ w2.tl.error_handler_result = (Process.initial.view 0).tl.error_handler_result
      ∧ map_find w2.tl.format_cache "main" = some "main") :=
  format_function_name_failure Process.initial 0 { where_ := "f()", error_handler := none }
    "(x" "main" (Later.refl _) (Or.inr ⟨'(', ['x'], rfl, Or.inl rfl⟩) (by decide) (by decide)

/-! ## C3: the lookup after a failure -/

/-- C3, the code at a failing input. Thread `W1` opens the scope `int main()`, registers a
callback that answers `continue`, and asks for the name of the empty string: the error is
recorded, the callback lets the program go on, and `format_cache.at` throws
`std::out_of_range` instead of returning a string. -/
theorem format_function_name_throws :
    ((construct "int main()" "W1" World.initial).bind fun t w =>
      format_function_name
        (set_error_handler t (some fun _ => error_handler_result_t.result_continue)) "" w)
    = Outcome.threw "std::out_of_range"
        { thread_callflow := [("W1", ["(?)->(int main)"])]
          thread_trace_fifo := [("W1", ["[W1]error: int main():\n       Unable to handle \n\n"])]
          tl :=
            { code_coverage_stack := ["int main"]
              thread_context_id := "W1"
              local_callflow := some "W1"
              local_trace_fifo := some "W1"
              error_handler_result := error_handler_result_t.result_continue
              format_cache := [("int main()", "int main")] }
          cout := ["[W1]error: int main():\n       Unable to handle \n\n"]
          cerr := [] } := by
  rfl

/-! ## C4: the edge that a construction inserts -/

theorem map_find_emplace_self {V : Type} (m : List (String × V)) (k : String) (v : V) :
    map_find (map_emplace m k v) k = some ((map_find m k).getD v) := by
  unfold map_emplace
  by_cases h : map_contains m k = true
  · obtain ⟨x, hx⟩ := map_find_some_of_contains m k h
    simp [h, hx]
  · have h2 : map_contains m k = false := by simpa using h
    have hn := map_find_none_of_not_contains m k h2
    rw [if_neg h, hn]
    clear hn h2
    induction m with
    | nil => simp [map_find]
    | cons q rest ih =>
      obtain ⟨k1, v1⟩ := q
      have hk : ¬ k1 = k := by
        intro e
        apply h
        simp [map_contains, e]
      have hrest : ¬ map_contains rest k = true := by
        intro e
        apply h
        simp only [map_contains, List.any_cons] at e ⊢
        simp [e]
      simpa [map_find, hk] using ih hrest

/-- What a normal return of `format_function_name` says: a hit leaves the state as it was, a
miss adds the name that the regular expression gives. -/
theorem format_returned (self : trace_t) (s v : String) (w w5 : World)
    (h : format_function_name self s w = Outcome.returned v w5) :
    (w5 = w ∧ map_find w.tl.format_cache s = some v)
    ∨ (w5 = cached s v w ∧ regex_search s = some v ∧ map_find w.tl.format_cache s = none) := by
  rcases format_cases self s w with ⟨v2, hv, e⟩ | ⟨m, hn, hm, e⟩ | ⟨_, _, _, e⟩ | ⟨_, _, _, e⟩
  · rw [e] at h
    simp only [Outcome.returned.injEq] at h
    exact Or.inl ⟨h.2.symm, by rw [← h.1]; exact hv⟩
  · rw [e] at h
    simp only [Outcome.returned.injEq] at h
    exact Or.inr ⟨by rw [← h.1, ← h.2], by rw [← h.1]; exact hm, hn⟩
  · rw [e] at h; simp at h
  · rw [e] at h; simp at h

theorem context_bound_stack (context_id : String) (w : World) :
    (context_bound context_id w).tl.code_coverage_stack = w.tl.code_coverage_stack := by
  unfold context_bound
  by_cases he : empty w.tl.thread_context_id = true
  · simp [he, init]
  · simp [he]

/-- The edge set stored under the context id that the constructor has bound or found bound. -/
theorem context_bound_find (context_id : String) (w : World) (hinv : Inv w) (k : String)
    (hk : (context_bound context_id w).tl.local_callflow = some k) :
    map_find (context_bound context_id w).thread_callflow k
      = some ((map_find w.thread_callflow k).getD []) := by
  unfold context_bound at hk ⊢
  by_cases he : empty w.tl.thread_context_id = true
  · rw [if_pos he] at hk ⊢
    simp only [init, Option.some.injEq] at hk
    subst hk
    simp only [init]
    exact map_find_emplace_self _ _ _
  · rw [if_neg he] at hk ⊢
    obtain ⟨x, hx⟩ := map_find_some_of_contains _ _ (hinv.callflow_handle k hk).2
    simp [hx]

/-- C4. In every reachable process, when a scope construction on a thread whose call stack is
`st` returns normally, the raw signature has a canonical name `B`, which is pushed; the
thread's handle designates the edge set stored under the thread's context id; and that set is
the set found there before (the empty set when the context was bound just now) with one
string `E` inserted, where `E` is `"(?)->(B)"` when `st` is empty and `"(A)->(B)"` when the
top of `st` is `A`. So `E` is a member of the thread's edge set after the construction. -/
theorem construct_inserts_edge
    (p : Process) (i : Nat) (function_name context_id : String) (t : trace_t) (w2 : World)
    (hp : Reachable p)
    (h : construct function_name context_id (p.view i) = Outcome.returned t w2) :
    ∃ B E edges,
      regex_search function_name = some B
      ∧ w2.tl.code_coverage_stack = B :: (p.view i).tl.code_coverage_stack
      ∧ ((p.view i).tl.code_coverage_stack = [] → E = "(?)->(" ++ B ++ ")")
      ∧ (∀ A rest, (p.view i).tl.code_coverage_stack = A :: rest →
          E = "(" ++ A ++ ")->(" ++ B ++ ")")
      ∧ w2.tl.local_callflow = some w2.tl.thread_context_id
      ∧ map_find w2.thread_callflow w2.tl.thread_context_id = some edges
      ∧ edges = set_insert
          ((map_find (p.view i).thread_callflow w2.tl.thread_context_id).getD []) E
      ∧ E ∈ edges := by
  have hinv := reachable_inv hp i
  rcases construct_cases function_name context_id (p.view i) with ⟨n, w3, e⟩
    | ⟨name, k, w5, _, _, hf, hk, e⟩
  · rw [e] at h; simp at h
  rw [e] at h
  simp only [Outcome.returned.injEq] at h
  obtain ⟨_, hw2⟩ := h
  subst hw2
  have hinv4 := (frame_context_bound context_id (p.view i)).inv hinv
  have hinv5 : Inv w5 := (frame_format _ _ _ _ (by rw [hf]; rfl)).inv hinv4
  have hk5 := (hinv5.callflow_handle k hk).1
  -- the state after `format_function_name` differs from the bound state in the cache only
  have hsame : w5.tl.code_coverage_stack = (p.view i).tl.code_coverage_stack
      ∧ w5.thread_callflow = (context_bound context_id (p.view i)).thread_callflow
      ∧ (context_bound context_id (p.view i)).tl.local_callflow = some k
      ∧ regex_search function_name = some name := by
    rcases format_returned _ _ _ _ _ hf with ⟨e5, hv⟩ | ⟨e5, hr, _⟩
    · subst e5
      exact ⟨context_bound_stack _ _, rfl, hk, hinv4.cache_sound _ _ hv⟩
    · subst e5
      exact ⟨context_bound_stack _ _, rfl, hk, hr⟩
  obtain ⟨hst, hreg, hk4, hname⟩ := hsame
  have hfind := context_bound_find context_id (p.view i) hinv k hk4
  refine ⟨name, render_edge (prev_frame (p.view i).tl.code_coverage_stack) name,
    set_insert ((map_find (p.view i).thread_callflow k).getD [])
      (render_edge (prev_frame (p.view i).tl.code_coverage_stack) name),
    hname, ?_, ?_, ?_, ?_, ?_, ?_, ?_⟩
  · simp [entered, hst]
  · intro h0
    rw [h0]
    simp only [prev_frame, render_edge]
    rw [show "(?)->(" = "(" ++ "?" ++ ")->(" from by decide]
  · intro A rest h0
    rw [h0]
    rfl
  · simp only [entered]
    rw [hk, hk5]
  · have : (entered name k w5).tl.thread_context_id = k := by
      simp only [entered]; exact hk5.symm
    rw [this]
    simp only [entered]
    rw [map_find_update, hreg, hfind, hst]
    rfl
  · have : (entered name k w5).tl.thread_context_id = k := by
      simp only [entered]; exact hk5.symm
    rw [this]
  · rw [mem_set_insert]
    exact Or.inr rfl

theorem reachable_process_in_foo : Reachable process_in_foo :=
  Later.step 0 (Call.construct "void foo()" "W1") (Later.refl _) rfl

/-- C4 at a concrete input: thread `W1`, inside `void foo()`, opens `int bar(int)` and ends in
`world_in_bar`, whose edge set holds `(void foo)->(int bar)`. -/
theorem construct_inserts_edge_witness :
    construct "int bar(int)" "" (process_in_foo.view 0)
      = Outcome.returned { where_ := "int bar(int)", error_handler := none } world_in_bar
    ∧ ∃ B E edges,
      regex_search "int bar(int)" = some B
      ∧ world_in_bar.tl.code_coverage_stack
          = B :: (process_in_foo.view 0).tl.code_coverage_stack
      ∧ ((process_in_foo.view 0).tl.code_coverage_stack = [] → E = "(?)->(" ++ B ++ ")")
      ∧ (∀ A rest, (process_in_foo.view 0).tl.code_coverage_stack = A :: rest →
          E = "(" ++ A ++ ")->(" ++ B ++ ")")
      ∧ world_in_bar.tl.local_callflow = some world_in_bar.tl.thread_context_id
      ∧ map_find world_in_bar.thread_callflow world_in_bar.tl.thread_context_id = some edges
      ∧ edges = set_insert
          ((map_find (process_in_foo.view 0).thread_callflow
            world_in_bar.tl.thread_context_id).getD []) E
      ∧ E ∈ edges :=
  ⟨rfl, construct_inserts_edge process_in_foo 0 "int bar(int)" ""
    { where_ := "int bar(int)", error_handler := none } world_in_bar
    reachable_process_in_foo rfl⟩

/-! ## C5: the call stack follows the live tracers -/

/-- A construction that returns has pushed the canonical name of its signature, and the new
object carries that signature. -/
theorem construct_pushes (function_name context_id : String) (w w2 : World) (t : trace_t)
    (hinv : Inv w) (h : construct function_name context_id w = Outcome.returned t w2) :
    t.where_ = function_name
    ∧ ∃ B, regex_search function_name = some B
      ∧ w2.tl.code_coverage_stack = B :: w.tl.code_coverage_stack := by
  rcases construct_cases function_name context_id w with ⟨n, w3, e⟩
    | ⟨name, k, w5, _, _, hf, hk, e⟩
  · rw [e] at h; simp at h
  rw [e] at h
  simp only [Outcome.returned.injEq] at h
  obtain ⟨ht, hw2⟩ := h
  subst hw2
  subst ht
  have hinv4 := (frame_context_bound context_id w).inv hinv
  refine ⟨rfl, name, ?_, ?_⟩
  · rcases format_returned _ _ _ _ _ hf with ⟨_, hv⟩ | ⟨_, hr, _⟩
    · exact hinv4.cache_sound _ _ hv
    · exact hr
  · rcases format_returned _ _ _ _ _ hf with ⟨e5, _⟩ | ⟨e5, _, _⟩
    · subst e5
      simp [entered, context_bound_stack]
    · subst e5
      simp [entered, cached, context_bound_stack]

theorem trace_returned_stack (self : trace_t) (message : String) (level : trace_level)
    (w w2 : World) (h : trace self message level w = Outcome.returned () w2) :
    w2.tl.code_coverage_stack = w.tl.code_coverage_stack := by
  have hrec : (recorded self message level w).tl.code_coverage_stack
      = w.tl.code_coverage_stack := by
    rw [(recorded_tl self message level w).1, (ensured_tl w).1]
  rcases trace_cases self message level w with ⟨e, _⟩ | ⟨e, _, _⟩ | ⟨e, _, _⟩
  · rw [e] at h
    simp only [Outcome.returned.injEq, true_and] at h
    rw [← h]; exact hrec
  · rw [e] at h
    simp only [Outcome.returned.injEq, true_and] at h
    rw [← h]; exact hrec
  · rw [e] at h; simp at h

/-- The destruction of the most recent live tracer pops exactly its name. -/
theorem destruct_pops (t : trace_t) (live : List trace_t) (w : World)
    (h : StackOf (t :: live) w.tl.code_coverage_stack) :
    ∃ name st, regex_search t.where_ = some name
      ∧ w.tl.code_coverage_stack = name :: st
      ∧ destruct t w
        = Outcome.returned () { w with tl := { w.tl with code_coverage_stack := st } }
      ∧ StackOf live st := by
  unfold StackOf at h
  cases hs : w.tl.code_coverage_stack with
  | nil => rw [hs] at h; simp at h
  | cons name st =>
    rw [hs] at h
    simp only [List.map_cons, List.cons.injEq] at h
    exact ⟨name, st, h.1, rfl, by simp [destruct, hs], h.2⟩

/-- Along a run, the invariant of reachable states and the agreement of the call stack with
the live tracers are kept. -/
theorem run_scopes_keeps (evs : List ScopeEvent) (w : World) (live : List trace_t)
    (w2 : World) (live2 : List trace_t) (hinv : Inv w)
    (h0 : StackOf live w.tl.code_coverage_stack)
    (hrun : run_scopes evs w live = some (w2, live2)) :
    Inv w2 ∧ StackOf live2 w2.tl.code_coverage_stack := by
  induction evs generalizing w live with
  | nil =>
    simp only [run_scopes, Option.some.injEq, Prod.mk.injEq] at hrun
    rw [← hrun.1, ← hrun.2]
    exact ⟨hinv, h0⟩
  | cons ev rest ih =>
    cases ev with
    | enter function_name context_id =>
      simp only [run_scopes] at hrun
      cases hc : construct function_name context_id w with
      | returned t w3 =>
        rw [hc] at hrun
        have hinv3 : Inv w3 := (frame_construct _ _ w w3 (by rw [hc]; rfl)).inv hinv
        obtain ⟨hw, B, hB, hst⟩ := construct_pushes _ _ _ _ _ hinv hc
        refine ih w3 (t :: live) hinv3 ?_ hrun
        unfold StackOf at h0 ⊢
        rw [hst]
        simp only [List.map_cons, hw, hB, h0]
      | exited n w3 => rw [hc] at hrun; simp at hrun
      | threw e w3 => rw [hc] at hrun; simp at hrun
      | undefined => rw [hc] at hrun; simp at hrun
    | leave =>
      simp only [run_scopes] at hrun
      cases live with
      | nil => simp at hrun
      | cons t live3 =>
        obtain ⟨name, st, _, _, hd, hst⟩ := destruct_pops t live3 w h0
        simp only [hd] at hrun
        refine ih _ live3 ?_ hst hrun
        exact (frame_destruct t w _ (by rw [hd]; rfl)).inv hinv
    | log self message level =>
      simp only [run_scopes] at hrun
      cases hc : trace self message level w with
      | returned u w3 =>
        rw [hc] at hrun
        have hinv3 : Inv w3 := (frame_trace _ _ _ w w3 (by rw [hc]; rfl)).inv hinv
        refine ih w3 live hinv3 ?_ hrun
        rw [trace_returned_stack self message level w w3 hc]
        exact h0
      | exited n w3 => rw [hc] at hrun; simp at hrun
      | threw e w3 => rw [hc] at hrun; simp at hrun
      | undefined => rw [hc] at hrun; simp at hrun

/-- C5, the LIFO law. In every reachable process, for a thread whose call stack consists of
the canonical names of its live tracers, and for every well-nested sequence of scope
constructions and destructions (log calls may stand between them) in which every step returns
normally: afterwards the call stack again consists of exactly the canonical names of the live
tracers, in construction order, so its depth is the number of live tracers; the destruction of
the most recent live tracer returns normally and removes exactly the name that its
construction pushed, leaving the names of the other live tracers; and a construction followed
at once by its destruction gives back the call stack unchanged. -/
theorem lifo_law
    (p : Process) (i : Nat) (evs : List ScopeEvent) (live live2 : List trace_t) (w2 : World)
    (hp : Reachable p)
    (h0 : StackOf live (p.view i).tl.code_coverage_stack)
    (hrun : run_scopes evs (p.view i) live = some (w2, live2)) :
    StackOf live2 w2.tl.code_coverage_stack
    ∧ w2.tl.code_coverage_stack.length = live2.length
    ∧ (∀ t rest, live2 = t :: rest →
        ∃ name st, regex_search t.where_ = some name
          ∧ w2.tl.code_coverage_stack = name :: st
          ∧ destruct t w2
            = Outcome.returned () { w2 with tl := { w2.tl with code_coverage_stack := st } }
          ∧ StackOf rest st)
    ∧ (∀ function_name context_id t w3,
        construct function_name context_id w2 = Outcome.returned t w3 →
        ∃ B, regex_search function_name = some B
          ∧ w3.tl.code_coverage_stack = B :: w2.tl.code_coverage_stack
          ∧ destruct t w3
            = Outcome.returned ()
                { w3 with tl := { w3.tl with
                    code_coverage_stack := w2.tl.code_coverage_stack } }) := by
  obtain ⟨hinv2, hst2⟩ := run_scopes_keeps evs (p.view i) live w2 live2 (reachable_inv hp i)
    h0 hrun
  refine ⟨hst2, ?_, ?_, ?_⟩
  · have := congrArg List.length hst2
    simpa using this.symm
  · intro t rest hl
    subst hl
    exact destruct_pops t rest w2 hst2
  · intro function_name context_id t w3 hc
    obtain ⟨_, B, hB, hst⟩ := construct_pushes _ _ _ _ _ hinv2 hc
    exact ⟨B, hB, hst, by simp [destruct, hst]⟩

/-- C5 at a concrete input: from program start, a thread opens `void foo()` as `W1`, opens
`int bar(int)` inside it and leaves it again; `void foo` alone is on the call stack. -/
theorem lifo_law_witness :
    run_scopes
        [ScopeEvent.enter "void foo()" "W1", ScopeEvent.enter "int bar(int)" "",
          ScopeEvent.leave]
        (Process.initial.view 0) []
      = some ({ world_in_bar with
                tl := { world_in_bar.tl with code_coverage_stack := ["void foo"] } },
              [{ where_ := "void foo()", error_handler := none }])
    ∧ (StackOf [{ where_ := "void foo()", error_handler := none }] ["void foo"]
      ∧ ["void foo"].length
          = [({ where_ := "void foo()", error_handler := none } : trace_t)].length
      ∧ (∀ t rest, [({ where_ := "void foo()", error_handler := none } : trace_t)] = t :: rest →
          ∃ name st, regex_search t.where_ = some name
            ∧ ["void foo"] = name :: st
            ∧ destruct t { world_in_bar with
                tl := { world_in_bar.tl with code_coverage_stack := ["void foo"] } }
              = Outcome.returned ()
                  { world_in_bar with tl := { world_in_bar.tl with code_coverage_stack := st } }
            ∧ StackOf rest st)
      ∧ (∀ function_name context_id t w3,
          construct function_name context_id { world_in_bar with
              tl := { world_in_bar.tl with code_coverage_stack := ["void foo"] } }
            = Outcome.returned t w3 →
          ∃ B, regex_search function_name = some B
            ∧ w3.tl.code_coverage_stack = B :: ["void foo"]
            ∧ destruct t w3
              = Outcome.returned ()
                  { w3 with tl := { w3.tl with code_coverage_stack := ["void foo"] } })) :=
  ⟨rfl, lifo_law Process.initial 0
    [ScopeEvent.enter "void foo()" "W1", ScopeEvent.enter "int bar(int)" "", ScopeEvent.leave]
    [] [{ where_ := "void foo()", error_handler := none }]
    { world_in_bar with tl := { world_in_bar.tl with code_coverage_stack := ["void foo"] } }
    (Later.refl _) rfl rfl⟩

/-! ## C6: the call-flow output of `flush` -/

theorem lines_text_append (a b : List String) :
    lines_text (a ++ b) = lines_text a ++ lines_text b := by
  induction a with
  | nil => simp [lines_text]
  | cons l rest ih =>
    show l ++ "\n" ++ lines_text (rest ++ b) = l ++ "\n" ++ lines_text rest ++ lines_text b
    rw [ih]
    simp only [String.append_assoc]

theorem lines_text_snoc (a : List String) (e : String) :
    lines_text (a ++ [e]) = lines_text a ++ e ++ "\n" := by
  rw [lines_text_append]
  simp only [lines_text, String.append_assoc]
  congr 2

theorem flush_call_keeps (acc : String × List String) (e : String) (h : CallflowSoFar acc) :
    CallflowSoFar (flush_call acc e)
    ∧ ∀ x, x ∈ (flush_call acc e).2 ↔ x ∈ acc.2 ∨ x = e := by
  unfold flush_call
  by_cases hc : acc.2.contains e = true
  · have hm : e ∈ acc.2 := by simpa using hc
    simp only [hc, Bool.not_true, Bool.false_eq_true, if_false]
    refine ⟨h, fun x => ⟨Or.inl, ?_⟩⟩
    rintro (hx | hx)
    · exact hx
    · exact hx ▸ hm
  · have hm : e ∉ acc.2 := by simpa using hc
    have hc2 : acc.2.contains e = false := by simpa using hc
    simp only [hc2, Bool.not_false, if_true]
    refine ⟨⟨?_, nodup_set_insert _ _ h.2⟩, fun x => mem_set_insert _ _ _⟩
    show acc.1 ++ e ++ "\n" = yuml_header ++ lines_text (set_insert acc.2 e)
    rw [set_insert, if_neg hm, lines_text_snoc, h.1]
    simp only [String.append_assoc]

theorem flush_set_keeps (edges : List String) (acc : String × List String)
    (h : CallflowSoFar acc) :
    CallflowSoFar (edges.foldl flush_call acc)
    ∧ ∀ x, x ∈ (edges.foldl flush_call acc).2 ↔ x ∈ acc.2 ∨ x ∈ edges := by
  induction edges generalizing acc with
  | nil => simpa using h
  | cons e rest ih =>
    obtain ⟨h1, h2⟩ := flush_call_keeps acc e h
    obtain ⟨h3, h4⟩ := ih (flush_call acc e) h1
    refine ⟨h3, fun x => ?_⟩
    simp only [List.foldl_cons, h4, h2, List.mem_cons]
    tauto

theorem flush_registry_keeps (reg : List (String × List String)) (acc : String × List String)
    (h : CallflowSoFar acc) :
    CallflowSoFar (reg.foldl (fun acc c => c.2.foldl flush_call acc) acc)
    ∧ ∀ x, x ∈ (reg.foldl (fun acc c => c.2.foldl flush_call acc) acc).2
        ↔ x ∈ acc.2 ∨ ∃ ctx edges, (ctx, edges) ∈ reg ∧ x ∈ edges := by
  induction reg generalizing acc with
  | nil => simpa using h
  | cons c rest ih =>
    obtain ⟨h1, h2⟩ := flush_set_keeps c.2 acc h
    obtain ⟨h3, h4⟩ := ih (c.2.foldl flush_call acc) h1
    refine ⟨h3, fun x => ?_⟩
    simp only [List.foldl_cons, h4, h2, List.mem_cons]
    constructor
    · rintro ((hx | hx) | ⟨ctx, edges, hm, hx⟩)
      · exact Or.inl hx
      · exact Or.inr ⟨c.1, c.2, Or.inl rfl, hx⟩
      · exact Or.inr ⟨ctx, edges, Or.inr hm, hx⟩
    · rintro (hx | ⟨ctx, edges, hm | hm, hx⟩)
      · exact Or.inl (Or.inl hx)
      · subst hm
        exact Or.inl (Or.inr hx)
      · exact Or.inr ⟨ctx, edges, hm, hx⟩

/-- The call-flow part of `flush`, for every registry. -/
theorem flush_callflow_spec (reg : List (String × List String)) :
    (flush_callflow reg).1 = yuml_header ++ lines_text (flush_callflow reg).2
    ∧ (flush_callflow reg).2.Nodup
    ∧ ∀ x, x ∈ (flush_callflow reg).2 ↔ ∃ ctx edges, (ctx, edges) ∈ reg ∧ x ∈ edges := by
  have h0 : CallflowSoFar (yuml_header, []) := by
    refine ⟨?_, List.nodup_nil⟩
    show yuml_header = yuml_header ++ lines_text []
    simp [lines_text]
  obtain ⟨h1, h2⟩ := flush_registry_keeps reg (yuml_header, []) h0
  refine ⟨h1.1, h1.2, fun x => ?_⟩
  have := h2 x
  simpa [flush_callflow] using this

/-- C6. For every state, `flush` returns, and its call-flow output is the three header lines
followed by the lines of a list `L` of edge strings, every line ended by a newline, where `L`
has no string twice and its members are exactly the strings that occur in the edge set of at
least one context. So an edge stored under several contexts is written once, and nothing else
is written. -/
theorem flush_callflow_output (w : World) (yuml_filename trace_filename : String) :
    ∃ L out w2,
      flush yuml_filename trace_filename w = Outcome.returned out w2
      ∧ out.yuml = lines_text
          (["// \x7btype:activity\x7d", "// \x7bdirection:leftToRight\x7d",
            "// \x7bgenerate:true\x7d"] ++ L)
      ∧ L.Nodup
      ∧ ∀ e, e ∈ L ↔ ∃ ctx edges, (ctx, edges) ∈ w.thread_callflow ∧ e ∈ edges := by
  obtain ⟨h1, h2, h3⟩ := flush_callflow_spec w.thread_callflow
  refine ⟨(flush_callflow w.thread_callflow).2, _, _, rfl, ?_, h2, h3⟩
  show (flush_callflow w.thread_callflow).1 = _
  rw [h1, lines_text_append]
  congr 1

/-! ## C8: the trace output of `flush` -/

theorem flush_traces_eq (ofs : String) (q : List String) :
    flush_traces ofs q = (ofs ++ lines_text q, []) := by
  induction q generalizing ofs with
  | nil => simp [flush_traces, lines_text]
  | cons front rest ih =>
    simp only [flush_traces, ih, lines_text, String.append_assoc]

theorem flush_all_traces_eq (ofs : String) (reg : List (String × List String)) :
    flush_all_traces ofs reg
      = (ofs ++ lines_text (all_entries reg), reg.map (fun thread_trace => (thread_trace.1, []))) := by
  induction reg generalizing ofs with
  | nil => simp [flush_all_traces, all_entries, lines_text]
  | cons c rest ih =>
    simp only [flush_all_traces, flush_traces_eq, ih, all_entries, List.flatMap_cons,
      lines_text_append, String.append_assoc, List.map_cons]

theorem all_entries_drained (reg : List (String × List String)) :
    all_entries (reg.map (fun thread_trace => (thread_trace.1, ([] : List String)))) = [] := by
  induction reg with
  | nil => rfl
  | cons c rest ih =>
    simp only [all_entries, List.map_cons, List.flatMap_cons, List.nil_append] at ih ⊢
    exact ih

/-- C8, idempotent flush. For every state, `flush` returns; it leaves the edge set of every
context unchanged and the trace queue of every context empty, under the same context ids; and
a second `flush` right after it returns a call-flow output identical to the first and an
empty trace output. -/
theorem flush_twice (w : World) (yuml_filename trace_filename yuml2 trace2 : String) :
    ∃ out1 w1 out2 w2,
      flush yuml_filename trace_filename w = Outcome.returned out1 w1
      ∧ flush yuml2 trace2 w1 = Outcome.returned out2 w2
      ∧ out2.yuml = out1.yuml
      ∧ out2.trace = ""
      ∧ w1.thread_callflow = w.thread_callflow
      ∧ w1.thread_trace_fifo
          = w.thread_trace_fifo.map (fun thread_trace => (thread_trace.1, []))
      ∧ (∀ c q, (c, q) ∈ w1.thread_trace_fifo → q = [])
      ∧ w2.thread_callflow = w.thread_callflow
      ∧ w2.thread_trace_fifo = w1.thread_trace_fifo := by
  refine ⟨_, _, _, _, rfl, rfl, rfl, ?_, rfl, ?_, ?_, rfl, ?_⟩
  · show (flush_all_traces "" (flush_all_traces "" w.thread_trace_fifo).2).1 = ""
    rw [flush_all_traces_eq, flush_all_traces_eq]
    simp only [all_entries_drained, lines_text]
    rfl
  · show (flush_all_traces "" w.thread_trace_fifo).2 = _
    rw [flush_all_traces_eq]
  · intro c q hm
    have hm2 : (c, q) ∈ (flush_all_traces "" w.thread_trace_fifo).2 := hm
    rw [flush_all_traces_eq] at hm2
    simp only [List.mem_map, Prod.mk.injEq] at hm2
    obtain ⟨_, _, _, hq⟩ := hm2
    exact hq.symm
  · show (flush_all_traces "" (flush_all_traces "" w.thread_trace_fifo).2).2
      = (flush_all_traces "" w.thread_trace_fifo).2
    rw [flush_all_traces_eq, flush_all_traces_eq]
    simp [List.map_map, Function.comp_def]

theorem queueAt_of_contains (reg : List (String × List String)) (c : String)
    (h : map_contains reg c = true) : ∃ q, QueueAt reg c q := by
  induction reg with
  | nil => simp [map_contains] at h
  | cons e rest ih =>
    obtain ⟨k1, q1⟩ := e
    by_cases hk : k1 = c
    · subst hk
      exact ⟨q1, [], rest, rfl, rfl⟩
    · have hrest : map_contains rest c = true := by
        simp only [map_contains, List.any_cons] at h ⊢
        simpa [hk] using h
      obtain ⟨q, before, after, e1, e2⟩ := ih hrest
      refine ⟨q, (k1, q1) :: before, after, by rw [e1]; rfl, ?_⟩
      simp only [map_contains, List.any_cons] at e2 ⊢
      simp [hk, e2]

theorem queueAt_unique (reg : List (String × List String)) (c : String)
    (q1 q0 : List String) (b1 a1 b0 a0 : List (String × List String))
    (e1 : reg = b1 ++ (c, q1) :: a1) (n1 : map_contains b1 c = false)
    (e0 : reg = b0 ++ (c, q0) :: a0) (n0 : map_contains b0 c = false) : q1 = q0 := by
  have h1 : map_find reg c = some q1 := by
    rw [e1]
    clear e1 e0
    induction b1 with
    | nil => simp [map_find]
    | cons e rest ih =>
      obtain ⟨k1, v1⟩ := e
      have hk : ¬ k1 = c := by
        intro e
        simp [map_contains, e] at n1
      have hrest : map_contains rest c = false := by
        simp only [map_contains, List.any_cons] at n1 ⊢
        simpa [hk] using n1
      simpa [map_find, hk] using ih hrest
  have h0 : map_find reg c = some q0 := by
    rw [e0]
    clear e1 e0 h1
    induction b0 with
    | nil => simp [map_find]
    | cons e rest ih =>
      obtain ⟨k1, v1⟩ := e
      have hk : ¬ k1 = c := by
        intro e
        simp [map_contains, e] at n0
      have hrest : map_contains rest c = false := by
        simp only [map_contains, List.any_cons] at n0 ⊢
        simpa [hk] using n0
      simpa [map_find, hk] using ih hrest
  rw [h1] at h0
  simpa using h0

theorem queueAt_update (reg : List (String × List String)) (c : String) (q : List String)
    (f : List String → List String) (h : QueueAt reg c q) :
    QueueAt (map_update reg c f) c (f q) := by
  obtain ⟨before, after, e1, e2⟩ := h
  subst e1
  refine ⟨before, after, ?_, e2⟩
  induction before with
  | nil => simp [map_update]
  | cons e rest ih =>
    obtain ⟨k1, q1⟩ := e
    have hk : ¬ k1 = c := by
      intro e
      simp [map_contains, e] at e2
    have hrest : map_contains rest c = false := by
      simp only [map_contains, List.any_cons] at e2 ⊢
      simpa [hk] using e2
    show map_update ((k1, q1) :: (rest ++ (c, q) :: after)) c f
      = (k1, q1) :: (rest ++ (c, f q) :: after)
    simp only [map_update, hk, if_false, ih hrest]

theorem all_entries_queueAt (reg : List (String × List String)) (c : String)
    (q : List String) (h : QueueAt reg c q) :
    ∃ before after, all_entries reg = before ++ q ++ after := by
  obtain ⟨pre, post, e1, _⟩ := h
  subst e1
  exact ⟨all_entries pre, all_entries post, by simp [all_entries, List.flatMap_append]⟩

/-- The key under which `trace` pushes is the thread's context id. -/
theorem trace_key (w : World) (hinv : Inv w) :
    (w.tl.local_trace_fifo).getD w.tl.thread_context_id = w.tl.thread_context_id := by
  cases hf : w.tl.local_trace_fifo with
  | none => rfl
  | some k => exact (hinv.fifo_handle k hf).1

theorem ensured_of_handle (w : World) (k : String) (h : w.tl.local_trace_fifo = some k) :
    ensured w = w := by
  simp [ensured, h]

theorem empty_eq_false (s : String) (h : s ≠ "") : empty s = false := by
  unfold empty
  cases hd : s.data with
  | nil =>
    exfalso
    apply h
    cases s
    simp only at hd
    subst hd
    rfl
  | cons c cs => rfl

/-! ## C9 and C10: the error policy -/

/-- C9, the default policy. For every tracer without a registered callback, every message and
every state: `error(message)` records its entry, sets the policy state to `terminate` and ends
the process with status 1, which is not zero, instead of returning; and `app_assert` with a
false condition does the same, with the entry of its assertion. -/
theorem default_policy_terminates
    (self : trace_t) (location message : String) (w : World)
    (h : self.error_handler = none) :
    (∃ w2, error self message w = Outcome.exited 1 w2
      ∧ w2.tl.error_handler_result = error_handler_result_t.result_terminate
      ∧ w2.cout = w.cout
          ++ [format_entry w.tl.thread_context_id self.where_ message trace_level.error])
    ∧ (∃ w3, app_assert self location false message w = Outcome.exited 1 w3
      ∧ w3.tl.error_handler_result = error_handler_result_t.result_terminate
      ∧ w3.cout = w.cout
          ++ [format_entry w.tl.thread_context_id self.where_
                ("Assert at " ++ location ++ "\n" ++ str_space ++ message)
                trace_level.error])
    ∧ (1 : Nat) ≠ 0 := by
  have ha : adopted self = error_handler_result_t.result_terminate := by simp [adopted, h]
  refine ⟨⟨set_error_handler_result (adopted self)
      (recorded self message trace_level.error w), ?_, ha, ?_⟩,
    ⟨_, app_assert_false_default self location message w h, rfl, ?_⟩, by decide⟩
  · simp only [error, trace_eq, ha, if_true]
  · simp [set_error_handler_result, (recorded_tl _ _ _ w).2.2.2]
  · simp [set_error_handler_result, (recorded_tl _ _ _ w).2.2.2]

/-- C9 at a concrete input: the tracer of `void foo()` on thread `W1`, no callback. -/
theorem default_policy_terminates_witness :
    (∃ w2, error { where_ := "void foo()", error_handler := none } "boom" world_in_foo
        = Outcome.exited 1 w2
      ∧ w2.tl.error_handler_result = error_handler_result_t.result_terminate
      ∧ w2.cout = world_in_foo.cout
          ++ [format_entry world_in_foo.tl.thread_context_id "void foo()" "boom"
                trace_level.error])
    ∧ (∃ w3, app_assert { where_ := "void foo()", error_handler := none } "void foo()" false
          "boom" world_in_foo = Outcome.exited 1 w3
      ∧ w3.tl.error_handler_result = error_handler_result_t.result_terminate
      ∧ w3.cout = world_in_foo.cout
          ++ [format_entry world_in_foo.tl.thread_context_id "void foo()"
                ("Assert at " ++ "void foo()" ++ "\n" ++ str_space ++ "boom")
                trace_level.error])
    ∧ (1 : Nat) ≠ 0 :=
  default_policy_terminates { where_ := "void foo()", error_handler := none } "void foo()"
    "boom" world_in_foo rfl

/-- C10, deferred termination. For every tracer whose callback `f` answers
`terminate-on-next-entry`, every message and every state: `error(message)` returns normally,
with the policy state set to `terminate-on-next-entry` and the call stack as it was; the
destruction of the tracer then pops the call stack as usual and leaves the policy state; and
a scope construction in the state after the `error`, or in the state after the destruction,
ends the process with status 1 in that very state: the call stack, the edge sets, the
registries, the context id and the name cache are unchanged, and no edge is added. -/
theorem deferred_termination
    (self : trace_t) (f : error_handler_t) (message : String) (w : World)
    (hf : self.error_handler = some f)
    (hr : f () = error_handler_result_t.result_terminate_on_next_trace) :
    ∃ w1, error self message w = Outcome.returned () w1
      ∧ w1.tl.error_handler_result = error_handler_result_t.result_terminate_on_next_trace
      ∧ w1.tl.code_coverage_stack = w.tl.code_coverage_stack
      ∧ (∀ function_name context_id,
          construct function_name context_id w1 = Outcome.exited 1 w1)
      ∧ (∀ top rest, w1.tl.code_coverage_stack = top :: rest →
          destruct self w1
            = Outcome.returned () { w1 with tl := { w1.tl with code_coverage_stack := rest } }
          ∧ ∀ function_name context_id,
              construct function_name context_id
                  { w1 with tl := { w1.tl with code_coverage_stack := rest } }
                = Outcome.exited 1
                    { w1 with tl := { w1.tl with code_coverage_stack := rest } }) := by
  have ha : adopted self = error_handler_result_t.result_terminate_on_next_trace := by
    simp [adopted, hf, hr]
  have hne : adopted self ≠ error_handler_result_t.result_terminate := by
    rw [ha]; decide
  refine ⟨set_error_handler_result (adopted self)
      (recorded self message trace_level.error w), ?_, ?_, ?_, ?_, ?_⟩
  · simp only [error, trace_eq, hne, if_true, if_false]
  · simp [set_error_handler_result, ha]
  · simp [set_error_handler_result, (recorded_tl _ _ _ w).1, (ensured_tl w).1]
  · intro function_name context_id
    simp [construct, set_error_handler_result, ha]
  · intro top rest hst
    refine ⟨by simp [destruct, hst], ?_⟩
    intro function_name context_id
    simp [construct, set_error_handler_result, ha]

/-- C10 at a concrete input: the tracer of `void foo()` on thread `W1`, with a callback that
answers `terminate-on-next-entry`. -/
theorem deferred_termination_witness :
    ∃ w1, error { where_ := "void foo()", error_handler := some fun _ =>
          error_handler_result_t.result_terminate_on_next_trace } "boom" world_in_foo
        = Outcome.returned () w1
      ∧ w1.tl.error_handler_result = error_handler_result_t.result_terminate_on_next_trace
      ∧ w1.tl.code_coverage_stack = world_in_foo.tl.code_coverage_stack
      ∧ (∀ function_name context_id,
          construct function_name context_id w1 = Outcome.exited 1 w1)
      ∧ (∀ top rest, w1.tl.code_coverage_stack = top :: rest →
          destruct { where_ := "void foo()", error_handler := some fun _ =>
              error_handler_result_t.result_terminate_on_next_trace } w1
            = Outcome.returned () { w1 with tl := { w1.tl with code_coverage_stack := rest } }
          ∧ ∀ function_name context_id,
              construct function_name context_id
                  { w1 with tl := { w1.tl with code_coverage_stack := rest } }
                = Outcome.exited 1
                    { w1 with tl := { w1.tl with code_coverage_stack := rest } }) :=
  deferred_termination
    { where_ := "void foo()", error_handler := some fun _ =>
        error_handler_result_t.result_terminate_on_next_trace }
    (fun _ => error_handler_result_t.result_terminate_on_next_trace) "boom" world_in_foo
    rfl rfl

/-! ## The context id and the handles of a thread -/

theorem empty_eq_true (s : String) (h : empty s = true) : s = "" := by
  unfold empty at h
  cases s with
  | mk data =>
    cases data with
    | nil => rfl
    | cons c cs => simp at h

theorem empty_of_eq (s : String) (h : s = "") : empty s = true := by
  subst h; rfl

theorem handlesStep_refl (w : World) : HandlesStep w w := ⟨rfl, Or.inl ⟨rfl, rfl⟩⟩

theorem handlesStep_bound (w w2 : World) (h : HandlesStep w w2) (hb : Bound w) : Bound w2 := by
  intro hne
  rw [h.1] at hne ⊢
  rcases h.2 with ⟨h1, h2⟩ | ⟨h1, h2⟩
  · rw [h1, h2]; exact hb hne
  · exact ⟨h1, h2⟩

theorem handlesStep_ensured (w : World) : HandlesStep w (ensured w) := by
  unfold ensured
  by_cases hf : w.tl.local_trace_fifo = none
  · rw [if_pos hf]
    exact ⟨rfl, Or.inr ⟨rfl, rfl⟩⟩
  · rw [if_neg hf]
    exact handlesStep_refl w

theorem handlesStep_of_tl (w w1 w2 : World) (h : HandlesStep w w1)
    (h1 : w2.tl.thread_context_id = w1.tl.thread_context_id)
    (h2 : w2.tl.local_callflow = w1.tl.local_callflow)
    (h3 : w2.tl.local_trace_fifo = w1.tl.local_trace_fifo) : HandlesStep w w2 := by
  refine ⟨h1.trans h.1, ?_⟩
  rw [h2, h3]
  exact h.2

theorem handlesStep_recorded (self : trace_t) (message : String) (level : trace_level)
    (w : World) : HandlesStep w (recorded self message level w) :=
  handlesStep_of_tl w (ensured w) _ (handlesStep_ensured w)
    (by rw [(recorded_tl self message level w).1])
    (by rw [(recorded_tl self message level w).1])
    (by rw [(recorded_tl self message level w).1])

theorem handlesStep_recorded_result (self : trace_t) (message : String) (level : trace_level)
    (r : error_handler_result_t) (w : World) :
    HandlesStep w (set_error_handler_result r (recorded self message level w)) :=
  handlesStep_of_tl w _ _ (handlesStep_recorded self message level w) rfl rfl rfl

theorem handlesStep_trace (self : trace_t) (message : String) (level : trace_level)
    (w w2 : World) (h : (trace self message level w).last_state = some w2) :
    HandlesStep w w2 := by
  rcases trace_cases self message level w with ⟨e, _⟩ | ⟨e, _, _⟩ | ⟨e, _, _⟩
  · rw [e] at h
    simp only [Outcome.last_state, Option.some.injEq] at h
    subst h
    exact handlesStep_recorded self message level w
  · rw [e] at h
    simp only [Outcome.last_state, Option.some.injEq] at h
    subst h
    exact handlesStep_recorded_result self message level _ w
  · rw [e] at h
    simp only [Outcome.last_state, Option.some.injEq] at h
    subst h
    exact handlesStep_recorded_result self message level _ w

theorem handlesStep_app_assert (self : trace_t) (location : String) (condition : Bool)
    (message : String) (w w2 : World)
    (h : (app_assert self location condition message w).last_state = some w2) :
    HandlesStep w w2 := by
  cases condition with
  | true =>
    rw [app_assert_true] at h
    simp only [Outcome.last_state, Option.some.injEq] at h
    subst h
    exact handlesStep_refl w
  | false =>
    exact handlesStep_trace self _ trace_level.error w w2 (by simpa [app_assert, error] using h)

theorem handlesStep_format (self : trace_t) (s : String) (w w2 : World)
    (h : (format_function_name self s w).last_state = some w2) : HandlesStep w w2 := by
  rcases format_cases self s w with ⟨v, _, e⟩ | ⟨m, _, _, e⟩ | ⟨_, _, _, e⟩ | ⟨_, _, _, e⟩
  · rw [e] at h
    simp only [Outcome.last_state, Option.some.injEq] at h
    subst h
    exact handlesStep_refl w
  · rw [e] at h
    simp only [Outcome.last_state, Option.some.injEq] at h
    subst h
    exact ⟨rfl, Or.inl ⟨rfl, rfl⟩⟩
  · rw [e] at h
    simp only [Outcome.last_state, Option.some.injEq] at h
    subst h
    exact handlesStep_recorded_result self _ _ _ w
  · rw [e] at h
    simp only [Outcome.last_state, Option.some.injEq] at h
    subst h
    exact handlesStep_recorded_result self _ _ _ w

theorem last_state_of_goes_on {α : Type} (o : Outcome α) (w : World)
    (h : o.goes_on = some w) : o.last_state = some w := by
  cases o <;> simp_all [Outcome.goes_on, Outcome.last_state]

/-- The context id and the handles after a construction that returns: on a thread that was
bound nothing of them has changed; on a thread that was not, the context id is the supplied
one, which is not empty, and both handles designate its entries. -/
theorem construct_handles (function_name context_id : String) (w w2 : World) (t : trace_t)
    (h : construct function_name context_id w = Outcome.returned t w2) :
    (w.tl.thread_context_id ≠ "" ∧ context_id = "" ∧ HandlesStep w w2
      ∧ w2.tl.local_callflow = w.tl.local_callflow
      ∧ w2.tl.local_trace_fifo = w.tl.local_trace_fifo)
    ∨ (w.tl.thread_context_id = "" ∧ context_id ≠ ""
      ∧ w2.tl.thread_context_id = context_id
      ∧ w2.tl.local_callflow = some context_id
      ∧ w2.tl.local_trace_fifo = some context_id) := by
  rcases construct_cases function_name context_id w with ⟨n, w3, e⟩
    | ⟨name, k, w5, _, hc, hf, _, e⟩
  · rw [e] at h; simp at h
  rw [e] at h
  simp only [Outcome.returned.injEq] at h
  obtain ⟨_, hw2⟩ := h
  subst hw2
  have h5 : w5.tl.thread_context_id = (context_bound context_id w).tl.thread_context_id
      ∧ w5.tl.local_callflow = (context_bound context_id w).tl.local_callflow
      ∧ w5.tl.local_trace_fifo = (context_bound context_id w).tl.local_trace_fifo := by
    rcases format_returned _ _ _ _ _ hf with ⟨e5, _⟩ | ⟨e5, _, _⟩
    · subst e5; exact ⟨rfl, rfl, rfl⟩
    · subst e5; exact ⟨rfl, rfl, rfl⟩
  by_cases he : empty w.tl.thread_context_id = true
  · have hci : empty context_id = false := by
      cases hx : empty context_id with
      | false => rfl
      | true => simp [hx, he] at hc
    have hne : context_id ≠ "" := by
      intro e0
      rw [empty_of_eq _ e0] at hci
      exact absurd hci (by simp)
    have hb : context_bound context_id w
        = init context_id { w with tl := { w.tl with thread_context_id := context_id } } := by
      simp [context_bound, he]
    rw [hb] at h5
    exact Or.inr ⟨empty_eq_true _ he, hne, h5.1, h5.2.1, h5.2.2⟩
  · have he2 : empty w.tl.thread_context_id = false := by simpa using he
    have hci : empty context_id = true := by
      cases hx : empty context_id with
      | true => rfl
      | false => simp [hx, he2] at hc
    have hne : w.tl.thread_context_id ≠ "" := by
      intro e0
      rw [empty_of_eq _ e0] at he2
      exact absurd he2 (by simp)
    have hb : context_bound context_id w = w := by simp [context_bound, he2]
    rw [hb] at h5
    exact Or.inl ⟨hne, empty_eq_true _ hci, ⟨h5.1, Or.inl ⟨h5.2.1, h5.2.2⟩⟩, h5.2.1, h5.2.2⟩

/-- Every call keeps `Bound` of the thread that makes it. -/
theorem bound_run (c : Call) (w w2 : World) (hb : Bound w)
    (h : (c.run w).goes_on = some w2) : Bound w2 := by
  cases c with
  | construct function_name context_id =>
    have h2 : (construct function_name context_id w).goes_on = some w2 := by
      simpa [Call.run, goes_on_discard] using h
    rcases construct_cases function_name context_id w with ⟨n, w3, e⟩
      | ⟨name, k, w5, _, _, _, _, e⟩
    · rw [e] at h2; simp [Outcome.goes_on] at h2
    · have h3 := h2
      rw [e] at h3
      simp only [Outcome.goes_on, Option.some.injEq] at h3
      rw [h3] at e
      rcases construct_handles _ _ _ _ _ e with ⟨_, _, hs, _, _⟩ | ⟨_, _, h1, h4, h5⟩
      · exact handlesStep_bound w w2 hs hb
      · intro _
        rw [h1]
        exact ⟨h4, h5⟩
  | destruct self =>
    simp only [Call.run, destruct] at h
    cases hs : w.tl.code_coverage_stack with
    | nil => simp [hs, Outcome.goes_on] at h
    | cons top rest =>
      simp only [hs, Outcome.goes_on, Option.some.injEq] at h
      subst h
      exact hb
  | trace self message level =>
    exact handlesStep_bound w w2 (handlesStep_trace self message level w w2
      (last_state_of_goes_on _ _ h)) hb
  | app_assert self location condition message =>
    exact handlesStep_bound w w2 (handlesStep_app_assert self location condition message w w2
      (last_state_of_goes_on _ _ h)) hb
  | format_function_name self s =>
    have h2 : (format_function_name self s w).goes_on = some w2 := by
      simpa [Call.run, goes_on_discard] using h
    exact handlesStep_bound w w2 (handlesStep_format self s w w2
      (last_state_of_goes_on _ _ h2)) hb
  | flush yuml_filename trace_filename =>
    simp only [Call.run, flush, Outcome.discard, Outcome.bind, Outcome.goes_on,
      Option.some.injEq] at h
    subst h
    exact hb
  | set_error_handler_result r =>
    simp only [Call.run, Outcome.goes_on, Option.some.injEq] at h
    subst h
    exact hb

theorem bound_later {p q : Process} (h : Later p q) (i : Nat) (hb : Bound (p.view i)) :
    Bound (q.view i) := by
  induction h with
  | refl => exact hb
  | @step q0 r j c _ hs ih =>
    unfold Process.step at hs
    cases hg : (c.run (q0.view j)).goes_on with
    | none => simp [hg] at hs
    | some w2 =>
      simp only [hg, Option.map_some', Option.some.injEq] at hs
      subst hs
      by_cases hij : i = j
      · subst hij
        rw [view_put_self]
        exact bound_run c _ w2 ih hg
      · have htl : ((q0.put j w2).view i).tl = (q0.view i).tl := by
          simp [Process.put, Process.view, hij]
        intro hne
        rw [htl] at hne ⊢
        exact ih hne

/-- In every reachable process, a thread whose context id is set holds both handles. -/
theorem reachable_bound {p : Process} (h : Reachable p) (i : Nat) : Bound (p.view i) :=
  bound_later h i (fun hne => absurd rfl hne)

/-! ## C16: the context id of a bound thread never changes -/

/-- On a thread that is bound, every call after which the program goes on has kept the
context id, and has kept the handles or set both to the context id. -/
theorem handlesStep_run (c : Call) (w w2 : World) (hne : w.tl.thread_context_id ≠ "")
    (h : (c.run w).goes_on = some w2) : HandlesStep w w2 := by
  cases c with
  | construct function_name context_id =>
    have h2 : (construct function_name context_id w).goes_on = some w2 := by
      simpa [Call.run, goes_on_discard] using h
    rcases construct_cases function_name context_id w with ⟨n, w3, e⟩
      | ⟨name, k, w5, _, _, _, _, e⟩
    · rw [e] at h2; simp [Outcome.goes_on] at h2
    · have h3 := h2
      rw [e] at h3
      simp only [Outcome.goes_on, Option.some.injEq] at h3
      rw [h3] at e
      rcases construct_handles _ _ _ _ _ e with ⟨_, _, hs, _, _⟩ | ⟨h0, _, _, _, _⟩
      · exact hs
      · exact absurd h0 hne
  | destruct self =>
    simp only [Call.run, destruct] at h
    cases hs : w.tl.code_coverage_stack with
    | nil => simp [hs, Outcome.goes_on] at h
    | cons top rest =>
      simp only [hs, Outcome.goes_on, Option.some.injEq] at h
      subst h
      exact ⟨rfl, Or.inl ⟨rfl, rfl⟩⟩
  | trace self message level =>
    exact handlesStep_trace self message level w w2 (last_state_of_goes_on _ _ h)
  | app_assert self location condition message =>
    exact handlesStep_app_assert self location condition message w w2
      (last_state_of_goes_on _ _ h)
  | format_function_name self s =>
    have h2 : (format_function_name self s w).goes_on = some w2 := by
      simpa [Call.run, goes_on_discard] using h
    exact handlesStep_format self s w w2 (last_state_of_goes_on _ _ h2)
  | flush yuml_filename trace_filename =>
    simp only [Call.run, flush, Outcome.discard, Outcome.bind, Outcome.goes_on,
      Option.some.injEq] at h
    subst h
    exact ⟨rfl, Or.inl ⟨rfl, rfl⟩⟩
  | set_error_handler_result r =>
    simp only [Call.run, Outcome.goes_on, Option.some.injEq] at h
    subst h
    exact ⟨rfl, Or.inl ⟨rfl, rfl⟩⟩

theorem context_id_later {p q : Process} (h : Later p q) (i : Nat)
    (hne : (p.view i).tl.thread_context_id ≠ "") :
    (q.view i).tl.thread_context_id = (p.view i).tl.thread_context_id := by
  induction h with
  | refl => rfl
  | @step q0 r j c _ hs ih =>
    unfold Process.step at hs
    cases hg : (c.run (q0.view j)).goes_on with
    | none => simp [hg] at hs
    | some w2 =>
      simp only [hg, Option.map_some', Option.some.injEq] at hs
      subst hs
      by_cases hij : i = j
      · subst hij
        rw [view_put_self, (handlesStep_run c _ w2 (by rw [ih]; exact hne) hg).1]
        exact ih
      · have htl : ((q0.put j w2).view i).tl = (q0.view i).tl := by
          simp [Process.put, Process.view, hij]
        rw [htl]
        exact ih

/-- C16, the context id is immutable. For every state `w` in which the context id of the
thread is a non-empty string `c`, and for every call made on that thread (a scope
construction with any signature and any context id argument, a scope destruction, `info`,
`warn` and `error` as `trace` at their level, `app_assert`, `format_function_name`, `flush`,
`set_error_handler_result`): every state in which the program goes on after the call, by a
normal return or by an exception, still has the context id `c`. `set_error_handler` changes
its object and touches no state. So along every sequence of steps of any threads, the
context id of that thread stays `c`. -/
theorem context_id_immutable (c : String) (hc : c ≠ "") :
    (∀ (w w2 : World) (call : Call), w.tl.thread_context_id = c →
      (call.run w).goes_on = some w2 → w2.tl.thread_context_id = c)
    ∧ (∀ (self : trace_t) (error_function : Option error_handler_t),
        (set_error_handler self error_function).where_ = self.where_)
    ∧ (∀ (p q : Process) (i : Nat), (p.view i).tl.thread_context_id = c → Later p q →
        (q.view i).tl.thread_context_id = c) := by
  refine ⟨?_, fun _ _ => rfl, ?_⟩
  · intro w w2 call hw h
    rw [(handlesStep_run call w w2 (by rw [hw]; exact hc) h).1]
    exact hw
  · intro p q i hp hl
    rw [context_id_later hl i (by rw [hp]; exact hc)]
    exact hp

/-- C16 at a concrete input: thread `W1`, inside `void foo()`, opens `int bar(int)`; the
program goes on in `world_in_bar`, where the context id is still `W1`. -/
theorem context_id_immutable_witness :
    world_in_foo.tl.thread_context_id = "W1"
    ∧ (Call.run (Call.construct "int bar(int)" "") world_in_foo).goes_on = some world_in_bar
    ∧ world_in_bar.tl.thread_context_id = "W1" :=
  ⟨rfl, rfl, (context_id_immutable "W1" (by decide)).1 world_in_foo world_in_bar
    (Call.construct "int bar(int)" "") rfl rfl⟩

/-! ## The outcome of the constructor, case by case -/

theorem construct_tail_eq (function_name : String) (w4 : World) (o : Outcome trace_t)
    (ho : ((format_function_name { where_ := function_name, error_handler := none }
          function_name w4).bind fun current_function_name w5 =>
        (app_assert { where_ := function_name, error_handler := none } function_name
          (({ w5 with tl := { w5.tl with
              code_coverage_stack := current_function_name :: w5.tl.code_coverage_stack } }
            : World).tl.local_callflow != none)
          "local_callflow cannot be nullptr"
          { w5 with tl := { w5.tl with
              code_coverage_stack := current_function_name :: w5.tl.code_coverage_stack } }
          ).bind fun _ w7 =>
        match w7.tl.local_callflow with
        | some k =>
          Outcome.returned { where_ := function_name, error_handler := none }
            { w7 with
              thread_callflow :=
                map_update w7.thread_callflow k
                  (fun s => set_insert s
                    (render_edge (prev_frame w5.tl.code_coverage_stack)
                      current_function_name)) }
        | none => Outcome.undefined) = o) :
    o = construct_from_bound function_name w4 := by
  unfold construct_from_bound
  cases hfo : format_function_name { where_ := function_name, error_handler := none }
      function_name w4 with
  | returned name w5 =>
    rw [hfo, returned_bind] at ho
    cases hk : w5.tl.local_callflow with
    | none =>
      have e : (({ w5 with tl := { w5.tl with
              code_coverage_stack := name :: w5.tl.code_coverage_stack } }
            : World).tl.local_callflow != none) = false := by
        show (w5.tl.local_callflow != none) = false
        rw [hk]; rfl
      rw [e, app_assert_false_default _ _ _ _ rfl, exited_bind] at ho
      rw [← ho]
      simp only [hk, pushed]
    | some k =>
      have e : (({ w5 with tl := { w5.tl with
              code_coverage_stack := name :: w5.tl.code_coverage_stack } }
            : World).tl.local_callflow != none) = true := by
        show (w5.tl.local_callflow != none) = true
        rw [hk]; rfl
      rw [e, app_assert_true, returned_bind] at ho
      rw [← ho]
      simp [entered, hk]
  | exited n w =>
    rw [hfo, exited_bind] at ho
    exact ho.symm
  | threw e w =>
    rw [hfo] at ho
    exact ho.symm
  | undefined =>
    rw [hfo] at ho
    exact ho.symm

/-- The outcome of the constructor: the pending exit, the failure of the context-id
assertion, or the rest of the constructor in the state with the context bound. -/
theorem construct_eq (function_name context_id : String) (w : World) :
    construct function_name context_id w =
      if w.tl.error_handler_result = error_handler_result_t.result_terminate_on_next_trace
      then Outcome.exited 1 w
      else if ((empty context_id && !empty w.tl.thread_context_id)
            || (!empty context_id && empty w.tl.thread_context_id)) = true
      then construct_from_bound function_name (context_bound context_id w)
      else Outcome.exited 1 (set_error_handler_result error_handler_result_t.result_terminate
        (recorded { where_ := function_name, error_handler := none }
          ("Assert at " ++ function_name ++ "\n" ++ str_space
            ++ context_id_message context_id w.tl.thread_context_id)
          trace_level.error w)) := by
  by_cases hr : w.tl.error_handler_result
      = error_handler_result_t.result_terminate_on_next_trace
  · simp [construct, hr]
  rw [if_neg hr]
  generalize ho : construct function_name context_id w = o
  simp only [construct, if_neg hr] at ho
  by_cases hc : ((empty context_id && !empty w.tl.thread_context_id)
            || (!empty context_id && empty w.tl.thread_context_id)) = true
  swap
  · have hc2 : ((empty context_id && !empty w.tl.thread_context_id)
            || (!empty context_id && empty w.tl.thread_context_id)) = false := by
      simpa using hc
    rw [if_neg hc]
    rw [hc2, app_assert_false_default _ _ _ _ rfl, exited_bind] at ho
    exact ho.symm
  rw [if_pos hc]
  rw [hc, app_assert_true, returned_bind] at ho
  by_cases he : empty w.tl.thread_context_id = true
  · have hci2 : empty context_id = false := by
      cases hx : empty context_id with
      | false => rfl
      | true => simp [hx, he] at hc
    have hb : context_bound context_id w
        = init context_id { w with tl := { w.tl with thread_context_id := context_id } } := by
      simp [context_bound, he]
    rw [if_pos he, hci2] at ho
    simp only [Bool.not_false] at ho
    rw [app_assert_true, returned_bind, returned_bind] at ho
    rw [hb]
    exact construct_tail_eq function_name _ o ho
  · have hb : context_bound context_id w = w := by simp [context_bound, he]
    rw [if_neg he, returned_bind] at ho
    rw [hb]
    exact construct_tail_eq function_name _ o ho

/-! ## C20: the handles at the edge insertion -/

/-- In a state of a reachable process, once the context-id assertion of the constructor has
passed, the thread is bound and holds both handles on the entries of its context id. -/
theorem context_bound_ready (context_id : String) (w : World) (hinv : Inv w) (hb : Bound w)
    (hc : ((empty context_id && !empty w.tl.thread_context_id)
            || (!empty context_id && empty w.tl.thread_context_id)) = true) :
    (context_bound context_id w).tl.thread_context_id ≠ ""
    ∧ (context_bound context_id w).tl.local_callflow
        = some (context_bound context_id w).tl.thread_context_id
    ∧ (context_bound context_id w).tl.local_trace_fifo
        = some (context_bound context_id w).tl.thread_context_id
    ∧ map_contains (context_bound context_id w).thread_callflow
        (context_bound context_id w).tl.thread_context_id = true
    ∧ map_contains (context_bound context_id w).thread_trace_fifo
        (context_bound context_id w).tl.thread_context_id = true := by
  by_cases he : empty w.tl.thread_context_id = true
  · have hci : empty context_id = false := by
      cases hx : empty context_id with
      | false => rfl
      | true => simp [hx, he] at hc
    have hne : context_id ≠ "" := by
      intro e0
      rw [empty_of_eq _ e0] at hci
      exact absurd hci (by simp)
    have hbd : context_bound context_id w
        = init context_id { w with tl := { w.tl with thread_context_id := context_id } } := by
      simp [context_bound, he]
    rw [hbd]
    exact ⟨hne, rfl, rfl, map_contains_emplace_self _ _ _, map_contains_emplace_self _ _ _⟩
  · have he2 : empty w.tl.thread_context_id = false := by simpa using he
    have hne : w.tl.thread_context_id ≠ "" := by
      intro e0
      rw [empty_of_eq _ e0] at he2
      exact absurd he2 (by simp)
    have hbd : context_bound context_id w = w := by simp [context_bound, he2]
    rw [hbd]
    obtain ⟨h1, h2⟩ := hb hne
    exact ⟨hne, h1, h2, (hinv.callflow_handle _ h1).2, (hinv.fifo_handle _ h2).2⟩

/-- The same, in the state in which `format_function_name` has returned to the constructor. -/
theorem format_ready (function_name context_id name : String) (w w5 : World)
    (hinv : Inv w) (hb : Bound w)
    (hc : ((empty context_id && !empty w.tl.thread_context_id)
            || (!empty context_id && empty w.tl.thread_context_id)) = true)
    (hf : format_function_name { where_ := function_name, error_handler := none }
        function_name (context_bound context_id w) = Outcome.returned name w5) :
    w5.tl.thread_context_id ≠ ""
    ∧ w5.tl.local_callflow = some w5.tl.thread_context_id
    ∧ w5.tl.local_trace_fifo = some w5.tl.thread_context_id
    ∧ map_contains w5.thread_callflow w5.tl.thread_context_id = true
    ∧ map_contains w5.thread_trace_fifo w5.tl.thread_context_id = true := by
  have h4 := context_bound_ready context_id w hinv hb hc
  rcases format_returned _ _ _ _ _ hf with ⟨e5, _⟩ | ⟨e5, _, _⟩
  · subst e5; exact h4
  · subst e5; exact h4

/-- C20, the handle invariant. In every reachable process and on every thread, whenever a
scope construction reaches its edge insertion (the pending check and the context-id assertion
have passed and `format_function_name` has returned `name` in the state `w5`): the context id
of the thread is not empty; the edge-set handle and the trace-queue handle are set and
designate the registry entries stored under that context id, which exist; so the assertion
`local_callflow cannot be nullptr` passes, the construction returns, and the edge is inserted
into the set stored under the thread's own context id. Every construction that returns has
gone this way, and leaves the thread bound with both handles on the entries of its context
id. -/
theorem handle_invariant
    (p : Process) (i : Nat) (function_name context_id : String) (hp : Reachable p) :
    (∀ (name : String) (w5 : World),
      (p.view i).tl.error_handler_result
        ≠ error_handler_result_t.result_terminate_on_next_trace →
      ((empty context_id && !empty (p.view i).tl.thread_context_id)
        || (!empty context_id && empty (p.view i).tl.thread_context_id)) = true →
      format_function_name { where_ := function_name, error_handler := none } function_name
        (context_bound context_id (p.view i)) = Outcome.returned name w5 →
      w5.tl.thread_context_id ≠ ""
      ∧ w5.tl.local_callflow = some w5.tl.thread_context_id
      ∧ w5.tl.local_trace_fifo = some w5.tl.thread_context_id
      ∧ map_contains w5.thread_callflow w5.tl.thread_context_id = true
      ∧ map_contains w5.thread_trace_fifo w5.tl.thread_context_id = true
      ∧ app_assert { where_ := function_name, error_handler := none } function_name
          ((pushed name w5).tl.local_callflow != none) "local_callflow cannot be nullptr"
          (pushed name w5) = Outcome.returned () (pushed name w5)
      ∧ construct function_name context_id (p.view i)
          = Outcome.returned { where_ := function_name, error_handler := none }
              (entered name w5.tl.thread_context_id w5)
      ∧ ∃ edges, map_find w5.thread_callflow w5.tl.thread_context_id = some edges
          ∧ map_find (entered name w5.tl.thread_context_id w5).thread_callflow
              w5.tl.thread_context_id
            = some (set_insert edges
                (render_edge (prev_frame w5.tl.code_coverage_stack) name)))
    ∧ (∀ (t : trace_t) (w2 : World),
      construct function_name context_id (p.view i) = Outcome.returned t w2 →
      w2.tl.thread_context_id ≠ ""
      ∧ w2.tl.local_callflow = some w2.tl.thread_context_id
      ∧ w2.tl.local_trace_fifo = some w2.tl.thread_context_id
      ∧ map_contains w2.thread_callflow w2.tl.thread_context_id = true
      ∧ map_contains w2.thread_trace_fifo w2.tl.thread_context_id = true) := by
  have hinv := reachable_inv hp i
  have hb := reachable_bound hp i
  constructor
  · intro name w5 hr hc hf
    obtain ⟨h1, h2, h3, h4, h5⟩ := format_ready function_name context_id name _ w5 hinv hb hc hf
    obtain ⟨edges, hedges⟩ := map_find_some_of_contains _ _ h4
    refine ⟨h1, h2, h3, h4, h5, ?_, ?_, edges, hedges, ?_⟩
    · have e : ((pushed name w5).tl.local_callflow != none) = true := by
        show (w5.tl.local_callflow != none) = true
        rw [h2]; rfl
      rw [e, app_assert_true]
    · rw [construct_eq, if_neg hr, if_pos hc]
      unfold construct_from_bound
      rw [hf]
      simp only [h2]
    · simp only [entered]
      rw [map_find_update, hedges]
      rfl
  · intro t w2 h
    rcases construct_cases function_name context_id (p.view i) with ⟨n, w3, e⟩
      | ⟨name, k, w5, _, hc, hf, hk, e⟩
    · rw [e] at h; simp at h
    rw [e] at h
    simp only [Outcome.returned.injEq] at h
    obtain ⟨_, hw2⟩ := h
    subst hw2
    obtain ⟨h1, h2, h3, h4, h5⟩ := format_ready function_name context_id name _ w5 hinv hb hc hf
    refine ⟨h1, h2, h3, ?_, h5⟩
    simp only [entered]
    rw [map_contains_update]
    exact h4

/-- C20 at a concrete input: thread `W1`, inside `void foo()`, opens `int bar(int)` and ends in
`world_in_bar`, bound to `W1` with both handles on the entries of `W1`. -/
theorem handle_invariant_witness :
    construct "int bar(int)" "" (process_in_foo.view 0)
      = Outcome.returned { where_ := "int bar(int)", error_handler := none } world_in_bar
    ∧ world_in_bar.tl.thread_context_id ≠ ""
    ∧ world_in_bar.tl.local_callflow = some world_in_bar.tl.thread_context_id
    ∧ world_in_bar.tl.local_trace_fifo = some world_in_bar.tl.thread_context_id
    ∧ map_contains world_in_bar.thread_callflow world_in_bar.tl.thread_context_id = true
    ∧ map_contains world_in_bar.thread_trace_fifo world_in_bar.tl.thread_context_id = true :=
  ⟨rfl, (handle_invariant process_in_foo 0 "int bar(int)" "" reachable_process_in_foo).2
    { where_ := "int bar(int)", error_handler := none } world_in_bar rfl⟩

/-! ## C11: the context-id assertion -/

theorem level_tag_length (level : trace_level) : (level_tag level).length = 7 := by
  cases level <;> rfl

theorem format_entry_length (c f m : String) (level : trace_level) :
    (format_entry c f m level).length = c.length + f.length + m.length + 20 := by
  have h1 : "[".length = 1 := rfl
  have h2 : "]".length = 1 := rfl
  have h3 : ":\n".length = 2 := rfl
  have h4 : str_space.length = 7 := rfl
  have h5 : "\n\n".length = 2 := rfl
  simp only [format_entry, String.length_append, level_tag_length, h1, h2, h3, h4, h5]
  omega

theorem context_id_entry_length (function_name context_id : String) (w : World) :
    (context_id_entry function_name context_id w).length
      = 2 * w.tl.thread_context_id.length + 2 * function_name.length + context_id.length
        + 142 := by
  have h1 : "Assert at ".length = 10 := rfl
  have h2 : "\n".length = 1 := rfl
  have h3 : str_space.length = 7 := rfl
  have h4 : "context_id and thread_context_id cannot both have values or be empty:".length
      = 69 := rfl
  have h5 : " context_id=\x27".length = 13 := rfl
  have h6 : "\x27 thread_context_id=\x27".length = 21 := rfl
  have h7 : "\x27".length = 1 := rfl
  simp only [context_id_entry, format_entry_length, context_id_message, String.length_append,
    h1, h2, h3, h4, h5, h6, h7]
  omega

theorem context_bound_cout (context_id : String) (w : World) :
    (context_bound context_id w).cout = w.cout
    ∧ ((context_bound context_id w).tl.thread_context_id = context_id
      ∨ (context_bound context_id w).tl.thread_context_id = w.tl.thread_context_id) := by
  unfold context_bound
  by_cases he : empty w.tl.thread_context_id = true
  · rw [if_pos he]
    exact ⟨rfl, Or.inl rfl⟩
  · rw [if_neg he]
    exact ⟨rfl, Or.inr rfl⟩

/-- What a construction prints once its context-id assertion has passed: nothing, or one
entry that is shorter than the entry of the context-id assertion. -/
theorem construct_passed_prints (function_name context_id : String) (w w2 : World)
    (hr : w.tl.error_handler_result ≠ error_handler_result_t.result_terminate_on_next_trace)
    (hc : ((empty context_id && !empty w.tl.thread_context_id)
            || (!empty context_id && empty w.tl.thread_context_id)) = true)
    (h : (construct function_name context_id w).last_state = some w2) :
    w2.cout = w.cout
    ∨ ∃ e, w2.cout = w.cout ++ [e]
        ∧ e.length < (context_id_entry function_name context_id w).length := by
  rw [construct_eq, if_neg hr, if_pos hc] at h
  obtain ⟨hcout, hctx⟩ := context_bound_cout context_id w
  have hlen : (context_bound context_id w).tl.thread_context_id.length
      ≤ w.tl.thread_context_id.length + context_id.length := by
    rcases hctx with e | e <;> rw [e] <;> omega
  have h17 : "Unable to handle ".length = 17 := rfl
  have h10 : "Assert at ".length = 10 := rfl
  have h1 : "\n".length = 1 := rfl
  have h7 : str_space.length = 7 := rfl
  have h32 : "local_callflow cannot be nullptr".length = 32 := rfl
  -- the construction after a `format_function_name` that has returned
  have hret : ∀ (name : String) (w5 : World),
      w5.cout = w.cout → w5.tl.thread_context_id
        = (context_bound context_id w).tl.thread_context_id →
      ((match w5.tl.local_callflow with
        | some k =>
          Outcome.returned { where_ := function_name, error_handler := none }
            (entered name k w5)
        | none =>
          Outcome.exited 1 (set_error_handler_result error_handler_result_t.result_terminate
            (recorded { where_ := function_name, error_handler := none }
              ("Assert at " ++ function_name ++ "\n" ++ str_space
                ++ "local_callflow cannot be nullptr")
              trace_level.error (pushed name w5))) : Outcome trace_t)).last_state = some w2 →
      (w2.cout = w.cout
        ∨ ∃ e, w2.cout = w.cout ++ [e]
            ∧ e.length < (context_id_entry function_name context_id w).length) := by
    intro name w5 h5c h5t hl
    cases hk : w5.tl.local_callflow with
    | some k =>
      simp only [hk, Outcome.last_state, Option.some.injEq] at hl
      subst hl
      exact Or.inl h5c
    | none =>
      simp only [hk, Outcome.last_state, Option.some.injEq] at hl
      subst hl
      refine Or.inr ⟨format_entry w5.tl.thread_context_id function_name
        ("Assert at " ++ function_name ++ "\n" ++ str_space
          ++ "local_callflow cannot be nullptr") trace_level.error, ?_, ?_⟩
      · simp only [set_error_handler_result]
        rw [(recorded_tl _ _ _ (pushed name w5)).2.2.2]
        show w5.cout ++ _ = _
        rw [h5c]
        rfl
      · rw [format_entry_length, context_id_entry_length, h5t]
        simp only [String.length_append, h10, h1, h7, h32]
        omega
  unfold construct_from_bound at h
  rcases format_cases { where_ := function_name, error_handler := none } function_name
      (context_bound context_id w) with ⟨v, _, e⟩ | ⟨m, _, _, e⟩ | ⟨_, _, _, e⟩
      | ⟨_, _, hne, _⟩
  · rw [e] at h
    exact hret v _ hcout rfl h
  · rw [e] at h
    exact hret m (cached function_name m (context_bound context_id w)) hcout rfl h
  · rw [e] at h
    simp only [Outcome.last_state, Option.some.injEq] at h
    subst h
    refine Or.inr ⟨format_entry (context_bound context_id w).tl.thread_context_id
      function_name ("Unable to handle " ++ function_name) trace_level.error, ?_, ?_⟩
    · simp only [set_error_handler_result]
      rw [(recorded_tl _ _ _ (context_bound context_id w)).2.2.2, hcout]
    · rw [format_entry_length, context_id_entry_length]
      simp only [String.length_append, h17]
      omega
  · exact absurd rfl hne

theorem check_condition (a b : Bool) : ((a && !b) || (!a && b)) = true ↔ a ≠ b := by
  cases a <;> cases b <;> simp

theorem not_raises_of_prints (function_name context_id : String) (w : World)
    (h : ∀ w2, (construct function_name context_id w).last_state = some w2 →
      (w2.cout = w.cout
        ∨ ∃ e, w2.cout = w.cout ++ [e]
            ∧ e.length < (context_id_entry function_name context_id w).length)) :
    ¬ RaisesContextIdEvent function_name context_id w := by
  rintro ⟨w2, printed, hl, hcout, hmem⟩
  rcases h w2 hl with h0 | ⟨e, h1, h2⟩
  · rw [h0] at hcout
    have : printed = [] := by
      have := List.append_cancel_left (hcout.symm.trans (List.append_nil _).symm)
      exact this
    rw [this] at hmem
    simp at hmem
  · rw [h1] at hcout
    have : printed = [e] := (List.append_cancel_left hcout).symm
    rw [this, List.mem_singleton] at hmem
    rw [hmem] at h2
    exact absurd h2 (Nat.lt_irrefl _)

/-- C11, refuted as stated: thread `W1`, with a pending `terminate-on-next-entry` after an
`error("boom")`, constructs a tracer with the context id `W2`. Both ids are non-empty, yet the
construction ends the process at its first test, in the very state it found, and raises no
context-id event. -/
theorem context_id_event_pending_counterexample :
    error { where_ := "void foo()", error_handler := some fun _ =>
          error_handler_result_t.result_terminate_on_next_trace } "boom" world_in_foo
      = Outcome.returned () world_pending
    ∧ (empty "W2" = false ∧ empty world_pending.tl.thread_context_id = false)
    ∧ construct "int bar(int)" "W2" world_pending = Outcome.exited 1 world_pending
    ∧ ¬ RaisesContextIdEvent "int bar(int)" "W2" world_pending := by
  refine ⟨rfl, ⟨rfl, rfl⟩, rfl, ?_⟩
  apply not_raises_of_prints
  intro w2 h
  have h2 : (Outcome.exited 1 world_pending : Outcome trace_t).last_state = some w2 := h
  simp only [Outcome.last_state, Option.some.injEq] at h2
  subst h2
  exact Or.inl rfl

/-- C11, amended. A scope construction that is not stopped by a pending
`terminate-on-next-entry` raises the context-id error-level event if and only if the supplied
context id and the context id of the thread are both empty or both non-empty; and when it
raises it, it ends the process with status 1 in the state in which the entry of the assertion
is recorded. (In the pending state the construction ends the process before the assertion.) -/
theorem context_id_event_iff (function_name context_id : String) (w : World)
    (hr : w.tl.error_handler_result
      ≠ error_handler_result_t.result_terminate_on_next_trace) :
    (RaisesContextIdEvent function_name context_id w
      ↔ empty context_id = empty w.tl.thread_context_id)
    ∧ (empty context_id = empty w.tl.thread_context_id →
        construct function_name context_id w
          = Outcome.exited 1
              (set_error_handler_result error_handler_result_t.result_terminate
                (recorded { where_ := function_name, error_handler := none }
                  ("Assert at " ++ function_name ++ "\n" ++ str_space
                    ++ context_id_message context_id w.tl.thread_context_id)
                  trace_level.error w))) := by
  have hfail : empty context_id = empty w.tl.thread_context_id →
      construct function_name context_id w
          = Outcome.exited 1
              (set_error_handler_result error_handler_result_t.result_terminate
                (recorded { where_ := function_name, error_handler := none }
                  ("Assert at " ++ function_name ++ "\n" ++ str_space
                    ++ context_id_message context_id w.tl.thread_context_id)
                  trace_level.error w)) := by
    intro he
    have hc : ¬ (((empty context_id && !empty w.tl.thread_context_id)
            || (!empty context_id && empty w.tl.thread_context_id)) = true) := by
      rw [check_condition]
      exact fun h => h he
    rw [construct_eq, if_neg hr, if_neg hc]
  refine ⟨⟨?_, ?_⟩, hfail⟩
  · intro hraise
    by_contra hne
    have hc : ((empty context_id && !empty w.tl.thread_context_id)
            || (!empty context_id && empty w.tl.thread_context_id)) = true := by
      rw [check_condition]
      exact hne
    exact not_raises_of_prints function_name context_id w
      (fun w2 h => construct_passed_prints function_name context_id w w2 hr hc h) hraise
  · intro he
    refine ⟨set_error_handler_result error_handler_result_t.result_terminate
        (recorded { where_ := function_name, error_handler := none }
          ("Assert at " ++ function_name ++ "\n" ++ str_space
            ++ context_id_message context_id w.tl.thread_context_id)
          trace_level.error w),
      [context_id_entry function_name context_id w], ?_, ?_, List.mem_singleton.2 rfl⟩
    · rw [hfail he]
      rfl
    · simp only [set_error_handler_result]
      rw [(recorded_tl _ _ _ w).2.2.2]
      rfl

/-- C11, amended, at a concrete input: thread `W1`, inside `void foo()` and with nothing
pending, constructs a tracer with the context id `W2`. -/
theorem context_id_event_iff_witness :
    (RaisesContextIdEvent "int bar(int)" "W2" world_in_foo
      ↔ empty "W2" = empty world_in_foo.tl.thread_context_id)
    ∧ (empty "W2" = empty world_in_foo.tl.thread_context_id →
        construct "int bar(int)" "W2" world_in_foo
          = Outcome.exited 1
              (set_error_handler_result error_handler_result_t.result_terminate
                (recorded { where_ := "int bar(int)", error_handler := none }
                  ("Assert at " ++ "int bar(int)" ++ "\n" ++ str_space
                    ++ context_id_message "W2" world_in_foo.tl.thread_context_id)
                  trace_level.error world_in_foo))) :=
  context_id_event_iff "int bar(int)" "W2" world_in_foo (by decide)

/-! ## C12 and C13: the entry that a log call appends -/

/-- The state after `trace` has pushed its entry holds the queue of the thread's context with
that entry appended at its end. -/
theorem recorded_queue (self : trace_t) (message : String) (level : trace_level) (w : World)
    (hinv : Inv w) :
    ∃ q0, QueueAt (ensured w).thread_trace_fifo w.tl.thread_context_id q0
      ∧ QueueAt (recorded self message level w).thread_trace_fifo w.tl.thread_context_id
          (q0 ++ [format_entry w.tl.thread_context_id self.where_ message level]) := by
  have hfifo := ensured_fifo w
  rw [trace_key w hinv] at hfifo
  have hcont := ((inv_ensured w hinv).fifo_handle _ hfifo).2
  obtain ⟨q0, hq0⟩ := queueAt_of_contains _ _ hcont
  refine ⟨q0, hq0, ?_⟩
  simp only [recorded]
  rw [trace_key w hinv]
  exact queueAt_update _ _ _ _ hq0

/-- Whatever the level and the policy, the state in which `trace` ends holds the queue of the
thread's context with the entry appended at its end. -/
theorem trace_last_state_queue (self : trace_t) (message : String) (level : trace_level)
    (w : World) (hinv : Inv w) :
    ∃ q0 w2, QueueAt (ensured w).thread_trace_fifo w.tl.thread_context_id q0
      ∧ (trace self message level w).last_state = some w2
      ∧ QueueAt w2.thread_trace_fifo w.tl.thread_context_id
          (q0 ++ [format_entry w.tl.thread_context_id self.where_ message level]) := by
  obtain ⟨q0, h0, h1⟩ := recorded_queue self message level w hinv
  rcases trace_cases self message level w with ⟨e, _⟩ | ⟨e, _, _⟩ | ⟨e, _, _⟩
  · exact ⟨q0, recorded self message level w, h0, by rw [e]; rfl, h1⟩
  · exact ⟨q0, set_error_handler_result (adopted self) (recorded self message level w), h0,
      by rw [e]; rfl, h1⟩
  · exact ⟨q0, set_error_handler_result (adopted self) (recorded self message level w), h0,
      by rw [e]; rfl, h1⟩

/-- With a callback that leaves the state as it finds it, `trace` with a callback that acts on
the state is `trace`. -/
theorem stateful_trace_of_pure (self : trace_t) (message : String) (level : trace_level)
    (w : World) :
    stateful.trace (stateful.of_pure self) message level w = trace self message level w := by
  cases hh : self.error_handler with
  | none =>
    by_cases hl : level = trace_level.error
    · simp [stateful.trace, stateful.of_pure, trace, hh, hl, Outcome.bind]
    · simp [stateful.trace, stateful.of_pure, trace, hh, hl, Outcome.bind]
  | some f =>
    by_cases hl : level = trace_level.error
    · simp [stateful.trace, stateful.of_pure, trace, hh, hl, Outcome.bind]
    · simp [stateful.trace, stateful.of_pure, trace, hh, hl, Outcome.bind]

/-- What `trace` with a callback that acts on the state does at the error level: the callback
runs in the state in which the entry is recorded. -/
theorem stateful_trace_error_eq (self : stateful.trace_t) (message : String) (w : World) :
    stateful.trace self message trace_level.error w
      = (match self.error_handler with
          | some f => f (recorded { where_ := self.where_, error_handler := none } message
              trace_level.error w)
          | none => Outcome.returned error_handler_result_t.result_terminate
              (recorded { where_ := self.where_, error_handler := none } message
                trace_level.error w)).bind fun r w3 =>
        if r = error_handler_result_t.result_terminate then
          Outcome.exited 1 (set_error_handler_result r w3)
        else Outcome.returned () (set_error_handler_result r w3) := by
  cases hh : self.error_handler with
  | none =>
    cases hf : w.tl.local_trace_fifo with
    | none =>
      simp [stateful.trace, recorded, ensured, hf, hh, init, set_error_handler_result,
        Outcome.bind]
    | some k =>
      simp [stateful.trace, recorded, ensured, hf, hh, set_error_handler_result, Outcome.bind]
  | some f =>
    cases hf : w.tl.local_trace_fifo with
    | none =>
      simp only [stateful.trace, recorded, ensured, hf, hh, if_true, init,
        set_error_handler_result, Option.getD_none]
    | some k =>
      simp only [stateful.trace, recorded, ensured, hf, hh, if_false, set_error_handler_result,
        Option.getD_some, reduceCtorEq, if_true]

/-- C13, refuted as stated: thread `W1`, inside `void foo()`, raises `error("boom")` on a
tracer whose callback logs `bye` and then answers `terminate`. The process ends by
`std::exit(1)` in a state whose queue of `W1` holds the error entry and then the entry of the
callback, so the queue does not end with the error entry. With a callback that flushes before
it answers `terminate`, the process ends in a state whose queue of `W1` is empty. -/
theorem error_entry_not_last_counterexample :
    Reachable process_in_foo
    ∧ (process_in_foo.view 0).tl.thread_context_id = "W1"
    ∧ stateful.error { where_ := "void foo()", error_handler := some callback_that_logs }
          "boom" (process_in_foo.view 0)
        = Outcome.exited 1 world_callback_logged
    ∧ world_callback_logged.thread_trace_fifo
        = [("W1", [format_entry "W1" "void foo()" "boom" trace_level.error,
                   format_entry "W1" "void cleanup()" "bye" trace_level.info])]
    ∧ [format_entry "W1" "void foo()" "boom" trace_level.error,
        format_entry "W1" "void cleanup()" "bye" trace_level.info].getLast?
        ≠ some (format_entry "W1" "void foo()" "boom" trace_level.error)
    ∧ stateful.error { where_ := "void foo()", error_handler := some callback_that_flushes }
          "boom" (process_in_foo.view 0)
        = Outcome.exited 1 world_callback_flushed
    ∧ world_callback_flushed.thread_trace_fifo = [("W1", [])] :=
  ⟨reachable_process_in_foo, rfl, rfl, rfl, by decide, rfl, rfl⟩

/-- C13, amended. The error entry is recorded before the policy is consulted. In every
reachable process and on every thread, for every tracer, whatever its callback does, and
every message, `error(message)` first reaches a state `w1` in which the formatted error-level
entry is the last element of the queue of the thread's context and the last text printed,
with the policy state still as it was. Without a callback the process ends there, by
`std::exit(1)` with the policy state `terminate` written, so the queue ends with the entry in
the state in which the process terminates. With a callback, the callback runs in `w1`, and
the call goes on from the state that the callback leaves: the answer is written as the policy
state, and the process ends by `std::exit(1)` when the answer is `terminate`. When the
callback answers `terminate` and has left the trace registry as it found it, the queue ends
with the entry in the state in which the process terminates. An `app_assert` whose condition
is false is the `error` of its assertion text. -/
theorem error_entry_before_policy
    (p : Process) (i : Nat) (self : stateful.trace_t) (message : String) (hp : Reachable p) :
    ∃ w1 q0,
      QueueAt (ensured (p.view i)).thread_trace_fifo (p.view i).tl.thread_context_id q0
      ∧ QueueAt w1.thread_trace_fifo (p.view i).tl.thread_context_id
          (q0 ++ [format_entry (p.view i).tl.thread_context_id self.where_ message
                    trace_level.error])
      ∧ w1.cout = (p.view i).cout
          ++ [format_entry (p.view i).tl.thread_context_id self.where_ message
                trace_level.error]
      ∧ w1.tl.error_handler_result = (p.view i).tl.error_handler_result
      ∧ (self.error_handler = none →
          stateful.error self message (p.view i)
              = Outcome.exited 1
                  (set_error_handler_result error_handler_result_t.result_terminate w1)
            ∧ QueueAt
                (set_error_handler_result error_handler_result_t.result_terminate
                  w1).thread_trace_fifo
                (p.view i).tl.thread_context_id
                (q0 ++ [format_entry (p.view i).tl.thread_context_id self.where_ message
                          trace_level.error]))
      ∧ (∀ f, self.error_handler = some f →
          stateful.error self message (p.view i)
            = (f w1).bind fun r w2 =>
                if r = error_handler_result_t.result_terminate then
                  Outcome.exited 1 (set_error_handler_result r w2)
                else Outcome.returned () (set_error_handler_result r w2))
      ∧ (∀ f w2, self.error_handler = some f →
          f w1 = Outcome.returned error_handler_result_t.result_terminate w2 →
          w2.thread_trace_fifo = w1.thread_trace_fifo →
          stateful.error self message (p.view i)
              = Outcome.exited 1
                  (set_error_handler_result error_handler_result_t.result_terminate w2)
            ∧ QueueAt
                (set_error_handler_result error_handler_result_t.result_terminate
                  w2).thread_trace_fifo
                (p.view i).tl.thread_context_id
                (q0 ++ [format_entry (p.view i).tl.thread_context_id self.where_ message
                          trace_level.error]))
      ∧ (∀ location message2,
          stateful.app_assert self location false message2 (p.view i)
            = stateful.error self
                ("Assert at " ++ location ++ "\n" ++ str_space ++ message2) (p.view i)) := by
  have hinv := reachable_inv hp i
  obtain ⟨q0, h0, h1⟩ := recorded_queue { where_ := self.where_, error_handler := none }
    message trace_level.error (p.view i) hinv
  refine ⟨recorded { where_ := self.where_, error_handler := none } message trace_level.error
      (p.view i), q0, h0, h1, (recorded_tl _ _ _ _).2.2.2, ?_, ?_, ?_, ?_, fun _ _ => rfl⟩
  · rw [(recorded_tl _ _ _ _).1, (ensured_tl _).2.2.1]
  · intro hn
    refine ⟨?_, h1⟩
    rw [stateful.error, stateful_trace_error_eq, hn]
    rfl
  · intro f hf
    rw [stateful.error, stateful_trace_error_eq, hf]
  · intro f w2 hf hw2 hreg
    refine ⟨?_, ?_⟩
    · rw [stateful.error, stateful_trace_error_eq, hf]
      simp only [hw2]
      rfl
    · show QueueAt w2.thread_trace_fifo _ _
      rw [hreg]
      exact h1

/-- C13, amended, at a concrete input: thread `W1`, inside `void foo()`, raises
`error("boom")` on a tracer whose callback answers `terminate` and does nothing else. The
process ends by `std::exit(1)` in a state whose queue of `W1` ends with the entry. -/
theorem error_entry_before_policy_witness :
    ∃ w2 q0,
      stateful.error { where_ := "void foo()", error_handler := some callback_that_answers }
          "boom" (process_in_foo.view 0)
        = Outcome.exited 1 w2
      ∧ QueueAt w2.thread_trace_fifo "W1"
          (q0 ++ [format_entry "W1" "void foo()" "boom" trace_level.error]) := by
  obtain ⟨w1, q0, _, _, _, _, _, _, h, _⟩ := error_entry_before_policy process_in_foo 0
    { where_ := "void foo()", error_handler := some callback_that_answers } "boom"
    reachable_process_in_foo
  obtain ⟨h1, h2⟩ := h callback_that_answers w1 rfl rfl rfl
  exact ⟨_, q0, h1, h2⟩

/-- C12, refuted as stated: thread `W1` constructs the tracer of `void foo()`, whose canonical
name `void foo` is pushed on the call stack, and logs `info("start")`. The entry appended to
the queue of `W1` carries the raw signature `void foo()` as its frame name, not the canonical
name. -/
theorem log_entry_frame_name_counterexample :
    construct "void foo()" "W1" World.initial
      = Outcome.returned { where_ := "void foo()", error_handler := none } world_in_foo
    ∧ regex_search "void foo()" = some "void foo"
    ∧ world_in_foo.tl.code_coverage_stack = ["void foo"]
    ∧ info { where_ := "void foo()", error_handler := none } "start" world_in_foo
      = Outcome.returned ()
          { world_in_foo with
            thread_trace_fifo := [("W1", ["[W1]info:  void foo():\n       start\n\n"])]
            cout := ["[W1]info:  void foo():\n       start\n\n"] }
    ∧ "[W1]info:  void foo():\n       start\n\n"
      ≠ "[" ++ "W1" ++ "]" ++ "info:  " ++ "void foo" ++ ":\n" ++ "       " ++ "start" ++ "\n\n" :=
  ⟨rfl, rfl, rfl, rfl, by decide⟩

/-- C12, amended. In every reachable process, for a thread bound to a context id `c`, every
tracer and every message `m`: each of `info(m)`, `warn(m)` and `error(m)` ends in a state in
which the queue of `c` is the queue found there with exactly one entry appended at its end,
`"[c]" ++ tag ++ f ++ ":\n" ++ indent ++ m ++ "\n\n"`, where `f` is the member `where` of the
tracer, `tag` is `"info:  "`, `"warn:  "` or `"error: "` and `indent` is seven spaces. The
three tags are pairwise distinct and as wide as the indent. The member `where` of a
constructed tracer is the raw signature that its constructor was given, not the canonical
name. -/
theorem log_entry_format
    (p : Process) (i : Nat) (self : trace_t) (m : String)
    (hp : Reachable p) (hb : (p.view i).tl.thread_context_id ≠ "") :
    (∃ q0, QueueAt (p.view i).thread_trace_fifo (p.view i).tl.thread_context_id q0
      ∧ (∃ w2, (info self m (p.view i)).last_state = some w2
          ∧ QueueAt w2.thread_trace_fifo (p.view i).tl.thread_context_id
              (q0 ++ ["[" ++ (p.view i).tl.thread_context_id ++ "]" ++ "info:  "
                        ++ self.where_ ++ ":\n" ++ "       " ++ m ++ "\n\n"]))
      ∧ (∃ w2, (warn self m (p.view i)).last_state = some w2
          ∧ QueueAt w2.thread_trace_fifo (p.view i).tl.thread_context_id
              (q0 ++ ["[" ++ (p.view i).tl.thread_context_id ++ "]" ++ "warn:  "
                        ++ self.where_ ++ ":\n" ++ "       " ++ m ++ "\n\n"]))
      ∧ (∃ w2, (error self m (p.view i)).last_state = some w2
          ∧ QueueAt w2.thread_trace_fifo (p.view i).tl.thread_context_id
              (q0 ++ ["[" ++ (p.view i).tl.thread_context_id ++ "]" ++ "error: "
                        ++ self.where_ ++ ":\n" ++ "       " ++ m ++ "\n\n"])))
    ∧ (str_info ≠ str_warn ∧ str_info ≠ str_error ∧ str_warn ≠ str_error)
    ∧ (str_info.length = 7 ∧ str_warn.length = 7 ∧ str_error.length = 7
        ∧ str_space.length = 7)
    ∧ (∀ (function_name context_id : String) (w0 w1 : World) (t : trace_t),
        construct function_name context_id w0 = Outcome.returned t w1 →
        t.where_ = function_name) := by
  have hinv := reachable_inv hp i
  obtain ⟨_, hfifo⟩ := reachable_bound hp i hb
  have hens : ensured (p.view i) = p.view i := ensured_of_handle _ _ hfifo
  have hlevel : ∀ level, ∃ q0 w2,
      QueueAt (p.view i).thread_trace_fifo (p.view i).tl.thread_context_id q0
      ∧ (trace self m level (p.view i)).last_state = some w2
      ∧ QueueAt w2.thread_trace_fifo (p.view i).tl.thread_context_id
          (q0 ++ [format_entry (p.view i).tl.thread_context_id self.where_ m level]) := by
    intro level
    have := trace_last_state_queue self m level (p.view i) hinv
    rw [hens] at this
    exact this
  obtain ⟨q1, w1, hq1, hl1, hr1⟩ := hlevel trace_level.info
  obtain ⟨q2, w2, hq2, hl2, hr2⟩ := hlevel trace_level.warn
  obtain ⟨q3, w3, hq3, hl3, hr3⟩ := hlevel trace_level.error
  have e2 : q2 = q1 := by
    obtain ⟨b1, a1, e1, n1⟩ := hq2
    obtain ⟨b0, a0, e0, n0⟩ := hq1
    exact queueAt_unique _ _ _ _ _ _ _ _ e1 n1 e0 n0
  have e3 : q3 = q1 := by
    obtain ⟨b1, a1, e1, n1⟩ := hq3
    obtain ⟨b0, a0, e0, n0⟩ := hq1
    exact queueAt_unique _ _ _ _ _ _ _ _ e1 n1 e0 n0
  rw [e2] at hr2
  rw [e3] at hr3
  refine ⟨⟨q1, hq1, ⟨w1, hl1, hr1⟩, ⟨w2, hl2, hr2⟩, ⟨w3, hl3, hr3⟩⟩,
    ⟨by decide, by decide, by decide⟩, ⟨rfl, rfl, rfl, rfl⟩, ?_⟩
  intro function_name context_id w0 w1 t h
  rcases construct_cases function_name context_id w0 with ⟨n, w3, e⟩
    | ⟨name, k, w5, _, _, _, _, e⟩
  · rw [e] at h; simp at h
  · rw [e] at h
    simp only [Outcome.returned.injEq] at h
    rw [← h.1]

/-- C12, amended, at a concrete input: thread `W1`, inside `void foo()`, logs `start` through
the tracer of `void foo()`. -/
theorem log_entry_format_witness :
    (∃ q0, QueueAt (process_in_foo.view 0).thread_trace_fifo
        (process_in_foo.view 0).tl.thread_context_id q0
      ∧ (∃ w2, (info { where_ := "void foo()", error_handler := none } "start"
            (process_in_foo.view 0)).last_state = some w2
          ∧ QueueAt w2.thread_trace_fifo (process_in_foo.view 0).tl.thread_context_id
              (q0 ++ ["[" ++ (process_in_foo.view 0).tl.thread_context_id ++ "]" ++ "info:  "
                        ++ "void foo()" ++ ":\n" ++ "       " ++ "start" ++ "\n\n"]))
      ∧ (∃ w2, (warn { where_ := "void foo()", error_handler := none } "start"
            (process_in_foo.view 0)).last_state = some w2
          ∧ QueueAt w2.thread_trace_fifo (process_in_foo.view 0).tl.thread_context_id
              (q0 ++ ["[" ++ (process_in_foo.view 0).tl.thread_context_id ++ "]" ++ "warn:  "
                        ++ "void foo()" ++ ":\n" ++ "       " ++ "start" ++ "\n\n"]))
      ∧ (∃ w2, (error { where_ := "void foo()", error_handler := none } "start"
            (process_in_foo.view 0)).last_state = some w2
          ∧ QueueAt w2.thread_trace_fifo (process_in_foo.view 0).tl.thread_context_id
              (q0 ++ ["[" ++ (process_in_foo.view 0).tl.thread_context_id ++ "]" ++ "error: "
                        ++ "void foo()" ++ ":\n" ++ "       " ++ "start" ++ "\n\n"])))
    ∧ (str_info ≠ str_warn ∧ str_info ≠ str_error ∧ str_warn ≠ str_error)
    ∧ (str_info.length = 7 ∧ str_warn.length = 7 ∧ str_error.length = 7
        ∧ str_space.length = 7)
    ∧ (∀ (function_name context_id : String) (w0 w1 : World) (t : trace_t),
        construct function_name context_id w0 = Outcome.returned t w1 →
        t.where_ = function_name) :=
  log_entry_format process_in_foo 0 { where_ := "void foo()", error_handler := none } "start"
    reachable_process_in_foo (by decide)

/-! ## C14: whose events a callback decides -/

/-- C15, the end-to-end scenario. From the state at program start (empty registries, thread
not bound), the sequence `foo()` opened with context `W1`, `info("start")`, `bar()` opened,
`warn("slow")` through the tracer of `bar()`, `bar()` left, `error("boom")` through the tracer
of `foo()` with no callback ends the process with status 1, which is not zero, in the state
`scenario_end`. There the edge set of `W1` is exactly `(?)->(foo)` and `(foo)->(bar)`, and
the queue of `W1` holds exactly three entries, in this order: each begins with `[W1]`, and
they carry the tags of `info`, `warn` and `error` and the messages `start`, `slow` and
`boom`. -/
theorem end_to_end_scenario :
    ((construct "foo()" "W1" World.initial).bind fun foo w1 =>
      (info foo "start" w1).bind fun _ w2 =>
      (construct "bar()" "" w2).bind fun bar w3 =>
      (warn bar "slow" w3).bind fun _ w4 =>
      (destruct bar w4).bind fun _ w5 =>
      error foo "boom" w5) = Outcome.exited 1 scenario_end
    ∧ (1 : Nat) ≠ 0
    ∧ map_find scenario_end.thread_callflow "W1" = some ["(?)->(foo)", "(foo)->(bar)"]
    ∧ map_find scenario_end.thread_trace_fifo "W1"
      = some ["[W1]" ++ str_info ++ "foo():\n" ++ str_space ++ "start" ++ "\n\n",
              "[W1]" ++ str_warn ++ "bar():\n" ++ str_space ++ "slow" ++ "\n\n",
              "[W1]" ++ str_error ++ "foo():\n" ++ str_space ++ "boom" ++ "\n\n"] :=
  ⟨rfl, by decide, rfl, by decide⟩

/-! ## C17: what becomes of a pending terminate -/

/-- C17, refuted as stated: on thread `W1` a terminate-on-next-entry is pending (the state
`world_pending`, after an `error` whose callback answered so). An `error("again")` through a
tracer whose callback answers `continue` follows; the next scope construction then does not
end the process: it returns, having pushed its name and inserted its edge. -/
theorem pending_terminate_overwritten_counterexample :
    world_pending.tl.error_handler_result
      = error_handler_result_t.result_terminate_on_next_trace
    ∧ ((error { where_ := "void foo()", error_handler := some fun _ =>
            error_handler_result_t.result_continue } "again" world_pending).bind fun _ w =>
        construct "int bar(int)" "" w)
      = Outcome.returned { where_ := "int bar(int)", error_handler := none }
          { thread_callflow := [("W1", ["(?)->(void foo)", "(void foo)->(int bar)"])]
            thread_trace_fifo :=
              [("W1", ["[W1]error: void foo():\n       boom\n\n",
                       "[W1]error: void foo():\n       again\n\n"])]
            tl :=
              { code_coverage_stack := ["int bar", "void foo"]
                thread_context_id := "W1"
                local_callflow := some "W1"
                local_trace_fifo := some "W1"
                error_handler_result := error_handler_result_t.result_continue
                format_cache := [("void foo()", "void foo"), ("int bar(int)", "int bar")] }
            cout := ["[W1]error: void foo():\n       boom\n\n",
                     "[W1]error: void foo():\n       again\n\n"]
            cerr := [] } :=
  ⟨rfl, rfl⟩

theorem log_call_result (c : LogCall) (w w2 : World)
    (h : c.run w = Outcome.returned () w2) :
    w2.tl.error_handler_result = (c.adopts).getD w.tl.error_handler_result := by
  have hrec : ∀ (self : trace_t) (message : String) (level : trace_level),
      (recorded self message level w).tl.error_handler_result
        = w.tl.error_handler_result := by
    intro self message level
    rw [(recorded_tl self message level w).1, (ensured_tl w).2.2.1]
  have htrace : ∀ (self : trace_t) (message : String) (level : trace_level),
      trace self message level w = Outcome.returned () w2 →
      w2.tl.error_handler_result
        = (if level = trace_level.error then some (adopted self) else none).getD
            w.tl.error_handler_result := by
    intro self message level ht
    rcases trace_cases self message level w with ⟨e, hl⟩ | ⟨e, hl, _⟩ | ⟨e, _, _⟩
    · rw [e] at ht
      simp only [Outcome.returned.injEq, true_and] at ht
      rw [← ht, if_neg hl]
      exact hrec self message level
    · rw [e] at ht
      simp only [Outcome.returned.injEq, true_and] at ht
      rw [← ht, if_pos hl]
      rfl
    · rw [e] at ht; simp at ht
  cases c with
  | log self message level => exact htrace self message level h
  | check self location condition message =>
    cases condition with
    | true =>
      simp only [LogCall.run, app_assert_true, Outcome.returned.injEq, true_and] at h
      rw [← h]
      rfl
    | false =>
      have := htrace self ("Assert at " ++ location ++ "\n" ++ str_space ++ message)
        trace_level.error (by simpa [LogCall.run, app_assert, error] using h)
      simpa [LogCall.adopts] using this

theorem run_log_calls_result (ops : List LogCall) (w w2 : World)
    (h : run_log_calls ops w = Outcome.returned () w2) :
    w2.tl.error_handler_result = pending_after ops w.tl.error_handler_result := by
  induction ops generalizing w with
  | nil =>
    simp only [run_log_calls, Outcome.returned.injEq, true_and] at h
    rw [← h]
    rfl
  | cons c rest ih =>
    simp only [run_log_calls] at h
    cases hc : c.run w with
    | returned u w1 =>
      rw [hc, returned_bind] at h
      rw [ih w1 h, log_call_result c w w1 hc]
      rfl
    | exited n w1 => rw [hc] at h; simp [Outcome.bind] at h
    | threw e w1 => rw [hc] at h; simp [Outcome.bind] at h
    | undefined => rw [hc] at h; simp [Outcome.bind] at h

theorem pending_after_kept (ops : List LogCall)
    (h : ∀ c ∈ ops, c.adopts = none
      ∨ c.adopts = some error_handler_result_t.result_terminate_on_next_trace) :
    pending_after ops error_handler_result_t.result_terminate_on_next_trace
      = error_handler_result_t.result_terminate_on_next_trace := by
  induction ops with
  | nil => rfl
  | cons c rest ih =>
    have hrest := ih (fun c2 hc2 => h c2 (List.mem_cons_of_mem c hc2))
    rcases h c (List.mem_cons_self c rest) with e | e
    · simp only [pending_after, e, Option.getD_none]
      exact hrest
    · simp only [pending_after, e, Option.getD_some]
      exact hrest

/-- C17, amended. After a sequence of log operations (`info`, `warn`, `error` with any
callback, `app_assert`) that all return, the policy state of the thread is the state adopted
by the last error-level event of the sequence, or the state before the sequence when it had no
error-level event. So when terminate-on-next-entry was pending before the sequence and every
error-level event of the sequence adopts terminate-on-next-entry again (in particular when
the sequence has none), the next scope construction ends the process with status 1 before
any of its work, in the state it found; and whenever the policy state after the sequence is
terminate-on-next-entry, so it does. An error-level event that adopts `continue` replaces the
pending state. -/
theorem pending_terminate_after_logs
    (ops : List LogCall) (w w2 : World)
    (h0 : w.tl.error_handler_result = error_handler_result_t.result_terminate_on_next_trace)
    (hrun : run_log_calls ops w = Outcome.returned () w2) :
    w2.tl.error_handler_result
      = pending_after ops error_handler_result_t.result_terminate_on_next_trace
    ∧ ((∀ c ∈ ops, c.adopts = none
          ∨ c.adopts = some error_handler_result_t.result_terminate_on_next_trace) →
        ∀ function_name context_id,
          construct function_name context_id w2 = Outcome.exited 1 w2)
    ∧ (w2.tl.error_handler_result = error_handler_result_t.result_terminate_on_next_trace →
        ∀ function_name context_id,
          construct function_name context_id w2 = Outcome.exited 1 w2)
    ∧ (∀ (self : trace_t) (message : String) (w3 : World),
        adopted self = error_handler_result_t.result_continue →
        error self message w2 = Outcome.returned () w3 →
        w3.tl.error_handler_result = error_handler_result_t.result_continue) := by
  have hres := run_log_calls_result ops w w2 hrun
  rw [h0] at hres
  have hexit : w2.tl.error_handler_result
      = error_handler_result_t.result_terminate_on_next_trace →
      ∀ function_name context_id,
        construct function_name context_id w2 = Outcome.exited 1 w2 := by
    intro hp function_name context_id
    rw [construct_eq, if_pos hp]
  refine ⟨hres, ?_, hexit, ?_⟩
  · intro hall
    exact hexit (by rw [hres]; exact pending_after_kept ops hall)
  · intro self message w3 ha he
    have := log_call_result (LogCall.log self message trace_level.error) w2 w3 he
    simpa [LogCall.adopts, ha] using this

/-- C17, amended, at a concrete input: with terminate-on-next-entry pending on thread `W1`,
an `info` and a passing `app_assert` follow; the next construction ends the process. -/
theorem pending_terminate_after_logs_witness :
    run_log_calls
        [LogCall.log { where_ := "void foo()", error_handler := none } "still here"
            trace_level.info,
          LogCall.check { where_ := "void foo()", error_handler := none } "void foo()" true
            "fine"]
        world_pending
      = Outcome.returned ()
          { world_pending with
            thread_trace_fifo :=
              [("W1", ["[W1]error: void foo():\n       boom\n\n",
                       "[W1]info:  void foo():\n       still here\n\n"])]
            cout := ["[W1]error: void foo():\n       boom\n\n",
                     "[W1]info:  void foo():\n       still here\n\n"] }
    ∧ ∀ function_name context_id,
        construct function_name context_id
            { world_pending with
              thread_trace_fifo :=
                [("W1", ["[W1]error: void foo():\n       boom\n\n",
                         "[W1]info:  void foo():\n       still here\n\n"])]
              cout := ["[W1]error: void foo():\n       boom\n\n",
                       "[W1]info:  void foo():\n       still here\n\n"] }
          = Outcome.exited 1
              { world_pending with
                thread_trace_fifo :=
                  [("W1", ["[W1]error: void foo():\n       boom\n\n",
                           "[W1]info:  void foo():\n       still here\n\n"])]
                cout := ["[W1]error: void foo():\n       boom\n\n",
                         "[W1]info:  void foo():\n       still here\n\n"] } :=
  ⟨rfl, (pending_terminate_after_logs
    [LogCall.log { where_ := "void foo()", error_handler := none } "still here"
        trace_level.info,
      LogCall.check { where_ := "void foo()", error_handler := none } "void foo()" true
        "fine"]
    world_pending _ rfl rfl).2.1 (by
      intro c hc
      simp only [List.mem_cons, List.mem_singleton, List.not_mem_nil, or_false] at hc
      rcases hc with e | e <;> subst e <;> exact Or.inl rfl)⟩

/-! ## C18: two threads and one context id -/

theorem reachable_process_shared : Reachable process_shared :=
  Later.step 1 (Call.construct "void bar()" "W1") reachable_process_in_foo rfl

/-- C18, refuted as stated: thread 0 is bound to `W1`; thread 1, not yet bound, opens
`void bar()` and supplies `W1` too. The construction returns normally, and in the process
reached both threads are bound to `W1` and hold handles to the same edge set and the same
trace queue. -/
theorem context_id_shared_counterexample :
    (process_in_foo.view 0).tl.thread_context_id = "W1"
    ∧ (process_in_foo.view 1).tl.thread_context_id = ""
    ∧ construct "void bar()" "W1" (process_in_foo.view 1)
      = Outcome.returned { where_ := "void bar()", error_handler := none } world_second_w1
    ∧ Reachable process_shared
    ∧ (0 : Nat) ≠ 1
    ∧ (process_shared.view 0).tl.thread_context_id = "W1"
    ∧ (process_shared.view 1).tl.thread_context_id = "W1"
    ∧ (process_shared.view 0).tl.local_callflow = some "W1"
    ∧ (process_shared.view 1).tl.local_callflow = some "W1"
    ∧ (process_shared.view 0).tl.local_trace_fifo = some "W1"
    ∧ (process_shared.view 1).tl.local_trace_fifo = some "W1" :=
  ⟨rfl, rfl, rfl, reachable_process_shared, by decide, rfl, rfl, rfl, rfl, rfl, rfl⟩

/-- A first construction on a thread that is not bound, with a non-empty context id, nothing
pending and a signature that has a canonical name, returns. -/
theorem construct_binds (function_name context_id name : String) (w : World) (hinv : Inv w)
    (hr : w.tl.error_handler_result ≠ error_handler_result_t.result_terminate_on_next_trace)
    (hu : w.tl.thread_context_id = "") (hc : context_id ≠ "")
    (hn : regex_search function_name = some name) :
    ∃ w5, construct function_name context_id w
        = Outcome.returned { where_ := function_name, error_handler := none }
            (entered name context_id w5)
      ∧ w5.tl.thread_context_id = context_id
      ∧ w5.tl.local_callflow = some context_id
      ∧ w5.tl.local_trace_fifo = some context_id := by
  have he : empty w.tl.thread_context_id = true := empty_of_eq _ hu
  have hci : empty context_id = false := empty_eq_false _ hc
  have hcond : ((empty context_id && !empty w.tl.thread_context_id)
            || (!empty context_id && empty w.tl.thread_context_id)) = true := by
    simp [he, hci]
  have hbd : context_bound context_id w
      = init context_id { w with tl := { w.tl with thread_context_id := context_id } } := by
    simp [context_bound, he]
  have hinv4 := (frame_context_bound context_id w).inv hinv
  rw [construct_eq, if_neg hr, if_pos hcond]
  unfold construct_from_bound
  rcases format_cases { where_ := function_name, error_handler := none } function_name
      (context_bound context_id w) with ⟨v, hv, e⟩ | ⟨m, _, hm, e⟩ | ⟨_, hnone, _, _⟩
      | ⟨_, hnone, _, _⟩
  · have hv2 := hinv4.cache_sound _ _ hv
    rw [hn] at hv2
    simp only [Option.some.injEq] at hv2
    subst hv2
    rw [e]
    refine ⟨context_bound context_id w, ?_, ?_, ?_, ?_⟩
    · have hk : (context_bound context_id w).tl.local_callflow = some context_id := by
        rw [hbd]; rfl
      simp only [hk]
    · rw [hbd]; rfl
    · rw [hbd]; rfl
    · rw [hbd]; rfl
  · rw [hn] at hm
    simp only [Option.some.injEq] at hm
    subst hm
    rw [e]
    refine ⟨cached function_name name (context_bound context_id w), ?_, ?_, ?_, ?_⟩
    · have hk : (cached function_name name (context_bound context_id w)).tl.local_callflow
          = some context_id := by
        rw [hbd]; rfl
      simp only [hk]
    · rw [hbd]; rfl
    · rw [hbd]; rfl
    · rw [hbd]; rfl
  · rw [hn] at hnone; exact absurd hnone (by simp)
  · rw [hn] at hnone; exact absurd hnone (by simp)

/-- C18, amended. In every reachable process a handle that is set designates the entries
stored under the context id of its own thread, so two threads whose context ids differ never
hold handles to the same edge set or to the same trace queue. But a context id can be bound
on more than one thread: when a thread `i` is bound to `c`, a first scope construction on
another thread `j` that is not bound, with nothing pending and a signature that has a
canonical name, and that supplies the same `c`, returns normally; in the process reached, both
threads are bound to `c` and hold handles to the same edge set and the same trace queue. -/
theorem context_id_can_be_shared
    (p : Process) (i j : Nat) (function_name c name : String)
    (hp : Reachable p) (hij : i ≠ j)
    (hi : (p.view i).tl.thread_context_id = c) (hc : c ≠ "")
    (hj : (p.view j).tl.thread_context_id = "")
    (hr : (p.view j).tl.error_handler_result
      ≠ error_handler_result_t.result_terminate_on_next_trace)
    (hn : regex_search function_name = some name) :
    (∀ (q : Process) (a b : Nat) (k : String), Reachable q →
      (((q.view a).tl.local_callflow = some k ∧ (q.view b).tl.local_callflow = some k)
        ∨ ((q.view a).tl.local_trace_fifo = some k ∧ (q.view b).tl.local_trace_fifo = some k)) →
      (q.view a).tl.thread_context_id = (q.view b).tl.thread_context_id)
    ∧ ∃ w2, construct function_name c (p.view j)
        = Outcome.returned { where_ := function_name, error_handler := none } w2
      ∧ Reachable (p.put j w2)
      ∧ ((p.put j w2).view i).tl.thread_context_id = c
      ∧ ((p.put j w2).view j).tl.thread_context_id = c
      ∧ ((p.put j w2).view i).tl.local_callflow = some c
      ∧ ((p.put j w2).view j).tl.local_callflow = some c
      ∧ ((p.put j w2).view i).tl.local_trace_fifo = some c
      ∧ ((p.put j w2).view j).tl.local_trace_fifo = some c := by
  constructor
  · intro q a b k hq hk
    have ha := reachable_inv hq a
    have hb := reachable_inv hq b
    rcases hk with ⟨h1, h2⟩ | ⟨h1, h2⟩
    · rw [← (ha.callflow_handle k h1).1, ← (hb.callflow_handle k h2).1]
    · rw [← (ha.fifo_handle k h1).1, ← (hb.fifo_handle k h2).1]
  · obtain ⟨w5, hcon, h1, h2, h3⟩ := construct_binds function_name c name (p.view j)
      (reachable_inv hp j) hr hj hc hn
    have hstep : p.step j (Call.construct function_name c)
        = some (p.put j (entered name c w5)) := by
      simp [Process.step, Call.run, hcon, Outcome.discard, Outcome.bind, Outcome.goes_on]
    have htl : ((p.put j (entered name c w5)).view i).tl = (p.view i).tl := by
      simp [Process.put, Process.view, hij]
    obtain ⟨hb1, hb2⟩ := reachable_bound hp i (by rw [hi]; exact hc)
    rw [hi] at hb1 hb2
    refine ⟨entered name c w5, hcon, Later.step j _ hp hstep, ?_, ?_, ?_, ?_, ?_, ?_⟩
    · rw [htl]; exact hi
    · rw [view_put_self]; exact h1
    · rw [htl]; exact hb1
    · rw [view_put_self]; exact h2
    · rw [htl]; exact hb2
    · rw [view_put_self]; exact h3

/-- C18, amended, at a concrete input: thread 0 is `W1` inside `void foo()`, and thread 1
opens `void bar()` with the context id `W1`. -/
theorem context_id_can_be_shared_witness :
    (∀ (q : Process) (a b : Nat) (k : String), Reachable q →
      (((q.view a).tl.local_callflow = some k ∧ (q.view b).tl.local_callflow = some k)
        ∨ ((q.view a).tl.local_trace_fifo = some k ∧ (q.view b).tl.local_trace_fifo = some k)) →
      (q.view a).tl.thread_context_id = (q.view b).tl.thread_context_id)
    ∧ ∃ w2, construct "void bar()" "W1" (process_in_foo.view 1)
        = Outcome.returned { where_ := "void bar()", error_handler := none } w2
      ∧ Reachable (process_in_foo.put 1 w2)
      ∧ ((process_in_foo.put 1 w2).view 0).tl.thread_context_id = "W1"
      ∧ ((process_in_foo.put 1 w2).view 1).tl.thread_context_id = "W1"
      ∧ ((process_in_foo.put 1 w2).view 0).tl.local_callflow = some "W1"
      ∧ ((process_in_foo.put 1 w2).view 1).tl.local_callflow = some "W1"
      ∧ ((process_in_foo.put 1 w2).view 0).tl.local_trace_fifo = some "W1"
      ∧ ((process_in_foo.put 1 w2).view 1).tl.local_trace_fifo = some "W1" :=
  context_id_can_be_shared process_in_foo 0 1 "void bar()" "W1" "void bar"
    reachable_process_in_foo (by decide) rfl (by decide) rfl (by decide) rfl

/-! ## C19: the rendering of an edge determines its two names -/

/-- The text between the opening `(` of a rendered edge and its mark `)->(` is found again as
the text before the first `(`, when that text has no `(` itself. -/
theorem caller_unique (x y r s : List Char) (hx : '(' ∉ x) (hy : '(' ∉ y)
    (h : x ++ ')' :: '-' :: '>' :: '(' :: r = y ++ ')' :: '-' :: '>' :: '(' :: s) :
    x = y ∧ r = s := by
  have hp : ∀ (z t : List Char), '(' ∉ z →
      (z ++ ')' :: '-' :: '>' :: '(' :: t).takeWhile (fun ch => ch != '(')
        = z ++ [')', '-', '>'] := by
    intro z t hz
    rw [List.takeWhile_append_of_pos]
    · simp [List.takeWhile_cons]
    · intro a ha
      have : a ≠ '(' := fun e => hz (e ▸ ha)
      simpa using this
  have h1 := hp x r hx
  rw [h, hp y s hy] at h1
  have hxy : x = y := (List.append_cancel_right h1).symm
  subst hxy
  have h2 := List.append_cancel_left h
  simp only [List.cons.injEq, true_and] at h2
  exact ⟨rfl, h2⟩

theorem string_eq_of_data (a b : String) (h : a.data = b.data) : a = b := by
  cases a; cases b; simp only at h; rw [h]

/-- The rendering of an edge determines the caller and the callee, when the caller has no
`(`. -/
theorem render_edge_unique (a b c d : String) (ha : '(' ∉ a.data) (hc : '(' ∉ c.data)
    (h : "(" ++ a ++ ")->(" ++ b ++ ")" = "(" ++ c ++ ")->(" ++ d ++ ")") :
    a = c ∧ b = d := by
  have hd := congrArg String.data h
  simp only [String.data_append] at hd
  simp only [List.append_assoc, List.singleton_append, List.cons_append, List.nil_append,
    List.cons.injEq, true_and] at hd
  obtain ⟨hac, hbd⟩ := caller_unique a.data c.data (b.data ++ [')']) (d.data ++ [')']) ha hc hd
  exact ⟨string_eq_of_data a c hac, string_eq_of_data b d (List.append_cancel_right hbd)⟩

/-- A name that the regular expression gives is not empty and has neither `(` nor `[`. -/
theorem regex_search_name (s name : String) (h : regex_search s = some name) :
    name ≠ "" ∧ ∀ ch ∈ name.data, ch ≠ '(' ∧ ch ≠ '[' := by
  rw [regex_search_eq] at h
  by_cases hc : s.data.takeWhile notDelim ≠ [] ∧ (s.data.dropWhile notDelim).all dotChar = true
  · rw [if_pos hc] at h
    simp only [Option.some.injEq] at h
    subst h
    refine ⟨?_, ?_⟩
    · intro e
      have := congrArg String.data e
      exact hc.1 this
    · intro ch hch
      have hnd : notDelim ch = true := List.mem_takeWhile_imp hch
      simpa [notDelim] using hnd
  · rw [if_neg hc] at h
    exact absurd h (by simp)

/-- C19, edge rendering is injective on the names the tracer produces. In every reachable
process and on every thread: every name that `format_function_name` returns is not empty and
contains neither `(` nor `[`. For all strings `a`, `b`, `c`, `d` without `(` (the canonical
names, and the marker `?`), `"(" ++ a ++ ")->(" ++ b ++ ")" = "(" ++ c ++ ")->(" ++ d ++ ")"`
implies `a = c` and `b = d`; this text is what the constructor renders. So two distinct pairs
of such names have distinct rendered strings: inserting the second into an edge set that
holds the first adds a new member, and `flush` writes both. -/
theorem edge_rendering_injective (p : Process) (i : Nat) (hp : Reachable p) :
    (∀ (self : trace_t) (s name : String) (w2 : World),
      format_function_name self s (p.view i) = Outcome.returned name w2 →
      name ≠ "" ∧ ∀ ch ∈ name.data, ch ≠ '(' ∧ ch ≠ '[')
    ∧ (∀ a b c d : String, '(' ∉ a.data → '(' ∉ b.data → '(' ∉ c.data → '(' ∉ d.data →
        "(" ++ a ++ ")->(" ++ b ++ ")" = "(" ++ c ++ ")->(" ++ d ++ ")" → a = c ∧ b = d)
    ∧ '(' ∉ "?".data
    ∧ (∀ a b : String, render_edge a b = "(" ++ a ++ ")->(" ++ b ++ ")")
    ∧ (∀ a b c d : String, '(' ∉ a.data → '(' ∉ b.data → '(' ∉ c.data → '(' ∉ d.data →
        (a, b) ≠ (c, d) →
        set_insert [render_edge a b] (render_edge c d) = [render_edge a b, render_edge c d]
        ∧ (flush_callflow [("x", [render_edge a b]), ("y", [render_edge c d])]).2
          = [render_edge a b, render_edge c d]) := by
  have hinv := reachable_inv hp i
  refine ⟨?_, ?_, by decide, fun _ _ => rfl, ?_⟩
  · intro self s name w2 h
    rcases format_returned self s name _ w2 h with ⟨_, hv⟩ | ⟨_, hr, _⟩
    · exact regex_search_name s name (hinv.cache_sound _ _ hv)
    · exact regex_search_name s name hr
  · intro a b c d ha _ hc _ h
    exact render_edge_unique a b c d ha hc h
  · intro a b c d ha _ hc _ hne
    have hdiff : render_edge c d ≠ render_edge a b := by
      intro e
      obtain ⟨e1, e2⟩ := render_edge_unique c d a b hc ha e
      exact hne (by rw [e1, e2])
    have hmem : render_edge c d ∉ [render_edge a b] := by
      simpa using hdiff
    refine ⟨by rw [set_insert, if_neg hmem]; rfl, ?_⟩
    have hc1 : ([] : List String).contains (render_edge a b) = false := rfl
    have hc2 : [render_edge a b].contains (render_edge c d) = false := by
      simpa using hdiff
    have hm0 : render_edge a b ∉ ([] : List String) := by simp
    simp [flush_callflow, flush_call, hc1, hc2, set_insert, hmem, hm0, hdiff]

/-- C19 at a concrete input: at program start, the name returned for `int main(int)`. -/
theorem edge_rendering_injective_witness :
    format_function_name { where_ := "int main(int)", error_handler := none } "int main(int)"
        (Process.initial.view 0)
      = Outcome.returned "int main"
          (cached "int main(int)" "int main" (Process.initial.view 0))
    ∧ ("int main" ≠ "" ∧ ∀ ch ∈ "int main".data, ch ≠ '(' ∧ ch ≠ '[') :=
  ⟨rfl, (edge_rendering_injective Process.initial 0 (Later.refl _)).1
    { where_ := "int main(int)", error_handler := none } "int main(int)" "int main"
    (cached "int main(int)" "int main" (Process.initial.view 0)) rfl⟩

/-! ## C7: the queue of a context id along the steps of several threads -/

theorem map_find_update_other {V : Type} (m : List (String × V)) (k c : String) (f : V → V)
    (h : k ≠ c) : map_find (map_update m k f) c = map_find m c := by
  induction m with
  | nil => rfl
  | cons p rest ih =>
    obtain ⟨k1, v1⟩ := p
    by_cases hp : k1 = k
    · subst hp
      simp [map_update, map_find, h]
    · by_cases hq : k1 = c
      · subst hq
        simp [map_update, map_find, hp]
      · simp [map_update, map_find, hp, hq, ih]

theorem map_find_append_keep {V : Type} (m n : List (String × V)) (c : String) (q : V)
    (h : map_find m c = some q) : map_find (m ++ n) c = some q := by
  induction m with
  | nil => simp [map_find] at h
  | cons p rest ih =>
    obtain ⟨k1, v1⟩ := p
    by_cases hp : k1 = c
    · simpa [map_find, hp] using h
    · have h2 : map_find rest c = some q := by simpa [map_find, hp] using h
      simpa [map_find, hp] using ih h2

theorem map_find_emplace_keep {V : Type} (m : List (String × V)) (k c : String) (v q : V)
    (h : map_find m c = some q) : map_find (map_emplace m k v) c = some q := by
  unfold map_emplace
  by_cases hk : map_contains m k = true
  · simpa [hk] using h
  · rw [if_neg hk]
    exact map_find_append_keep _ _ _ _ h

theorem queueAt_of_find (reg : List (String × List String)) (c : String) (q : List String)
    (h : map_find reg c = some q) : QueueAt reg c q := by
  induction reg with
  | nil => simp [map_find] at h
  | cons e rest ih =>
    obtain ⟨k1, q1⟩ := e
    by_cases hk : k1 = c
    · subst hk
      have : q1 = q := by simpa [map_find] using h
      subst this
      exact ⟨[], rest, rfl, rfl⟩
    · have h2 : map_find rest c = some q := by simpa [map_find, hk] using h
      obtain ⟨before, after, e1, e2⟩ := ih h2
      refine ⟨(k1, q1) :: before, after, by rw [e1]; rfl, ?_⟩
      simp only [map_contains, List.any_cons] at e2 ⊢
      simp [hk, e2]

theorem find_ensured (w : World) (c : String) (q : List String)
    (h : map_find w.thread_trace_fifo c = some q) :
    map_find (ensured w).thread_trace_fifo c = some q := by
  unfold ensured
  by_cases hf : w.tl.local_trace_fifo = none
  · simp only [hf, if_true, init]
    exact map_find_emplace_keep _ _ _ _ _ h
  · simpa [hf] using h

/-- What the push of `trace` does to the queue of a context id `c`: the entry is appended
when the thread is bound to `c`, and the queue is left alone otherwise. -/
theorem find_recorded (self : trace_t) (message : String) (level : trace_level) (w : World)
    (c : String) (q0 : List String) (hinv : Inv w) (hb : Bound w) (hc : c ≠ "")
    (hq : map_find w.thread_trace_fifo c = some q0) :
    map_find (recorded self message level w).thread_trace_fifo c
      = some (q0 ++ if w.tl.thread_context_id = c then
          [format_entry c self.where_ message level] else []) := by
  simp only [recorded]
  rw [trace_key w hinv]
  by_cases ht : w.tl.thread_context_id = c
  · have hh := (hb (by rw [ht]; exact hc)).2
    rw [ensured_of_handle w _ hh, ht, map_find_update, hq]
    simp
  · rw [map_find_update_other _ _ _ _ ht, find_ensured w c q0 hq]
    simp [ht]

theorem find_context_bound (context_id : String) (w : World) (c : String) (q : List String)
    (h : map_find w.thread_trace_fifo c = some q) :
    map_find (context_bound context_id w).thread_trace_fifo c = some q := by
  unfold context_bound
  by_cases he : empty w.tl.thread_context_id = true
  · simp only [he, if_true, init]
    exact map_find_emplace_keep _ _ _ _ _ h
  · simpa [he] using h

theorem trace_goes_on_queue (self : trace_t) (message : String) (level : trace_level)
    (w w1 : World) (c : String) (q0 : List String) (hinv : Inv w) (hb : Bound w) (hc : c ≠ "")
    (hq : map_find w.thread_trace_fifo c = some q0)
    (h : (trace self message level w).goes_on = some w1) :
    map_find w1.thread_trace_fifo c
      = some (q0 ++ if w1.tl.thread_context_id = c then
          [format_entry c self.where_ message level] else []) := by
  have hr := find_recorded self message level w c q0 hinv hb hc hq
  have ht : (recorded self message level w).tl.thread_context_id = w.tl.thread_context_id := by
    rw [(recorded_tl self message level w).1, (ensured_tl w).2.1]
  rcases trace_cases self message level w with ⟨e, _⟩ | ⟨e, _, _⟩ | ⟨e, _, _⟩
  · rw [e] at h
    simp only [Outcome.goes_on, Option.some.injEq] at h
    subst h
    rw [ht]; exact hr
  · rw [e] at h
    simp only [Outcome.goes_on, Option.some.injEq] at h
    subst h
    show map_find (recorded self message level w).thread_trace_fifo c
      = some (q0 ++ if (recorded self message level w).tl.thread_context_id = c then _ else _)
    rw [ht]; exact hr
  · rw [e] at h
    simp [Outcome.goes_on] at h

/-- What a call other than `flush`, after which the program goes on, does to the queue of a
context id `c` that is in the registry: it appends its entries when its thread is bound to
`c`, and leaves the queue alone otherwise. -/
theorem call_queue (call : Call) (c : String) (w w1 : World) (q0 : List String)
    (hinv : Inv w) (hb : Bound w) (hc : c ≠ "") (hnf : call.is_flush = false)
    (hq : map_find w.thread_trace_fifo c = some q0)
    (h : (call.run w).goes_on = some w1) :
    map_find w1.thread_trace_fifo c
      = some (q0 ++ if w1.tl.thread_context_id = c then call.entries c else []) := by
  cases call with
  | construct function_name context_id =>
    have h2 : (construct function_name context_id w).goes_on = some w1 := by
      simpa [Call.run, goes_on_discard] using h
    rcases construct_cases function_name context_id w with ⟨n, w3, e⟩
      | ⟨name, k, w5, _, _, hf, _, e⟩
    · rw [e] at h2; simp [Outcome.goes_on] at h2
    · rw [e] at h2
      simp only [Outcome.goes_on, Option.some.injEq] at h2
      subst h2
      have hcb := find_context_bound context_id w c q0 hq
      rcases format_returned _ _ _ _ _ hf with ⟨e5, _⟩ | ⟨e5, _, _⟩
      · subst e5
        simpa [Call.entries, entered] using hcb
      · subst e5
        simpa [Call.entries, entered, cached] using hcb
  | destruct self =>
    simp only [Call.run, destruct] at h
    cases hs : w.tl.code_coverage_stack with
    | nil => simp [hs, Outcome.goes_on] at h
    | cons top rest =>
      simp only [hs, Outcome.goes_on, Option.some.injEq] at h
      subst h
      simpa [Call.entries] using hq
  | trace self message level =>
    exact trace_goes_on_queue self message level w w1 c q0 hinv hb hc hq h
  | app_assert self location condition message =>
    cases condition with
    | true =>
      simp only [Call.run, app_assert, Bool.not_true, Bool.false_eq_true, if_false,
        Outcome.goes_on, Option.some.injEq] at h
      subst h
      simpa [Call.entries] using hq
    | false =>
      have h2 : (trace self ("Assert at " ++ location ++ "\n" ++ str_space ++ message)
          trace_level.error w).goes_on = some w1 := by
        simpa [Call.run, app_assert, error] using h
      simpa [Call.entries] using
        trace_goes_on_queue self _ trace_level.error w w1 c q0 hinv hb hc hq h2
  | format_function_name self s =>
    have h2 : (format_function_name self s w).goes_on = some w1 := by
      simpa [Call.run, goes_on_discard] using h
    rcases format_cases self s w with ⟨v, hv, e⟩ | ⟨m, hn, hm, e⟩ | ⟨_, _, _, e⟩
      | ⟨hn, hr, ha, e⟩
    · rw [e] at h2
      simp only [Outcome.goes_on, Option.some.injEq] at h2
      subst h2
      have := hinv.cache_sound s v hv
      simpa [Call.entries, this] using hq
    · rw [e] at h2
      simp only [Outcome.goes_on, Option.some.injEq] at h2
      subst h2
      simpa [Call.entries, hm, cached] using hq
    · rw [e] at h2
      simp [Outcome.goes_on] at h2
    · rw [e] at h2
      simp only [Outcome.goes_on, Option.some.injEq] at h2
      subst h2
      have hr2 := find_recorded self ("Unable to handle " ++ s) trace_level.error w c q0 hinv
        hb hc hq
      have ht : (recorded self ("Unable to handle " ++ s) trace_level.error
          w).tl.thread_context_id = w.tl.thread_context_id := by
        rw [(recorded_tl _ _ _ w).1, (ensured_tl w).2.1]
      show map_find (recorded self ("Unable to handle " ++ s) trace_level.error
          w).thread_trace_fifo c
        = some (q0 ++ if (recorded self ("Unable to handle " ++ s) trace_level.error
            w).tl.thread_context_id = c then _ else _)
      rw [ht]
      simpa [Call.entries, hr] using hr2
  | flush yuml_filename trace_filename => simp [Call.is_flush] at hnf
  | set_error_handler_result r =>
    simp only [Call.run, Outcome.goes_on, Option.some.injEq] at h
    subst h
    simpa [Call.entries, set_error_handler_result] using hq

theorem step_goes_on (p p1 : Process) (j : Nat) (call : Call)
    (hs : p.step j call = some p1) :
    ∃ w1, (call.run (p.view j)).goes_on = some w1 ∧ p1 = p.put j w1 := by
  unfold Process.step at hs
  cases hg : (call.run (p.view j)).goes_on with
  | none => simp [hg] at hs
  | some w1 =>
    simp only [hg, Option.map_some', Option.some.injEq] at hs
    exact ⟨w1, rfl, hs.symm⟩

/-- One step of any thread, other than a `flush`: the queue of a context id `c` gains the
entries of the call when the thread that made it is bound to `c`, and nothing otherwise. -/
theorem step_queue (p p1 : Process) (j : Nat) (call : Call) (c : String) (q0 : List String)
    (hp : Reachable p) (hc : c ≠ "") (hnf : call.is_flush = false)
    (hq : map_find p.thread_trace_fifo c = some q0)
    (hs : p.step j call = some p1) :
    map_find p1.thread_trace_fifo c
      = some (q0 ++ if (p1.view j).tl.thread_context_id = c then call.entries c else []) := by
  obtain ⟨w1, hg, e⟩ := step_goes_on p p1 j call hs
  subst e
  rw [view_put_self]
  exact call_queue call c (p.view j) w1 q0 (reachable_inv hp j) (reachable_bound hp j) hc hnf
    hq hg

theorem later_of_run_steps (sched : List (Nat × Call)) (p q : Process)
    (h : p.run_steps sched = some q) : Later p q := by
  induction sched generalizing p with
  | nil =>
    simp only [Process.run_steps, Option.some.injEq] at h
    subst h
    exact Later.refl p
  | cons s rest ih =>
    obtain ⟨j, call⟩ := s
    simp only [Process.run_steps] at h
    cases hs : p.step j call with
    | none => simp [hs] at h
    | some p1 =>
      simp only [hs] at h
      exact later_trans (Later.step j call (Later.refl p) hs) (ih p1 h)

/-- Along a schedule without a `flush`, the queue of the context id `c` of thread `i` grows by
a list in which the entries of thread `i` stand in the order of its calls; the list is these
entries alone when no call of another thread that is bound to `c` at the end pushes an
entry. -/
theorem run_steps_queue (sched : List (Nat × Call)) (p q : Process) (i : Nat) (c : String)
    (q0 : List String) (hp : Reachable p) (hc : c ≠ "")
    (hi : (p.view i).tl.thread_context_id = c)
    (hnf : ∀ s ∈ sched, s.2.is_flush = false)
    (hq : map_find p.thread_trace_fifo c = some q0)
    (hrun : p.run_steps sched = some q) :
    ∃ added, map_find q.thread_trace_fifo c = some (q0 ++ added)
      ∧ List.Sublist (thread_entries i c sched) added
      ∧ ((∀ s ∈ sched, s.1 ≠ i → (q.view s.1).tl.thread_context_id = c → s.2.entries c = []) →
          added = thread_entries i c sched) := by
  induction sched generalizing p q0 with
  | nil =>
    simp only [Process.run_steps, Option.some.injEq] at hrun
    subst hrun
    exact ⟨[], by simpa using hq, by simp [thread_entries], fun _ => rfl⟩
  | cons s rest ih =>
    obtain ⟨j, call⟩ := s
    simp only [Process.run_steps] at hrun
    cases hs : p.step j call with
    | none => simp [hs] at hrun
    | some p1 =>
      simp only [hs] at hrun
      have hp1 : Reachable p1 := Later.step j call hp hs
      have hl1 : Later p p1 := Later.step j call (Later.refl p) hs
      have hi1 : (p1.view i).tl.thread_context_id = c := by
        rw [context_id_later hl1 i (by rw [hi]; exact hc)]
        exact hi
      have hq1 := step_queue p p1 j call c q0 hp hc (hnf (j, call) (List.mem_cons_self _ _))
        hq hs
      obtain ⟨added, ha1, ha2, ha3⟩ := ih p1 _ hp1 hi1
        (fun s hm => hnf s (List.mem_cons_of_mem _ hm)) hq1 hrun
      by_cases hj : j = i
      · subst hj
        rw [hi1, if_pos rfl] at hq1 ha1
        refine ⟨call.entries c ++ added, by rw [ha1, List.append_assoc], ?_, ?_⟩
        · simp only [thread_entries, if_true]
          exact List.Sublist.append (List.Sublist.refl _) ha2
        · intro hex
          simp only [thread_entries, if_true]
          rw [ha3 (fun s hm => hex s (List.mem_cons_of_mem _ hm))]
      · refine ⟨(if (p1.view j).tl.thread_context_id = c then call.entries c else []) ++ added,
          by rw [ha1, List.append_assoc], ?_, ?_⟩
        · simp only [thread_entries, if_neg hj, List.nil_append]
          exact List.Sublist.trans ha2 (List.sublist_append_right _ _)
        · intro hex
          simp only [thread_entries, if_neg hj, List.nil_append]
          rw [ha3 (fun s hm => hex s (List.mem_cons_of_mem _ hm))]
          by_cases hb : (p1.view j).tl.thread_context_id = c
          · have hend : (q.view j).tl.thread_context_id = c := by
              rw [context_id_later (later_of_run_steps rest p1 q hrun) j (by rw [hb]; exact hc)]
              exact hb
            have := hex (j, call) (List.mem_cons_self _ _) hj hend
            simp only at this
            simp [this]
          · simp [hb]

theorem thread_entries_tagged (i : Nat) (c : String) (sched : List (Nat × Call)) :
    ∀ e ∈ thread_entries i c sched, ∃ tail, e = "[" ++ c ++ "]" ++ tail := by
  have hfmt : ∀ (where_ message : String) (level : trace_level),
      ∃ tail, format_entry c where_ message level = "[" ++ c ++ "]" ++ tail := by
    intro where_ message level
    refine ⟨level_tag level ++ (where_ ++ (":\n" ++ (str_space ++ (message ++ "\n\n")))), ?_⟩
    simp only [format_entry, String.append_assoc]
  induction sched with
  | nil => intro e he; simp [thread_entries] at he
  | cons s rest ih =>
    obtain ⟨j, call⟩ := s
    intro e he
    simp only [thread_entries, List.mem_append] at he
    rcases he with he | he
    · by_cases hj : j = i
      · simp only [hj, if_true] at he
        cases call with
        | construct function_name context_id => simp [Call.entries] at he
        | destruct self => simp [Call.entries] at he
        | trace self message level =>
          simp only [Call.entries, List.mem_singleton] at he
          rw [he]; exact hfmt _ _ _
        | app_assert self location condition message =>
          cases condition with
          | true => simp [Call.entries] at he
          | false =>
            simp only [Call.entries, Bool.false_eq_true, if_false, List.mem_singleton] at he
            rw [he]; exact hfmt _ _ _
        | format_function_name self s =>
          cases hr : regex_search s with
          | some m => simp [Call.entries, hr] at he
          | none =>
            simp only [Call.entries, hr, List.mem_singleton] at he
            rw [he]; exact hfmt _ _ _
        | flush yuml_filename trace_filename => simp [Call.entries] at he
        | set_error_handler_result r => simp [Call.entries] at he
      · simp [hj] at he
    · exact ih e he

set_option maxRecDepth 100000 in
/-- C7, refuted as stated: threads 0 and 1 are both bound to `W1`, a process that the program
can reach. Thread 0 logs `M1`, thread 1 logs `X`, thread 0 logs `M2`, each call returns, and
a `flush` follows. The two entries that thread 0 has emitted are `M1` and `M2`; the trace
output is the entries `M1`, `X`, `M2`, and it does not hold the two entries of thread 0 with
nothing between them. -/
theorem fifo_law_interleaved_counterexample :
    Reachable process_shared
    ∧ (process_shared.view 0).tl.thread_context_id = "W1"
    ∧ (process_shared.view 1).tl.thread_context_id = "W1"
    ∧ process_shared.run_steps schedule_interleaved = some process_interleaved
    ∧ thread_entries 0 "W1" schedule_interleaved
        = ["[W1]info:  void foo():\n       M1\n\n", "[W1]info:  void foo():\n       M2\n\n"]
    ∧ ∃ out w3,
        flush "callflow.yuml" "trace.txt" (process_interleaved.view 0) = Outcome.returned out w3
        ∧ out.trace
            = lines_text ["[W1]info:  void foo():\n       M1\n\n",
                "[W1]warn:  void bar():\n       X\n\n", "[W1]info:  void foo():\n       M2\n\n"]
        ∧ ¬ ∃ before after : String,
            out.trace = before
              ++ lines_text (thread_entries 0 "W1" schedule_interleaved) ++ after := by
  refine ⟨reachable_process_shared, rfl, rfl, rfl, rfl, _, _, rfl, rfl, ?_⟩
  rintro ⟨before, after, h⟩
  have h2 := congrArg String.data h
  simp only [String.data_append] at h2
  have hinf : (lines_text (thread_entries 0 "W1" schedule_interleaved)).data
      <:+: (lines_text ["[W1]info:  void foo():\n       M1\n\n",
        "[W1]warn:  void bar():\n       X\n\n",
        "[W1]info:  void foo():\n       M2\n\n"]).data := ⟨before.data, after.data, h2.symm⟩
  revert hinf
  decide

/-- C7, amended. The FIFO law among threads that may share a context id. In every reachable
process, for a thread `i` that is bound to a context id `c`: after any schedule of calls of
any threads that contains no `flush` and after each of whose calls the program goes on, the
queue of `c` is the queue found at the start followed by a list `added`, in which the entries
that thread `i` has emitted along the schedule stand in the order of their emission; a
`flush` made by any thread then returns the text of all queued entries, each followed by a
newline, so these entries stand in the trace output in the order of their emission; and each
of them begins with `[c]`. When no call of another thread that is bound to `c` at the time
of the `flush` has pushed an entry, `added` is exactly the entries of thread `i`, and they
stand in the trace output contiguously, with nothing between them. -/
theorem fifo_law_among_threads
    (p q : Process) (i k : Nat) (sched : List (Nat × Call))
    (yuml_filename trace_filename : String)
    (hp : Reachable p)
    (hb : (p.view i).tl.thread_context_id ≠ "")
    (hnf : ∀ s ∈ sched, s.2.is_flush = false)
    (hrun : p.run_steps sched = some q) :
    ∃ out w3 q0 added,
      flush yuml_filename trace_filename (q.view k) = Outcome.returned out w3
      ∧ out.trace = lines_text (all_entries q.thread_trace_fifo)
      ∧ QueueAt p.thread_trace_fifo (p.view i).tl.thread_context_id q0
      ∧ QueueAt q.thread_trace_fifo (p.view i).tl.thread_context_id (q0 ++ added)
      ∧ List.Sublist (thread_entries i (p.view i).tl.thread_context_id sched) added
      ∧ List.Sublist (thread_entries i (p.view i).tl.thread_context_id sched)
          (all_entries q.thread_trace_fifo)
      ∧ ((∀ s ∈ sched, s.1 ≠ i →
            (q.view s.1).tl.thread_context_id = (p.view i).tl.thread_context_id →
            s.2.entries (p.view i).tl.thread_context_id = []) →
          added = thread_entries i (p.view i).tl.thread_context_id sched
          ∧ ∃ before after,
            all_entries q.thread_trace_fifo
              = before ++ thread_entries i (p.view i).tl.thread_context_id sched ++ after
            ∧ out.trace = lines_text before
                ++ lines_text (thread_entries i (p.view i).tl.thread_context_id sched)
                ++ lines_text after)
      ∧ ∀ e ∈ thread_entries i (p.view i).tl.thread_context_id sched,
          ∃ tail, e = "[" ++ (p.view i).tl.thread_context_id ++ "]" ++ tail := by
  have hcont := ((reachable_inv hp i).fifo_handle _ ((reachable_bound hp i) hb).2).2
  obtain ⟨q0, hq0⟩ := map_find_some_of_contains _ _ hcont
  obtain ⟨added, ha1, ha2, ha3⟩ := run_steps_queue sched p q i _ q0 hp hb rfl hnf hq0 hrun
  obtain ⟨b, a, hall⟩ := all_entries_queueAt _ _ _ (queueAt_of_find _ _ _ ha1)
  have htrace : (flush_all_traces "" q.thread_trace_fifo).1
      = lines_text (all_entries q.thread_trace_fifo) := by
    rw [flush_all_traces_eq]
    simp only [String.empty_append]
  refine ⟨_, _, q0, added, rfl, htrace, queueAt_of_find _ _ _ hq0, queueAt_of_find _ _ _ ha1,
    ha2, ?_, ?_, thread_entries_tagged _ _ _⟩
  · rw [hall]
    exact List.Sublist.trans ha2
      (List.Sublist.trans (List.sublist_append_right q0 added)
        (List.Sublist.trans (List.sublist_append_right b (q0 ++ added))
          (List.sublist_append_left (b ++ (q0 ++ added)) a)))
  · intro hex
    have hadd := ha3 hex
    refine ⟨hadd, b ++ q0, a, ?_, ?_⟩
    · rw [hall, hadd]
      simp only [List.append_assoc]
    · show (flush_all_traces "" q.thread_trace_fifo).1 = _
      rw [htrace, hall, hadd]
      simp only [lines_text_append, List.append_assoc, String.append_assoc]

/-- C7, amended, at concrete inputs. In the process in which threads 0 and 1 share `W1`,
thread 0 logs `M1`, thread 1 logs `X`, thread 0 logs `M2`: the two entries of thread 0 stand
in the queued entries in their order. In the process in which thread 1 is not bound, the same
calls leave the entry of thread 1 in the queue of the empty context id, and the trace output
holds the two entries of thread 0 with nothing between them. -/
theorem fifo_law_among_threads_witness :
    (process_shared.run_steps schedule_interleaved = some process_interleaved
      ∧ List.Sublist (thread_entries 0 "W1" schedule_interleaved)
          (all_entries process_interleaved.thread_trace_fifo))
    ∧ (process_in_foo.run_steps schedule_interleaved = some process_apart
      ∧ ∃ out w3 before after,
          flush "callflow.yuml" "trace.txt" (process_apart.view 1) = Outcome.returned out w3
          ∧ out.trace = lines_text before
              ++ lines_text (thread_entries 0 "W1" schedule_interleaved)
              ++ lines_text after) := by
  refine ⟨⟨rfl, ?_⟩, rfl, ?_⟩
  · obtain ⟨_, _, _, _, _, _, _, _, _, h, _, _⟩ := fifo_law_among_threads process_shared
      process_interleaved 0 1 schedule_interleaved "callflow.yuml" "trace.txt"
      reachable_process_shared (by decide) (by decide) rfl
    exact h
  · obtain ⟨out, w3, _, _, h1, _, _, _, _, _, h, _⟩ := fifo_law_among_threads process_in_foo
      process_apart 0 1 schedule_interleaved "callflow.yuml" "trace.txt"
      reachable_process_in_foo (by decide) (by decide) rfl
    obtain ⟨_, before, after, _, h2⟩ := h (by decide)
    exact ⟨out, w3, before, after, h1, h2⟩

end ketrace
